import Mathlib

/-!
# pluginrpc-go: Spec validation, ServerRegistrar, Server dispatch, envelopes and Handler

A shallow embedding of `spec.go`, `server_registrar.go`, `server.go`, `request.go`,
`response.go` and `handler.go`.

* Go strings and byte slices holding text are Lean `String`s.
* A Go `map[string]V` is an association list with one entry per key
  (`GoMap V`); a `map[string]struct{}` used as a set is a list of its keys.
* A Go `error` built inside these files is a constructor of `Err` that records
  which statement built it and the values it quotes.
* The serve functions are values of an arbitrary type `F`; `Serve` is embedded
  as the one effect it performs and whose result it returns (`ServeAction`),
  and `ServeAction.run` executes that effect on an explicit world.
* `Handle` passes the world explicitly through the read of the input, the callback and
  the writes; the protobuf libraries and the helpers of the package that are not among the
  sources are the fields of a `Codec`.
* The error taxonomy (`Code`, `Error`, `WrapError`, `ToProto`, `NewErrorForProto`) is not
  among the sources; it is modelled from the spec and enters the round trip of an Error
  through the two error fields of a `Codec`.
-/

namespace pluginrpc

/-! ## Go maps -/

/-- Go `map[string]V`: association list, at most one entry per key. -/
abbrev GoMap (V : Type) := List (String × V)

namespace GoMap

/-- The empty map, `make(map[string]V)`. -/
def empty {V : Type} : GoMap V := []

/-- Lookup with the comma-ok idiom, `v, ok := m[k]`: `none` when `ok` is false. -/
def get? {V : Type} (m : GoMap V) (k : String) : Option V :=
  match m with
  | [] => none
  | (k', v) :: rest => if k' = k then some v else get? rest k

/-- Whether `_, ok := m[k]` has `ok` true. -/
def contains {V : Type} (m : GoMap V) (k : String) : Bool :=
  (m.get? k).isSome

/-- Assignment `m[k] = v`: replaces the entry of an existing key, adds one otherwise. -/
def set {V : Type} (m : GoMap V) (k : String) (v : V) : GoMap V :=
  match m with
  | [] => [(k, v)]
  | (k', v') :: rest => if k' = k then (k, v) :: rest else (k', v') :: set rest k v

/-- The keys visited by `for k := range m`, in the order the model stores them. -/
def keys {V : Type} (m : GoMap V) : List String :=
  m.map Prod.fst

end GoMap

/-! ## Errors -/

/-- The errors a `ServerRegistrar` accumulates in `errs`. -/
inductive RegisterErr where
  /-- Text `errors.New("server registrar already used")`. -/
  | serverRegistrarAlreadyUsed
  /-- Text `fmt.Errorf("path %q already registered", path)`. -/
  | pathAlreadyRegistered (path : String)
deriving DecidableEq, Repr

/-- The `error` values built in `spec.go`, `server.go` and `server_registrar.go`. -/
inductive Err where
  /-- Text `fmt.Errorf("duplicate procedure path: %q", path)`. -/
  | duplicateProcedurePath (path : String)
  /-- Text `fmt.Errorf("duplicate procedure args: %q", joinedArgs)`. -/
  | duplicateProcedureArgs (joinedArgs : String)
  /-- Value `errors.Join(s.errs...)`. -/
  | join (errs : List RegisterErr)
  /-- Text `fmt.Errorf("path %q not contained within spec", path)`. -/
  | pathNotContainedWithinSpec (path : String)
  /-- Text `fmt.Errorf("path %q not registered", procedure.Path())`. -/
  | pathNotRegistered (path : String)
  /-- Text `fmt.Errorf("args not recognized: %v", env.Args)`. -/
  | argsNotRecognized (args : List String)
  /-- An error returned by `marshalFlag`, passed on unchanged. -/
  | marshalFlag (message : String)
deriving DecidableEq, Repr

/-! ## Procedure and Spec (`spec.go`) -/

/-- Modelled from the spec: the `Procedure` type, whose declaration is not among
the sources. The spec's data model gives it a `path` and an ordered sequence of
strings `args`; `spec.go` and `server.go` use it only through `Path()` and
`Args()`. The record is wider than the values the constructor of the package returns:
`Procedure.Valid` states what is used of its validation. -/
structure Procedure where
  /-- Method `Path()`. -/
  Path : String
  /-- Method `Args()`. -/
  Args : List String
deriving DecidableEq, Repr

/-- Go `strings.Join(elems, sep)`. -/
def strings.Join (elems : List String) (sep : String) : String :=
  sep.intercalate elems

/-- The loop of `validateSpecProcedures`, with the two `map[string]struct{}` sets
as its state. -/
def validateSpecProcedures.loop (usedPathMap usedArgsMap : List String) :
    List Procedure → Option Err
  | [] => none
  | procedure :: rest =>
    let path := procedure.Path
    if path ∈ usedPathMap then
      some (Err.duplicateProcedurePath path)
    else
      let usedPathMap := path :: usedPathMap
      let args := procedure.Args
      if args.length > 0 then
        let joinedArgs := strings.Join args " "
        if joinedArgs ∈ usedArgsMap then
          some (Err.duplicateProcedureArgs joinedArgs)
        else
          validateSpecProcedures.loop usedPathMap (joinedArgs :: usedArgsMap) rest
      else
        validateSpecProcedures.loop usedPathMap usedArgsMap rest

/-- Function `validateSpecProcedures`: `none` is the nil error. -/
def validateSpecProcedures (procedures : List Procedure) : Option Err :=
  validateSpecProcedures.loop [] [] procedures

/-- The struct `spec`. -/
structure spec where
  procedures : List Procedure
  pathToProcedure : GoMap Procedure
deriving DecidableEq, Repr

/-- The interface `Spec`; `*spec` is its only implementation. -/
abbrev Spec := spec

/-- Function `newSpec`. -/
def newSpec (procedures : List Procedure) : Except Err spec :=
  match validateSpecProcedures procedures with
  | some err => Except.error err
  | none =>
    let pathToProcedure :=
      procedures.foldl (fun m procedure => GoMap.set m procedure.Path procedure) GoMap.empty
    Except.ok { procedures := procedures, pathToProcedure := pathToProcedure }

/-- Function `NewSpec`. -/
def NewSpec (procedures : List Procedure) : Except Err Spec :=
  newSpec procedures

/-- Method `ProcedureForPath`: `none` is the nil Procedure. -/
def spec.ProcedureForPath (s : spec) (path : String) : Option Procedure :=
  GoMap.get? s.pathToProcedure path

/-- Method `Procedures` (`slices.Clone` of the stored slice). -/
def spec.Procedures (s : spec) : List Procedure :=
  s.procedures

/-- Function `CombineSpecs`, on the list of its variadic arguments. -/
def CombineSpecs (specs : List Spec) : Except Err Spec :=
  let procedures := specs.foldl (fun procedures spec => procedures ++ spec.Procedures) []
  NewSpec procedures

/-- The Spec that `newSpec` returns for Procedures that pass `validateSpecProcedures`. -/
def spec.ofProcedures (procedures : List Procedure) : spec :=
  { procedures := procedures,
    pathToProcedure :=
      procedures.foldl (fun m procedure => GoMap.set m procedure.Path procedure) GoMap.empty }

/-- Two Procedures do not collide in `validateSpecProcedures`: their paths differ and,
when both have non-empty args, their space-joined args differ. -/
def Procedure.Distinct (p q : Procedure) : Prop :=
  p.Path ≠ q.Path ∧
    (p.Args ≠ [] → q.Args ≠ [] → strings.Join p.Args " " ≠ strings.Join q.Args " ")

/-- Modelled from the spec: what the constructor of a Procedure, declared in a file that
is not among the sources, guarantees of the Procedures it returns. The spec makes the path
a non-empty service-method identifier and the args the argument vector that selects the
Procedure, and `validateSpecProcedures` relies on args that do not contain spaces. A path
starts with `/`, as the paths of the services do; an arg contains no space and starts with
neither `/` nor `-`, so that an arg is neither a path nor a flag. -/
def Procedure.Valid (p : Procedure) : Prop :=
  p.Path.data.head? = some '/' ∧
    ∀ a ∈ p.Args, ' ' ∉ a.data ∧ a.data.head? ≠ some '/' ∧ a.data.head? ≠ some '-'

instance (p : Procedure) : Decidable p.Valid :=
  inferInstanceAs (Decidable (_ ∧ _))

/-! ## ServerRegistrar (`server_registrar.go`) -/

/-- The struct `serverRegistrar`, with serve functions of type `F`; a Go func value is an
`Option F`, `none` being the nil func. The mutex makes each method atomic, so a method is
a function from the state before the call to the state after it. -/
structure serverRegistrar (F : Type) where
  pathToServeFuncMap : GoMap (Option F)
  errs : List RegisterErr
  read : Bool

/-- Function `newServerRegistrar`. -/
def newServerRegistrar {F : Type} : serverRegistrar F :=
  { pathToServeFuncMap := GoMap.empty, errs := [], read := false }

/-- Function `NewServerRegistrar`. -/
def NewServerRegistrar {F : Type} : serverRegistrar F :=
  newServerRegistrar

/-- Method `Register`: the state after the call. -/
def serverRegistrar.Register {F : Type} (s : serverRegistrar F) (path : String)
    (serveFunc : Option F) : serverRegistrar F :=
  if s.read then
    { s with errs := s.errs ++ [RegisterErr.serverRegistrarAlreadyUsed] }
  else if GoMap.contains s.pathToServeFuncMap path then
    { s with errs := s.errs ++ [RegisterErr.pathAlreadyRegistered path] }
  else
    { s with pathToServeFuncMap := GoMap.set s.pathToServeFuncMap path serveFunc }

/-- Method `pathToServeFunc`: what the call returns, and the state after it. The map
returned is the registrar's own map object, not a copy. -/
def serverRegistrar.pathToServeFunc {F : Type} (s : serverRegistrar F) :
    Except Err (GoMap (Option F)) × serverRegistrar F :=
  let s := { s with read := true }
  if s.errs.length > 0 then
    (Except.error (Err.join s.errs), s)
  else
    (Except.ok s.pathToServeFuncMap, s)

/-- A run of `Register` calls, in call order. -/
def serverRegistrar.RegisterAll {F : Type} (s : serverRegistrar F)
    (calls : List (String × Option F)) : serverRegistrar F :=
  calls.foldl (fun s call => s.Register call.1 call.2) s

/-- Every function the map of the registrar holds is non-nil: no lookup that finds an
entry yields the nil func. -/
def serverRegistrar.FuncsNonNil {F : Type} (s : serverRegistrar F) : Prop :=
  ∀ path : String, GoMap.get? s.pathToServeFuncMap path ≠ some none

/-! ## Server (`server.go`) -/

/-- The struct `serverOptions`. -/
structure serverOptions where
  flagPrefix : String
deriving DecidableEq, Repr

/-- Function `newServerOptions`. -/
def newServerOptions : serverOptions :=
  { flagPrefix := "" }

/-- The type `ServerOption`, a `func(*serverOptions)`, as the update it performs. -/
abbrev ServerOption := serverOptions → serverOptions

/-- Function `ServerWithFlagPrefix`. -/
def ServerWithFlagPrefix (flagPrefix : String) : ServerOption :=
  fun serverOptions => { serverOptions with flagPrefix := flagPrefix }

/-- The struct `server`. -/
structure server (F : Type) where
  spec : Spec
  flagPrefix : String
  pathToServeFunc : GoMap (Option F)

/-- The interface `Server`; `*server` is its only implementation. -/
abbrev Server (F : Type) := server F

/-- Function `newServer`: what the call returns, and the registrar after it. The two
`for` loops return at the first offending entry they visit; Go leaves the order of
`range` over a map open, which only decides which offending path the error names. -/
def newServer {F : Type} (spec : Spec) (serverRegistrar : serverRegistrar F)
    (options : List ServerOption) : Except Err (server F) × pluginrpc.serverRegistrar F :=
  let serverOptions := options.foldl (fun serverOptions option => option serverOptions)
    newServerOptions
  match serverRegistrar.pathToServeFunc with
  | (Except.error err, serverRegistrar) => (Except.error err, serverRegistrar)
  | (Except.ok pathToServeFunc, serverRegistrar) =>
    match (GoMap.keys pathToServeFunc).find?
        (fun path => (spec.ProcedureForPath path).isNone) with
    | some path => (Except.error (Err.pathNotContainedWithinSpec path), serverRegistrar)
    | none =>
      match spec.Procedures.find?
          (fun procedure => !GoMap.contains pathToServeFunc procedure.Path) with
      | some procedure =>
        (Except.error (Err.pathNotRegistered procedure.Path), serverRegistrar)
      | none =>
        (Except.ok { spec := spec, flagPrefix := serverOptions.flagPrefix,
                     pathToServeFunc := pathToServeFunc }, serverRegistrar)

/-- Function `NewServer`. -/
def NewServer {F : Type} (spec : Spec) (serverRegistrar : serverRegistrar F)
    (options : List ServerOption) : Except Err (Server F) × pluginrpc.serverRegistrar F :=
  newServer spec serverRegistrar options

/-- Modelled from the spec: the constant `flagProtocolSuffix`, declared in a file that is
not among the sources; the spec names the flag `plugin-protocol`. -/
def flagProtocolSuffix : String := "plugin-protocol"

/-- Modelled from the spec: the constant `flagSpecSuffix`, declared in a file that is not
among the sources; the spec names the flag `plugin-spec`. -/
def flagSpecSuffix : String := "plugin-spec"

/-- Modelled from the spec: the function `fullFlag`, declared in a file that is not
among the sources. The flag name is prefixed with `--` and, if a prefix was configured,
`<prefix>-` is inserted. -/
def fullFlag (flagPrefix flagSuffix : String) : String :=
  if flagPrefix = "" then "--" ++ flagSuffix else "--" ++ flagPrefix ++ "-" ++ flagSuffix

/-- The generated type `pluginrpcv1beta1.Procedure`, by the two fields it carries. -/
structure ProtoProcedure where
  Path : String
  Args : List String
deriving DecidableEq, Repr

/-- The generated type `pluginrpcv1beta1.Spec`. -/
structure ProtoSpec where
  Procedures : List ProtoProcedure
deriving DecidableEq, Repr

/-- Modelled from the spec: the function `NewProtoProcedure`, declared in a file that is
not among the sources; the wire Procedure carries the path and the args. -/
def NewProtoProcedure (procedure : Procedure) : ProtoProcedure :=
  { Path := procedure.Path, Args := procedure.Args }

/-- Function `NewProtoSpec`. -/
def NewProtoSpec (spec : Spec) : ProtoSpec :=
  { Procedures := spec.Procedures.map NewProtoProcedure }

/-- What `Serve` takes from files that are not among the sources: the constant
`protocolVersion` and the function `marshalFlag` (its error by its message). -/
structure Externals where
  protocolVersion : Int
  marshalFlag : ProtoSpec → Except String String

/-- Go `strconv.Itoa`. -/
def strconv.Itoa (i : Int) : String :=
  toString i

/-- A Go `error` value: one built by this package, any other value (`X`), or an error
that wraps another with `%w`. -/
inductive GoError (X : Type) where
  | built (err : Err)
  | other (x : X)
  /-- Value `fmt.Errorf(message + ": %w", err)`. -/
  | wrapped (message : String) (err : GoError X)

/-- How a call that returns an `error` ends: it returns (`none` is the nil error) or it
panics. -/
inductive Result (X : Type) where
  | returned (err : Option (GoError X))
  | panicked

/-- An `io.Reader` as `readStdin` uses it: whether it is an `*os.File` that is a terminal,
and the effect of `io.ReadAll` on the world with the data and the error it returns. -/
structure Reader (W X : Type) where
  isTerminal : Bool
  ReadAll : W → (String × Option (GoError X)) × W

/-- The struct `Env`, over a world `W` that holds whatever the streams and the serve
functions act on: `Args`, `Stdin`, and `Stdout` by the effect of `Stdout.Write(data)` and
the error it returns. -/
structure Env (W X : Type) where
  Args : List String
  Stdin : Reader W X
  Stdout : String → W → Option (GoError X) × W

/-- A serve function `func(context.Context, Env) error` with contexts of type `C`. -/
abbrev ServeFunc (C W X : Type) := C → Env W X → W → Result X × W

/-- The one effect `Serve` performs, whose result it returns. -/
inductive ServeAction (F : Type) where
  /-- Statements `_, err := env.Stdout.Write(data); return err`. -/
  | writeStdout (data : String)
  /-- Statement `return err`, for an error built with no effect performed. -/
  | returnErr (err : Err)
  /-- Statement `return serveFunc(ctx, env)`; `none` is the nil func. -/
  | callServeFunc (serveFunc : Option F)

/-- The lookup `s.pathToServeFunc[path]`: a missing key gives the nil func. -/
def server.lookupServeFunc {F : Type} (s : server F) (path : String) : Option F :=
  (GoMap.get? s.pathToServeFunc path).getD none

/-- The `for` loop of `Serve` over `s.spec.Procedures()`, and the statement after it. -/
def server.Serve.loop {F : Type} (s : server F) (args : List String) :
    List Procedure → ServeAction F
  | [] => ServeAction.returnErr (Err.argsNotRecognized args)
  | procedure :: rest =>
    if args = [procedure.Path] then
      ServeAction.callServeFunc (s.lookupServeFunc procedure.Path)
    else if args = procedure.Args then
      ServeAction.callServeFunc (s.lookupServeFunc procedure.Path)
    else
      server.Serve.loop s args rest

/-- Method `Serve`, as the effect it performs for `env.Args`. -/
def server.Serve {F W X : Type} (x : Externals) (s : server F) (env : Env W X) :
    ServeAction F :=
  if env.Args.length = 1 ∧
      env.Args.head? = some (fullFlag s.flagPrefix flagProtocolSuffix) then
    ServeAction.writeStdout (strconv.Itoa x.protocolVersion ++ "\n")
  else if env.Args.length = 1 ∧
      env.Args.head? = some (fullFlag s.flagPrefix flagSpecSuffix) then
    match x.marshalFlag (NewProtoSpec s.spec) with
    | Except.error message => ServeAction.returnErr (Err.marshalFlag message)
    | Except.ok data => ServeAction.writeStdout (data ++ "\n")
  else
    server.Serve.loop s env.Args s.spec.Procedures

/-- Execution of the effect of `Serve` with context `ctx` and `env` on the world `w`:
the result returned and the world afterwards. -/
def ServeAction.run {C W X : Type} (a : ServeAction (ServeFunc C W X)) (ctx : C)
    (env : Env W X) (w : W) : Result X × W :=
  match a with
  | ServeAction.writeStdout data =>
    let (err, w) := env.Stdout data w
    (Result.returned err, w)
  | ServeAction.returnErr err => (Result.returned (some (GoError.built err)), w)
  | ServeAction.callServeFunc none => (Result.panicked, w)
  | ServeAction.callServeFunc (some serveFunc) => serveFunc ctx env w

/-- Method `Serve` with context `ctx` and `env`, run on the world `w`. -/
def server.ServeRun {C W X : Type} (x : Externals) (s : server (ServeFunc C W X)) (ctx : C)
    (env : Env W X) (w : W) : Result X × W :=
  (s.Serve x env).run ctx env w

/-- A Procedure matches an argument vector when the vector is `[path]` or equals its
args. -/
def Procedure.Matches (p : Procedure) (args : List String) : Prop :=
  args = [p.Path] ∨ args = p.Args

instance (p : Procedure) (args : List String) : Decidable (p.Matches args) :=
  inferInstanceAs (Decidable (_ ∨ _))

/-! ## Envelopes (`request.go`, `response.go`) -/

/-- The generated type `pluginrpcv1beta1.Request`, with `*anypb.Any` values of type `A`;
`none` is the nil body. -/
structure ProtoRequest (A : Type) where
  Body : Option A

/-- The generated type `pluginrpcv1beta1.Error`. -/
structure ProtoError where
  Code : Int
  Message : String
deriving DecidableEq, Repr

/-- The generated type `pluginrpcv1beta1.Response`; `none` is a nil field. -/
structure ProtoResponse (A : Type) where
  Body : Option A
  Error : Option ProtoError

/-- What `request.go` and `response.go` take from the protobuf libraries and from files
of the package that are not among the sources. Request and response values are the proto
messages of type `M`.

* `toProtoMessage`: the package's conversion of an `any` to a `proto.Message`;
* `anypbNew`: library `anypb.New`;
* `anypbUnmarshalTo`: library `anypb.UnmarshalTo(body, message, proto.UnmarshalOptions{})`,
  by the error it returns and the content of `message` afterwards;
* `protojsonMarshalRequest`, `protojsonMarshalResponse`: library `protojson.Marshal`;
* `protojsonUnmarshalRequest`, `protojsonUnmarshalResponse`: library `protojson.Unmarshal`
  into a fresh envelope;
* `wrapErrorToProto`: the package's `WrapError(err).ToProto()`, `none` being nil;
* `newErrorForProto`: the `error` that `return NewErrorForProto(protoError)` returns;
* `messageName`: the full name of the type of a message. -/
structure Codec (M A X : Type) where
  toProtoMessage : M → Except (GoError X) M
  anypbNew : M → Except (GoError X) A
  anypbUnmarshalTo : A → M → Option (GoError X) × M
  protojsonMarshalRequest : ProtoRequest A → Except (GoError X) String
  protojsonUnmarshalRequest : String → Except (GoError X) (ProtoRequest A)
  protojsonMarshalResponse : ProtoResponse A → Except (GoError X) String
  protojsonUnmarshalResponse : String → Except (GoError X) (ProtoResponse A)
  wrapErrorToProto : Option (GoError X) → Option ProtoError
  newErrorForProto : ProtoError → Option (GoError X)
  messageName : M → String

/-- Function `marshalRequest`. -/
def marshalRequest {M A X : Type} (x : Codec M A X) (request : M) :
    Except (GoError X) String :=
  match x.toProtoMessage request with
  | Except.error err => Except.error err
  | Except.ok requestMessage =>
    match x.anypbNew requestMessage with
    | Except.error err => Except.error err
    | Except.ok body => x.protojsonMarshalRequest { Body := some body }

/-- Function `unmarshalRequest`: the error it returns (`none` is nil) and the content of
`request` afterwards. -/
def unmarshalRequest {M A X : Type} (x : Codec M A X) (data : String) (request : M) :
    Option (GoError X) × M :=
  if data = "" then
    (none, request)
  else
    match x.protojsonUnmarshalRequest data with
    | Except.error err => (some err, request)
    | Except.ok protoRequest =>
      match protoRequest.Body with
      | some body =>
        match x.toProtoMessage request with
        | Except.error err => (some err, request)
        | Except.ok requestMessage => x.anypbUnmarshalTo body requestMessage
      | none => (none, request)

/-- The first statements of `marshalResponse`: the body for the response, `none` being
the nil response and the nil body. -/
def marshalResponse.body {M A X : Type} (x : Codec M A X) (response : Option M) :
    Except (GoError X) (Option A) :=
  match response with
  | some response =>
    match x.toProtoMessage response with
    | Except.error err => Except.error err
    | Except.ok responseMessage =>
      match x.anypbNew responseMessage with
      | Except.error err => Except.error err
      | Except.ok body => Except.ok (some body)
  | none => Except.ok none

/-- Function `marshalResponse`. -/
def marshalResponse {M A X : Type} (x : Codec M A X) (response : Option M)
    (err : Option (GoError X)) : Except (GoError X) String :=
  match marshalResponse.body x response with
  | Except.error err => Except.error err
  | Except.ok body =>
    x.protojsonMarshalResponse { Body := body, Error := x.wrapErrorToProto err }

/-- Function `unmarshalResponse`: the error it returns (`none` is nil) and the content of
`response` afterwards. -/
def unmarshalResponse {M A X : Type} (x : Codec M A X) (data : String) (response : M) :
    Option (GoError X) × M :=
  if data = "" then
    (none, response)
  else
    match x.protojsonUnmarshalResponse data with
    | Except.error err => (some err, response)
    | Except.ok protoResponse =>
      let decoded : Option (GoError X) × M :=
        match protoResponse.Body with
        | some body =>
          match x.toProtoMessage response with
          | Except.error err => (some err, response)
          | Except.ok responseMessage => x.anypbUnmarshalTo body responseMessage
        | none => (none, response)
      match decoded with
      | (some err, response) => (some err, response)
      | (none, response) =>
        match protoResponse.Error with
        | some protoError => (x.newErrorForProto protoError, response)
        | none => (none, response)

/-- The statement `if body := protoResponse.GetBody(); body != nil { ... }` of
`unmarshalResponse`: the error with which it returns from the function, `none` when
execution goes on behind it, and the content of `response` afterwards. -/
def unmarshalResponse.body {M A X : Type} (x : Codec M A X) (body : Option A) (response : M) :
    Option (GoError X) × M :=
  match body with
  | some body =>
    match x.toProtoMessage response with
    | Except.error err => (some err, response)
    | Except.ok responseMessage => x.anypbUnmarshalTo body responseMessage
  | none => (none, response)

/-! ## Handler (`handler.go`) -/

/-- Function `readStdin`: a terminal is not read and gives no data. -/
def readStdin {W X : Type} (stdin : Reader W X) (w : W) :
    (String × Option (GoError X)) × W :=
  if stdin.isTerminal then (("", none), w) else stdin.ReadAll w

/-- The callback `handle func(context.Context, any) (any, error)` of `Handle`, with
contexts of type `C`: the response (`none` is nil) and the error it returns, and its effect
on the world. -/
abbrev HandleFunc (C M W X : Type) := C → M → W → (Option M × Option (GoError X)) × W

/-- Method `writeError`. -/
def handler.writeError {M A W X : Type} (x : Codec M A X) (env : Env W X)
    (inputErr : Option (GoError X)) (w : W) : Option (GoError X) × W :=
  match inputErr with
  | none => (none, w)
  | some inputErr =>
    match marshalResponse x none (some inputErr) with
    | Except.error err => (some err, w)
    | Except.ok data =>
      match env.Stdout data w with
      | (some err, w) => (some (GoError.wrapped "failed to write error to stdout" err), w)
      | (none, w) => (none, w)

/-- The statements of `Handle` after the callback has returned `response, err`, up to
the return of the body. -/
def handler.Handle.respond {M A W X : Type} (x : Codec M A X) (env : Env W X)
    (response : Option M) (err : Option (GoError X)) (w : W) : Option (GoError X) × W :=
  match err with
  | some err => (some err, w)
  | none =>
    match marshalResponse x response none with
    | Except.error err => (some err, w)
    | Except.ok data =>
      match env.Stdout (data ++ "\n") w with
      | (some err, w) =>
        (some (GoError.wrapped "failed to write response to stdout" err), w)
      | (none, w) => (none, w)

/-- The body of `Handle`: the value of `retErr` when the body returns, before the
deferred function runs. -/
def handler.Handle.body {C M A W X : Type} (x : Codec M A X) (ctx : C) (env : Env W X)
    (request : M) (handle : HandleFunc C M W X) (w : W) : Option (GoError X) × W :=
  match readStdin env.Stdin w with
  | ((_, some err), w) => (some err, w)
  | ((data, none), w) =>
    match unmarshalRequest x data request with
    | (some err, _) => (some err, w)
    | (none, request) =>
      match handle ctx request w with
      | ((response, err), w) => handler.Handle.respond x env response err w

/-- The deferred function of `Handle`, on the value of `retErr` the body returned: a
non-nil `retErr` is replaced by what `writeError` returns for it. -/
def handler.Handle.deferred {M A W X : Type} (x : Codec M A X) (env : Env W X)
    (retErr : Option (GoError X)) (w : W) : Option (GoError X) × W :=
  match retErr with
  | some retErr => handler.writeError x env (some retErr) w
  | none => (none, w)

/-- Method `Handle`: the body, then the deferred function. -/
def handler.Handle {C M A W X : Type} (x : Codec M A X) (ctx : C) (env : Env W X)
    (request : M) (handle : HandleFunc C M W X) (w : W) : Option (GoError X) × W :=
  handler.Handle.deferred x env (handler.Handle.body x ctx env request handle w).1
    (handler.Handle.body x ctx env request handle w).2

/-- The laws of the protobuf libraries that the envelope round trip rests on: a message
is its own `proto.Message`; `anypb.New` packs every message, and `anypb.UnmarshalTo` into a
message of the same type gives back the message `anypb.New` packed; `protojson.Marshal`
encodes every request envelope and every response envelope without an error field;
`protojson.Unmarshal` gives back the envelope that `protojson.Marshal` encoded, and the
encoding is never empty; and `WrapError(nil).ToProto()` is nil. -/
structure LawfulCodec {M A X : Type} (x : Codec M A X) : Prop where
  toProtoMessage_eq : ∀ m : M, x.toProtoMessage m = Except.ok m
  anypbNew_ok : ∀ m : M, ∃ a : A, x.anypbNew m = Except.ok a
  request_marshal_ok : ∀ r : ProtoRequest A, ∃ data : String,
    x.protojsonMarshalRequest r = Except.ok data
  response_marshal_ok : ∀ body : Option A, ∃ data : String,
    x.protojsonMarshalResponse { Body := body, Error := none } = Except.ok data
  anypb_round_trip : ∀ (m : M) (a : A) (dst : M), x.anypbNew m = Except.ok a →
    x.messageName dst = x.messageName m → x.anypbUnmarshalTo a dst = (none, m)
  request_round_trip : ∀ (r : ProtoRequest A) (data : String),
    x.protojsonMarshalRequest r = Except.ok data →
      data ≠ "" ∧ x.protojsonUnmarshalRequest data = Except.ok r
  response_round_trip : ∀ (r : ProtoResponse A) (data : String),
    x.protojsonMarshalResponse r = Except.ok data →
      data ≠ "" ∧ x.protojsonUnmarshalResponse data = Except.ok r
  wrapErrorToProto_nil : x.wrapErrorToProto none = none

/-! ## Error taxonomy -/

/-- Modelled from the spec: the type `Code`, declared in a file that is not among the
sources: the closed enumeration of the status codes that an Error carries, in the order in
which the spec lists them. The unspecified code, which is invalid for an Error, is not
among them. -/
inductive Code where
  | canceled
  | unknown
  | invalidArgument
  | deadlineExceeded
  | notFound
  | alreadyExists
  | permissionDenied
  | resourceExhausted
  | failedPrecondition
  | aborted
  | outOfRange
  | unimplemented
  | internal
  | unavailable
  | dataLoss
  | unauthenticated
deriving DecidableEq, Repr

/-- Modelled from the spec: the number that the wire form carries for a code. The codes
have the numbers of the common RPC status codes that the spec refers to, from 1 in the
order in which the spec lists them; 0 is the unspecified code. -/
def Code.toProto : Code → Int
  | Code.canceled => 1
  | Code.unknown => 2
  | Code.invalidArgument => 3
  | Code.deadlineExceeded => 4
  | Code.notFound => 5
  | Code.alreadyExists => 6
  | Code.permissionDenied => 7
  | Code.resourceExhausted => 8
  | Code.failedPrecondition => 9
  | Code.aborted => 10
  | Code.outOfRange => 11
  | Code.unimplemented => 12
  | Code.internal => 13
  | Code.unavailable => 14
  | Code.dataLoss => 15
  | Code.unauthenticated => 16

/-- Modelled from the spec: the code for the number that a wire form carries. A number
that is the number of no code, about which the spec says nothing, is taken to `unknown`,
the code the spec gives to an error that has none. -/
def Code.ofProto (protoCode : Int) : Code :=
  if protoCode = 1 then Code.canceled
  else if protoCode = 2 then Code.unknown
  else if protoCode = 3 then Code.invalidArgument
  else if protoCode = 4 then Code.deadlineExceeded
  else if protoCode = 5 then Code.notFound
  else if protoCode = 6 then Code.alreadyExists
  else if protoCode = 7 then Code.permissionDenied
  else if protoCode = 8 then Code.resourceExhausted
  else if protoCode = 9 then Code.failedPrecondition
  else if protoCode = 10 then Code.aborted
  else if protoCode = 11 then Code.outOfRange
  else if protoCode = 12 then Code.unimplemented
  else if protoCode = 13 then Code.internal
  else if protoCode = 14 then Code.unavailable
  else if protoCode = 15 then Code.dataLoss
  else if protoCode = 16 then Code.unauthenticated
  else Code.unknown

/-- Modelled from the spec: the type `Error`, declared in a file that is not among the
sources: one code and one underlying cause. The cause is kept by its message, which is
what the wire form carries of it; `code` is what method `Code` returns and `underlying`
the message of what method `Unwrap` returns. -/
structure Error where
  code : Code
  underlying : String
deriving DecidableEq, Repr

/-- Modelled from the spec: the function `WrapError`, declared in a file that is not among
the sources: nil for the nil error, an Error as it is, and for any other error value an
Error of code `unknown` with that value as its cause. `errorText` is method `Error` of
the error values, which gives the message of a cause. -/
def WrapError (errorText : GoError Error → String) (err : Option (GoError Error)) :
    Option Error :=
  match err with
  | none => none
  | some (GoError.other e) => some e
  | some err => some { code := Code.unknown, underlying := errorText err }

/-- Modelled from the spec: method `ToProto` of an Error, declared in a file that is not
among the sources: the wire form carries the number of the code and the message of the
cause; the nil Error has the nil wire form. -/
def Error.ToProto (e : Option Error) : Option ProtoError :=
  match e with
  | none => none
  | some e => some { Code := e.code.toProto, Message := e.underlying }

/-- Modelled from the spec: the function `NewErrorForProto`, declared in a file that is
not among the sources, on a non-nil wire form: an Error with the code of the wire form and
a new cause made from its message. -/
def NewErrorForProto (protoError : ProtoError) : Error :=
  { code := Code.ofProto protoError.Code, underlying := protoError.Message }

/-! ## Registered paths that are discarded -/

/-- The paths of the calls that find their path among the paths of earlier calls, in call
order; `before` lists the paths of the calls made so far. -/
def discardedPaths (before : List String) : List String → List String
  | [] => []
  | path :: rest =>
    (if path ∈ before then [path] else []) ++ discardedPaths (before ++ [path]) rest

/-! ## Concrete servers, for evaluation -/

/-- A world that is a call log: the name of each serve function called, or `stdout` for a
write, with the args of the call or the data written. -/
abbrev CallLog := List (String × List String)

/-- A serve function that appends its name and the args it is called with to the call log
and returns nil. -/
def logServeFunc (name : String) : ServeFunc Unit CallLog Empty :=
  fun _ env w => (Result.returned none, w ++ [(name, env.Args)])

/-- An `Env` with the given args, an empty `Stdin`, and a `Stdout` that appends each
write to the call log. -/
def logEnv (args : List String) : Env CallLog Empty :=
  { Args := args,
    Stdin := { isTerminal := false, ReadAll := fun w => (("", none), w) },
    Stdout := fun data w => (none, w ++ [("stdout", [data])]) }

/-- An instance of the constant and the function `Serve` takes from other files. -/
def exampleExternals : Externals :=
  { protocolVersion := 1, marshalFlag := fun _ => Except.ok "\x7b\x7d" }

/-- The server construction of the tests: `NewSpec`, then `Register` for each call on a
fresh registrar, then `NewServer`. -/
def buildServer {F : Type} (procedures : List Procedure) (calls : List (String × Option F))
    (options : List ServerOption) : Except Err (Server F) :=
  match NewSpec procedures with
  | Except.error err => Except.error err
  | Except.ok spec => (NewServer spec (NewServerRegistrar.RegisterAll calls) options).1

/-- The call log after `Serve` with the given args, on the server built for the given
Procedures with a logging serve function registered for each path, from an empty log;
`none` when the server cannot be built. -/
def serveLog (procedures : List Procedure) (args : List String) : Option CallLog :=
  (buildServer procedures (procedures.map fun p => (p.Path, some (logServeFunc p.Path)))
    []).toOption.map
    (fun srv => (srv.ServeRun exampleExternals () (logEnv args) []).2)

/-- The Procedures of the test server: `EchoRequest` and `EchoError` with args, `EchoList`
with none. -/
def echoProcedures : List Procedure :=
  [⟨"/EchoService/EchoRequest", ["echo", "request"]⟩,
   ⟨"/EchoService/EchoList", []⟩,
   ⟨"/EchoService/EchoError", ["echo", "error"]⟩]

/-- The Spec `NewSpec` returns for `echoProcedures`. -/
def echoSpec : Spec :=
  { procedures := echoProcedures,
    pathToProcedure := echoProcedures.map fun p => (p.Path, p) }

/-- A fresh registrar after one `Register` call per Procedure of `echoProcedures`, each
with a logging serve function. -/
def echoRegistrar : serverRegistrar (ServeFunc Unit CallLog Empty) :=
  NewServerRegistrar.RegisterAll
    (echoProcedures.map fun p => (p.Path, some (logServeFunc p.Path)))

/-- The Server `NewServer` returns for `echoSpec` and `echoRegistrar` with no option. -/
def echoServer : Server (ServeFunc Unit CallLog Empty) :=
  { spec := echoSpec, flagPrefix := "",
    pathToServeFunc := echoProcedures.map fun p => (p.Path, some (logServeFunc p.Path)) }

/-! ## A concrete codec and handler environment, for evaluation -/

/-- The character of a code from 0 to 16 in the toy encoding. -/
def toyCodeChar (code : Int) : Option Char :=
  if 0 ≤ code ∧ code < 17 then some (Char.ofNat (48 + code.toNat)) else none

/-- The code of a character in the toy encoding. -/
def toyCharCode (c : Char) : Int :=
  (c.toNat : Int) - 48

/-- The toy decoding of a request envelope from its characters. -/
def toyDecodeRequest : List Char → Except (GoError ProtoError) (ProtoRequest String)
  | ['-'] => Except.ok { Body := none }
  | 'B' :: rest => Except.ok { Body := some (String.mk rest) }
  | _ => Except.error (GoError.other { Code := 3, Message := "invalid request" })

/-- The toy decoding of a response envelope from its characters. -/
def toyDecodeResponse : List Char → Except (GoError ProtoError) (ProtoResponse String)
  | ['-'] => Except.ok { Body := none, Error := none }
  | 'B' :: rest => Except.ok { Body := some (String.mk rest), Error := none }
  | 'E' :: c :: rest =>
    Except.ok { Body := none,
                Error := some { Code := toyCharCode c, Message := String.mk rest } }
  | _ => Except.error (GoError.other { Code := 3, Message := "invalid response" })

/-- The toy encoding of a response envelope. -/
def toyEncodeResponse (r : ProtoResponse String) : Except (GoError ProtoError) String :=
  match r.Body, r.Error with
  | none, none => Except.ok "-"
  | some b, none => Except.ok ("B" ++ b)
  | none, some e =>
    match toyCodeChar e.Code with
    | some c => Except.ok ("E" ++ String.singleton c ++ e.Message)
    | none => Except.error (GoError.other { Code := 13, Message := "invalid code" })
  | some _, some _ =>
    Except.error (GoError.other { Code := 13, Message := "body and error" })

/-- A toy codec: a message is the string of its one field and packs to itself; an
envelope is encoded as `-` when empty, `B` and the body, or `E`, the character of the
code and the message; an envelope with both a body and an error is not encoded. Errors
other than wire errors convert to code 2. -/
def toyCodec : Codec String String ProtoError :=
  { toProtoMessage := fun m => Except.ok m
    anypbNew := fun m => Except.ok m
    anypbUnmarshalTo := fun a _ => (none, a)
    protojsonMarshalRequest := fun r =>
      match r.Body with
      | none => Except.ok "-"
      | some b => Except.ok ("B" ++ b)
    protojsonUnmarshalRequest := fun data => toyDecodeRequest data.data
    protojsonMarshalResponse := toyEncodeResponse
    protojsonUnmarshalResponse := fun data => toyDecodeResponse data.data
    wrapErrorToProto := fun err =>
      match err with
      | none => none
      | some (GoError.other e) => some e
      | some (GoError.built _) => some { Code := 2, Message := "error" }
      | some (GoError.wrapped message _) => some { Code := 2, Message := message }
    newErrorForProto := fun e => some (GoError.other e)
    messageName := fun _ => "toy.Message" }

/-- The error with which the toy codec over Errors fails where `toyCodec` fails. -/
def toyCodecFailure (err : GoError ProtoError) : GoError Error :=
  match err with
  | GoError.other e => GoError.other (NewErrorForProto e)
  | _ => GoError.other { code := Code.internal, underlying := "toy codec" }

/-- The toy codec with Errors as its error values: the encodings are those of `toyCodec`
and the error conversions are those of the error taxonomy, the message of an error value
that is no Error being `error`. -/
def toyErrorCodec : Codec String String Error :=
  { toProtoMessage := fun m => Except.ok m
    anypbNew := fun m => Except.ok m
    anypbUnmarshalTo := fun a _ => (none, a)
    protojsonMarshalRequest := fun r =>
      (toyCodec.protojsonMarshalRequest r).mapError toyCodecFailure
    protojsonUnmarshalRequest := fun data =>
      (toyCodec.protojsonUnmarshalRequest data).mapError toyCodecFailure
    protojsonMarshalResponse := fun r => (toyEncodeResponse r).mapError toyCodecFailure
    protojsonUnmarshalResponse := fun data =>
      (toyDecodeResponse data.data).mapError toyCodecFailure
    wrapErrorToProto := fun err => Error.ToProto (WrapError (fun _ => "error") err)
    newErrorForProto := fun protoError => some (GoError.other (NewErrorForProto protoError))
    messageName := fun _ => "toy.Message" }

/-- An `Env` for `Handle` over the call log: `Stdin` holds the given data and records the
read, `Stdout` records each write. -/
def handlerEnv (stdin : String) : Env CallLog ProtoError :=
  { Args := [],
    Stdin := { isTerminal := false, ReadAll := fun w => ((stdin, none), w ++ [("stdin", [])]) },
    Stdout := fun data w => (none, w ++ [("stdout", [data])]) }

/-- The callback of `EchoRequest` in the tests: the response carries the message of the
request; the call is recorded with the request it received. -/
def echoRequestHandle : HandleFunc Unit String CallLog ProtoError :=
  fun _ request w => ((some request, none), w ++ [("handle", [request])])

/-- The callback of `EchoError` in the tests, for a fixed code and message: no response
and an error with that code and message. -/
def echoErrorHandle (code : Int) (message : String) :
    HandleFunc Unit String CallLog ProtoError :=
  fun _ request w =>
    ((none, some (GoError.other { Code := code, Message := message })),
      w ++ [("handle", [request])])

/-- A Server whose Spec holds a Procedure with the protocol-version flag as its args and
one with the flag as its path, a logging serve function registered for each. -/
def flagSpecServer : Server (ServeFunc Unit CallLog Empty) :=
  { spec := spec.ofProcedures [⟨"/a", ["--plugin-protocol"]⟩, ⟨"--plugin-protocol", []⟩],
    flagPrefix := "",
    pathToServeFunc := [("/a", some (logServeFunc "/a")),
      ("--plugin-protocol", some (logServeFunc "--plugin-protocol"))] }

/-! ## Theorems -/

/-! ### Lists and Go maps -/

/-- A relation holds pairwise on a list when it holds between the entries at any two
indices in increasing order. -/
theorem pairwise_iff_index {α : Type} (R : α → α → Prop) (l : List α) :
    l.Pairwise R ↔ ∀ (i j : Nat) (a b : α), i < j → l[i]? = some a → l[j]? = some b → R a b := by
  rw [List.pairwise_iff_getElem]
  constructor
  · intro h i j a b hij ha hb
    obtain ⟨hi, rfl⟩ := List.getElem?_eq_some.mp ha
    obtain ⟨hj, rfl⟩ := List.getElem?_eq_some.mp hb
    exact h i j hi hj hij
  · intro h i j hi hj hij
    exact h i j _ _ hij (List.getElem?_eq_getElem hi) (List.getElem?_eq_getElem hj)

namespace GoMap

/-- Lookup after an assignment. -/
theorem get?_set {V : Type} (m : GoMap V) (k k' : String) (v : V) :
    get? (set m k v) k' = if k = k' then some v else get? m k' := by
  induction m with
  | nil => simp [set, get?]
  | cons e rest ih =>
    obtain ⟨k₀, v₀⟩ := e
    by_cases h : k₀ = k
    · subst h
      by_cases h' : k₀ = k' <;> simp [set, get?, h']
    · by_cases h' : k = k'
      · subst h'
        simp [set, get?, h, ih]
      · by_cases h'' : k₀ = k'
        · subst h''
          simp [set, get?, h, h']
        · simp [set, get?, h, h', h'', ih]

/-- Assignment to a key that is absent appends the entry. -/
theorem keys_set_of_not_contains {V : Type} (m : GoMap V) (k : String) (v : V)
    (h : get? m k = none) : set m k v = m ++ [(k, v)] := by
  induction m with
  | nil => rfl
  | cons e rest ih =>
    obtain ⟨k₀, v₀⟩ := e
    by_cases h' : k₀ = k
    · simp [get?, h'] at h
    · simp only [get?, h', if_false] at h
      simp [set, h', ih h]

/-- The comma-ok lookup fails exactly on the strings that are no key. -/
theorem get?_eq_none_iff {V : Type} (m : GoMap V) (k : String) :
    get? m k = none ↔ k ∉ keys m := by
  induction m with
  | nil => simp [get?, keys]
  | cons e rest ih =>
    obtain ⟨k₀, v₀⟩ := e
    by_cases h' : k₀ = k
    · simp [get?, keys, h']
    · simp only [get?, h', if_false, ih]
      simp [keys, Ne.symm h']

end GoMap

/-- The comma-ok lookup succeeds exactly on the keys. -/
theorem GoMap.contains_iff {V : Type} (m : GoMap V) (k : String) :
    GoMap.contains m k = true ↔ k ∈ GoMap.keys m := by
  unfold GoMap.contains
  rw [← not_iff_not, ← GoMap.get?_eq_none_iff]
  cases GoMap.get? m k <;> simp

/-! ### `strings.Join` -/

/-- Equal args have equal joined signatures. -/
theorem strings.Join_congr {a b : List String} (h : a = b) :
    strings.Join a " " = strings.Join b " " := by rw [h]

/-- The characters after the first element of a joined string: each further element
preceded by a space. -/
theorem intercalate_go_data (sep : String) (rest : List String) :
    ∀ acc : String, (String.intercalate.go acc sep rest).data =
      acc.data ++ (rest.map fun a => sep.data ++ a.data).flatten := by
  induction rest with
  | nil => intro acc; simp [String.intercalate.go]
  | cons a rest ih =>
    intro acc
    simp [String.intercalate.go, ih, String.data_append, List.append_assoc]

/-- The characters of a joined non-empty list: the first element, then each further
element preceded by a space. -/
theorem Join_data_cons (a : String) (rest : List String) :
    (strings.Join (a :: rest) " ").data =
      a.data ++ (rest.map fun b => ' ' :: b.data).flatten := by
  unfold strings.Join String.intercalate
  rw [intercalate_go_data]
  rfl

/-- Two space-free words followed by tails that are empty or start with a space are equal,
and so are the tails, when the concatenations are equal. -/
theorem word_tail_inj :
    ∀ (u v t t' : List Char), ' ' ∉ u → ' ' ∉ v →
      (t = [] ∨ ∃ r, t = ' ' :: r) → (t' = [] ∨ ∃ r, t' = ' ' :: r) →
      u ++ t = v ++ t' → u = v ∧ t = t' := by
  intro u
  induction u with
  | nil =>
    intro v t t' _ hv ht ht' h
    cases v with
    | nil => exact ⟨rfl, h⟩
    | cons c v =>
      exfalso
      rcases ht with rfl | ⟨r, rfl⟩
      · simp at h
      · simp only [List.nil_append, List.cons_append, List.cons.injEq] at h
        exact hv (h.1 ▸ List.mem_cons_self _ _)
  | cons c u ih =>
    intro v t t' hu hv ht ht' h
    cases v with
    | nil =>
      exfalso
      rcases ht' with rfl | ⟨r, rfl⟩
      · simp at h
      · simp only [List.nil_append, List.cons_append, List.cons.injEq] at h
        exact hu (h.1 ▸ List.mem_cons_self _ _)
    | cons d v =>
      simp only [List.cons_append, List.cons.injEq] at h
      obtain ⟨hu', ht''⟩ := ih v t t' (fun hm => hu (List.mem_cons_of_mem _ hm))
        (fun hm => hv (List.mem_cons_of_mem _ hm)) ht ht' h.2
      exact ⟨by rw [h.1, hu'], ht''⟩

/-- The part of a joined string after its first element is empty or starts with a
space. -/
theorem spaced_tail_shape (rest : List String) :
    (rest.map fun b => ' ' :: b.data).flatten = [] ∨
      ∃ r, (rest.map fun b => ' ' :: b.data).flatten = ' ' :: r := by
  cases rest with
  | nil => exact Or.inl rfl
  | cons b rest => exact Or.inr ⟨_, rfl⟩

/-- Space-free elements are determined by the part of the joined string after the first
element. -/
theorem spaced_tail_inj :
    ∀ (l₁ l₂ : List String), (∀ a ∈ l₁, ' ' ∉ a.data) → (∀ a ∈ l₂, ' ' ∉ a.data) →
      (l₁.map fun b => ' ' :: b.data).flatten = (l₂.map fun b => ' ' :: b.data).flatten →
      l₁ = l₂ := by
  intro l₁
  induction l₁ with
  | nil =>
    intro l₂ _ _ h
    cases l₂ with
    | nil => rfl
    | cons b l₂ => simp at h
  | cons a l₁ ih =>
    intro l₂ h₁ h₂ h
    cases l₂ with
    | nil => simp at h
    | cons b l₂ =>
      simp only [List.map_cons, List.flatten_cons, List.cons_append, List.cons.injEq,
        true_and] at h
      obtain ⟨hab, htl⟩ := word_tail_inj a.data b.data _ _
        (h₁ a (List.mem_cons_self _ _)) (h₂ b (List.mem_cons_self _ _))
        (spaced_tail_shape l₁) (spaced_tail_shape l₂) h
      have hl := ih l₂ (fun c hc => h₁ c (List.mem_cons_of_mem _ hc))
        (fun c hc => h₂ c (List.mem_cons_of_mem _ hc)) htl
      rw [String.ext hab, hl]

/-- On non-empty args free of spaces, `strings.Join` with a space is injective: different
sequences have different joined signatures, as the comment in `validateSpecProcedures`
relies on. -/
theorem Join_injective_of_no_space (args₁ args₂ : List String)
    (hne₁ : args₁ ≠ []) (hne₂ : args₂ ≠ [])
    (h₁ : ∀ a ∈ args₁, ' ' ∉ a.data) (h₂ : ∀ a ∈ args₂, ' ' ∉ a.data)
    (h : strings.Join args₁ " " = strings.Join args₂ " ") : args₁ = args₂ := by
  cases args₁ with
  | nil => exact absurd rfl hne₁
  | cons a l₁ =>
    cases args₂ with
    | nil => exact absurd rfl hne₂
    | cons b l₂ =>
      have hd := congrArg String.data h
      rw [Join_data_cons, Join_data_cons] at hd
      obtain ⟨hab, htl⟩ := word_tail_inj a.data b.data _ _
        (h₁ a (List.mem_cons_self _ _)) (h₂ b (List.mem_cons_self _ _))
        (spaced_tail_shape l₁) (spaced_tail_shape l₂) hd
      have hl := spaced_tail_inj l₁ l₂ (fun c hc => h₁ c (List.mem_cons_of_mem _ hc))
        (fun c hc => h₂ c (List.mem_cons_of_mem _ hc)) htl
      rw [String.ext hab, hl]

/-! ### `validateSpecProcedures` and `newSpec` -/

/-- The loop of `validateSpecProcedures` returns nil exactly when the remaining Procedures
are pairwise distinct and none of them has a path or a non-empty joined signature that is
already in the sets. -/
theorem validateSpecProcedures.loop_eq_none_iff (procedures : List Procedure) :
    ∀ usedPathMap usedArgsMap : List String,
      validateSpecProcedures.loop usedPathMap usedArgsMap procedures = none ↔
        procedures.Pairwise Procedure.Distinct ∧
          ∀ p ∈ procedures, p.Path ∉ usedPathMap ∧
            (p.Args ≠ [] → strings.Join p.Args " " ∉ usedArgsMap) := by
  induction procedures with
  | nil => intro _ _; simp [validateSpecProcedures.loop]
  | cons p rest ih =>
    intro usedPathMap usedArgsMap
    have hlen : p.Args.length > 0 ↔ p.Args ≠ [] := List.length_pos
    simp only [validateSpecProcedures.loop, List.pairwise_cons, List.forall_mem_cons]
    by_cases hp : p.Path ∈ usedPathMap
    · simp [hp]
    · by_cases ha : p.Args = []
      · have hnpos : ¬ p.Args.length > 0 := by simp [ha]
        rw [if_neg hp, if_neg hnpos, ih]
        simp only [List.mem_cons, not_or, Procedure.Distinct]
        constructor
        · rintro ⟨hpw, hall⟩
          refine ⟨⟨fun q hq => ⟨fun h => (hall q hq).1.1 h.symm, fun h => absurd ha h⟩, hpw⟩,
            ⟨hp, fun h => absurd ha h⟩, fun q hq => ⟨(hall q hq).1.2, (hall q hq).2⟩⟩
        · rintro ⟨⟨hd, hpw⟩, _, hall⟩
          exact ⟨hpw, fun q hq => ⟨⟨fun h => (hd q hq).1 h.symm, (hall q hq).1⟩, (hall q hq).2⟩⟩
      · have hpos : p.Args.length > 0 := hlen.mpr ha
        by_cases hj : strings.Join p.Args " " ∈ usedArgsMap
        · rw [if_neg hp, if_pos hpos, if_pos hj]
          constructor
          · intro h; cases h
          · intro h
            exact absurd hj (h.2.1.2 ha)
        · rw [if_neg hp, if_pos hpos, if_neg hj, ih]
          simp only [List.mem_cons, not_or, Procedure.Distinct]
          constructor
          · rintro ⟨hpw, hall⟩
            refine ⟨⟨fun q hq => ⟨fun h => (hall q hq).1.1 h.symm,
              fun _ hq' h => ((hall q hq).2 hq').1 h.symm⟩, hpw⟩,
              ⟨hp, fun _ => hj⟩, fun q hq => ⟨(hall q hq).1.2, fun h => ((hall q hq).2 h).2⟩⟩
          · rintro ⟨⟨hd, hpw⟩, _, hall⟩
            exact ⟨hpw, fun q hq => ⟨⟨fun h => (hd q hq).1 h.symm, (hall q hq).1⟩,
              fun h => ⟨fun h' => (hd q hq).2 ha h h'.symm, (hall q hq).2 h⟩⟩⟩

/-- `NewSpec` returns a Spec exactly when the Procedures are pairwise distinct; the Spec
holds the list and the map built from it. -/
theorem NewSpec_ok_iff (procedures : List Procedure) (s : Spec) :
    NewSpec procedures = Except.ok s ↔
      procedures.Pairwise Procedure.Distinct ∧
        s = { procedures := procedures,
              pathToProcedure := procedures.foldl
                (fun m procedure => GoMap.set m procedure.Path procedure) GoMap.empty } := by
  unfold NewSpec newSpec
  have h := validateSpecProcedures.loop_eq_none_iff procedures [] []
  unfold validateSpecProcedures
  cases hv : validateSpecProcedures.loop [] [] procedures with
  | none =>
    have := h.mp hv
    simp [this.1, eq_comm]
  | some e =>
    have : ¬ procedures.Pairwise Procedure.Distinct := by
      intro hpw
      have := h.mpr ⟨hpw, by simp⟩
      simp [hv] at this
    simp [this]

/-- The map `newSpec` builds: on a path of no Procedure it keeps the initial entry. -/
theorem pathToProcedure_get?_of_not_mem (procedures : List Procedure) (path : String)
    (h : ∀ p ∈ procedures, p.Path ≠ path) :
    ∀ m : GoMap Procedure,
      GoMap.get? (procedures.foldl (fun m procedure => GoMap.set m procedure.Path procedure) m)
        path = GoMap.get? m path := by
  induction procedures with
  | nil => intro m; rfl
  | cons q rest ih =>
    intro m
    rw [List.foldl_cons, ih (fun p hp => h p (List.mem_cons_of_mem _ hp)), GoMap.get?_set,
      if_neg (h q (List.mem_cons_self _ _))]

/-- The map `newSpec` builds sends the path of each Procedure to that Procedure when
paths are pairwise distinct. -/
theorem pathToProcedure_get?_of_mem (procedures : List Procedure)
    (hd : procedures.Pairwise (fun p q => p.Path ≠ q.Path)) (p : Procedure) (hp : p ∈ procedures) :
    ∀ m : GoMap Procedure,
      GoMap.get? (procedures.foldl (fun m procedure => GoMap.set m procedure.Path procedure) m)
        p.Path = some p := by
  induction procedures with
  | nil => cases hp
  | cons q rest ih =>
    intro m
    rw [List.pairwise_cons] at hd
    rw [List.foldl_cons]
    rcases List.mem_cons.mp hp with rfl | hmem
    · rw [pathToProcedure_get?_of_not_mem rest p.Path (fun r hr => (hd.1 r hr).symm),
        GoMap.get?_set, if_pos rfl]
    · exact ih hd.2 hmem _

/-- On a Spec returned by `NewSpec`, `ProcedureForPath` is non-nil exactly on the paths of
the Procedures. -/
theorem NewSpec_ProcedureForPath_isSome (procedures : List Procedure) (spec : Spec)
    (hspec : NewSpec procedures = Except.ok spec) (path : String) :
    (spec.ProcedureForPath path).isSome = true ↔
      path ∈ spec.Procedures.map Procedure.Path := by
  obtain ⟨hpw, rfl⟩ := (NewSpec_ok_iff procedures spec).mp hspec
  unfold spec.ProcedureForPath spec.Procedures
  simp only
  constructor
  · intro h
    by_contra hnot
    have : ∀ p ∈ procedures, p.Path ≠ path := by
      intro p hp heq
      exact hnot (List.mem_map.mpr ⟨p, hp, heq⟩)
    rw [pathToProcedure_get?_of_not_mem procedures path this] at h
    simp [GoMap.empty, GoMap.get?] at h
  · intro h
    obtain ⟨p, hp, rfl⟩ := List.mem_map.mp h
    rw [pathToProcedure_get?_of_mem procedures (hpw.imp fun h => h.1) p hp]
    rfl

/-- When no arg contains a space, Procedures with pairwise different paths and pairwise
different non-empty args, as sequences of strings, are accepted by `NewSpec`. -/
theorem NewSpec_ok_of_no_space (procedures : List Procedure)
    (hspace : ∀ p ∈ procedures, ∀ a ∈ p.Args, ' ' ∉ a.data)
    (hd : procedures.Pairwise fun p q =>
      p.Path ≠ q.Path ∧ (p.Args ≠ [] → q.Args ≠ [] → p.Args ≠ q.Args)) :
    ∃ s : Spec, NewSpec procedures = Except.ok s ∧ s.Procedures = procedures := by
  refine ⟨_, (NewSpec_ok_iff procedures _).mpr ⟨?_, rfl⟩, rfl⟩
  rw [List.pairwise_iff_forall_sublist] at hd ⊢
  intro p q hsub
  have hp : p ∈ procedures := hsub.subset (List.mem_cons_self _ _)
  have hq : q ∈ procedures :=
    hsub.subset (List.mem_cons_of_mem _ (List.mem_cons_self _ _))
  refine ⟨(hd hsub).1, fun hpne hqne hjoin => (hd hsub).2 hpne hqne ?_⟩
  exact Join_injective_of_no_space p.Args q.Args hpne hqne (hspace p hp) (hspace q hq) hjoin

/-! ### `serverRegistrar` -/

/-- What `pathToServeFunc` returns. -/
theorem serverRegistrar.pathToServeFunc_fst {F : Type} (r : serverRegistrar F) :
    r.pathToServeFunc.1 =
      if r.errs = [] then Except.ok r.pathToServeFuncMap else Except.error (Err.join r.errs) := by
  unfold serverRegistrar.pathToServeFunc
  cases h : r.errs with
  | nil => simp [h]
  | cons e es => simp [h]

/-- The registrar after `pathToServeFunc`: the same, marked read. -/
theorem serverRegistrar.pathToServeFunc_snd {F : Type} (r : serverRegistrar F) :
    r.pathToServeFunc.2 = { r with read := true } := by
  unfold serverRegistrar.pathToServeFunc
  cases h : r.errs with
  | nil => simp [h]
  | cons e es => simp [h]

/-- On a read registrar `Register` only appends the `already used` error. -/
theorem serverRegistrar.Register_of_read {F : Type} (r : serverRegistrar F)
    (hread : r.read = true) (path : String) (serveFunc : Option F) :
    r.Register path serveFunc =
      { r with errs := r.errs ++ [RegisterErr.serverRegistrarAlreadyUsed] } := by
  unfold serverRegistrar.Register
  rw [if_pos hread]

/-- On a read registrar a run of `Register` calls appends one `already used` error per
call and changes nothing else. -/
theorem serverRegistrar.RegisterAll_of_read {F : Type} (calls : List (String × Option F)) :
    ∀ r : serverRegistrar F, r.read = true →
      r.RegisterAll calls =
        { r with errs := r.errs ++
            List.replicate calls.length RegisterErr.serverRegistrarAlreadyUsed } := by
  induction calls with
  | nil => intro r _; simp [serverRegistrar.RegisterAll]
  | cons c rest ih =>
    intro r hread
    have hstep : r.RegisterAll (c :: rest) = (r.Register c.1 c.2).RegisterAll rest := rfl
    have hreg := serverRegistrar.Register_of_read r hread c.1 c.2
    rw [hstep, ih (r.Register c.1 c.2) (by rw [hreg]; exact hread), hreg]
    simp [List.replicate_succ, List.append_assoc]

/-- No call is discarded exactly when the paths are pairwise different and none was
registered before. -/
theorem discardedPaths_eq_nil_iff (paths : List String) :
    ∀ before : List String,
      discardedPaths before paths = [] ↔ paths.Nodup ∧ ∀ x ∈ paths, x ∉ before := by
  induction paths with
  | nil => intro _; simp [discardedPaths]
  | cons p rest ih =>
    intro before
    unfold discardedPaths
    rw [List.append_eq_nil, ih, List.nodup_cons]
    by_cases hp : p ∈ before
    · simp [hp]
    · rw [if_neg hp]
      constructor
      · rintro ⟨-, hnd, h⟩
        refine ⟨⟨fun hmem => ?_, hnd⟩, fun x hx => ?_⟩
        · exact h p hmem (List.mem_append_right _ (List.mem_singleton_self p))
        · rcases List.mem_cons.mp hx with rfl | hx
          · exact hp
          · exact fun hb => h x hx (List.mem_append_left _ hb)
      · rintro ⟨⟨hnot, hnd⟩, h⟩
        refine ⟨rfl, hnd, fun x hx hb => ?_⟩
        rcases List.mem_append.mp hb with hb | hb
        · exact h x (List.mem_cons_of_mem _ hx) hb
        · rw [List.mem_singleton] at hb
          exact hnot (hb ▸ hx)

/-- State of an unread registrar after a run of `Register` calls: it stays unread, gains
one `path already registered` error per call whose path is already a key or was the path
of an earlier call of the run, and keeps for each path its entry, or else the first call
of the run with that path. -/
theorem serverRegistrar.RegisterAll_of_unread {F : Type} (calls : List (String × Option F)) :
    ∀ (r : serverRegistrar F) (before : List String), r.read = false →
      (∀ x, x ∈ GoMap.keys r.pathToServeFuncMap ↔ x ∈ before) →
      (r.RegisterAll calls).read = false ∧
      (r.RegisterAll calls).errs = r.errs ++
        (discardedPaths before (calls.map Prod.fst)).map RegisterErr.pathAlreadyRegistered ∧
      ∀ path : String, GoMap.get? (r.RegisterAll calls).pathToServeFuncMap path =
        match GoMap.get? r.pathToServeFuncMap path with
        | some f => some f
        | none => (calls.find? (fun c => decide (c.1 = path))).map Prod.snd := by
  induction calls with
  | nil =>
    intro r before hread _
    refine ⟨hread, by simp [serverRegistrar.RegisterAll, discardedPaths], fun path => ?_⟩
    cases h : GoMap.get? r.pathToServeFuncMap path <;>
      simp [serverRegistrar.RegisterAll, h]
  | cons c rest ih =>
    intro r before hread hkeys
    have hstep : r.RegisterAll (c :: rest) = (r.Register c.1 c.2).RegisterAll rest := rfl
    rw [hstep]
    have hnread : ¬ r.read = true := by simp [hread]
    by_cases hc : GoMap.contains r.pathToServeFuncMap c.1 = true
    · have hreg : r.Register c.1 c.2 =
          { r with errs := r.errs ++ [RegisterErr.pathAlreadyRegistered c.1] } := by
        unfold serverRegistrar.Register
        rw [if_neg hnread, if_pos hc]
      have hmem : c.1 ∈ before := (hkeys c.1).mp ((GoMap.contains_iff _ _).mp hc)
      obtain ⟨h1, h2, h3⟩ := ih (r.Register c.1 c.2) (before ++ [c.1])
        (by rw [hreg]; exact hread)
        (by rw [hreg]; intro x; simp only [List.mem_append, List.mem_singleton]
            constructor
            · intro h; exact Or.inl ((hkeys x).mp h)
            · rintro (h | h)
              · exact (hkeys x).mpr h
              · rw [h]; exact (hkeys c.1).mpr hmem)
      refine ⟨h1, ?_, fun path => ?_⟩
      · rw [h2, hreg]
        simp [discardedPaths, hmem, List.append_assoc]
      · rw [h3 path, hreg]
        simp only
        cases hg : GoMap.get? r.pathToServeFuncMap path with
        | some f => rfl
        | none =>
          have hne : c.1 ≠ path := by
            intro heq
            rw [heq] at hc
            simp [GoMap.contains, hg] at hc
          simp [List.find?, hne]
    · have hreg : r.Register c.1 c.2 =
          { r with pathToServeFuncMap := GoMap.set r.pathToServeFuncMap c.1 c.2 } := by
        unfold serverRegistrar.Register
        rw [if_neg hnread, if_neg hc]
      have hnone : GoMap.get? r.pathToServeFuncMap c.1 = none := by
        cases hg : GoMap.get? r.pathToServeFuncMap c.1 with
        | none => rfl
        | some f => simp [GoMap.contains, hg] at hc
      have hnmem : c.1 ∉ before := fun h =>
        hc ((GoMap.contains_iff _ _).mpr ((hkeys c.1).mpr h))
      obtain ⟨h1, h2, h3⟩ := ih (r.Register c.1 c.2) (before ++ [c.1])
        (by rw [hreg]; exact hread)
        (by rw [hreg, GoMap.keys_set_of_not_contains _ _ _ hnone]
            intro x
            simp only [GoMap.keys, List.map_append, List.map_cons, List.map_nil,
              List.mem_append, List.mem_singleton]
            constructor
            · rintro (h | h)
              · exact Or.inl ((hkeys x).mp h)
              · exact Or.inr h
            · rintro (h | h)
              · exact Or.inl ((hkeys x).mpr h)
              · exact Or.inr h)
      refine ⟨h1, ?_, fun path => ?_⟩
      · rw [h2, hreg]
        simp [discardedPaths, hnmem]
      · rw [h3 path, hreg]
        simp only
        rw [GoMap.get?_set]
        by_cases heq : c.1 = path
        · subst heq
          simp [hnone, List.find?]
        · simp only [heq, if_false]
          cases hg : GoMap.get? r.pathToServeFuncMap path with
          | some f => rfl
          | none => simp [List.find?, heq]

/-- With pairwise different paths, the first call with the path of a call is that call. -/
theorem find?_of_nodup_fst {F : Type} (calls : List (String × Option F))
    (hnd : (calls.map Prod.fst).Nodup) (c : String × Option F) (hc : c ∈ calls) :
    calls.find? (fun c' => decide (c'.1 = c.1)) = some c := by
  induction calls with
  | nil => cases hc
  | cons d rest ih =>
    rw [List.map_cons, List.nodup_cons] at hnd
    rcases List.mem_cons.mp hc with rfl | hmem
    · simp [List.find?]
    · have hne : d.1 ≠ c.1 := by
        intro heq
        exact hnd.1 (heq ▸ List.mem_map_of_mem Prod.fst hmem)
      simp only [List.find?, hne, decide_False]
      exact ih hnd.2 hmem

/-! ### `newServer` -/

/-- What `newServer` returns, by the three checks it makes. -/
theorem newServer_fst {F : Type} (spec : Spec) (r : serverRegistrar F)
    (options : List ServerOption) :
    (newServer spec r options).1 =
      if r.errs = [] then
        match (GoMap.keys r.pathToServeFuncMap).find?
            (fun path => (spec.ProcedureForPath path).isNone) with
        | some path => Except.error (Err.pathNotContainedWithinSpec path)
        | none =>
          match spec.Procedures.find?
              (fun procedure => !GoMap.contains r.pathToServeFuncMap procedure.Path) with
          | some procedure => Except.error (Err.pathNotRegistered procedure.Path)
          | none =>
            Except.ok { spec := spec,
                        flagPrefix := (options.foldl (fun serverOptions option =>
                          option serverOptions) newServerOptions).flagPrefix,
                        pathToServeFunc := r.pathToServeFuncMap }
      else Except.error (Err.join r.errs) := by
  unfold newServer
  have h1 := serverRegistrar.pathToServeFunc_fst r
  revert h1
  rcases r.pathToServeFunc with ⟨res, r'⟩
  intro h1
  simp only at h1
  subst h1
  by_cases herr : r.errs = []
  · simp only [herr, if_true]
    cases (GoMap.keys r.pathToServeFuncMap).find?
        (fun path => (spec.ProcedureForPath path).isNone) with
    | some path => rfl
    | none =>
      simp only
      cases spec.Procedures.find?
          (fun procedure => !GoMap.contains r.pathToServeFuncMap procedure.Path) <;> rfl
  · simp only [herr, if_false]

/-- The registrar after `newServer`: the same, marked read. -/
theorem newServer_snd {F : Type} (spec : Spec) (r : serverRegistrar F)
    (options : List ServerOption) :
    (newServer spec r options).2 = { r with read := true } := by
  unfold newServer
  have h2 := serverRegistrar.pathToServeFunc_snd r
  revert h2
  rcases r.pathToServeFunc with ⟨res, r'⟩
  intro h2
  simp only at h2
  subst h2
  cases res with
  | error e => rfl
  | ok m =>
    simp only
    cases (GoMap.keys m).find? (fun path => (spec.ProcedureForPath path).isNone) with
    | some path => rfl
    | none =>
      simp only
      cases spec.Procedures.find? (fun procedure => !GoMap.contains m procedure.Path) <;> rfl

/-- `NewServer` returns a Server exactly when the registrar holds no error, every key of
its map has a Procedure in the Spec and every Procedure's path is a key; the Server then
holds the Spec, the configured flag prefix and the registrar's map. -/
theorem NewServer_eq_ok_iff {F : Type} (spec : Spec) (r : serverRegistrar F)
    (options : List ServerOption) (srv : Server F) :
    (NewServer spec r options).1 = Except.ok srv ↔
      r.errs = [] ∧
      (∀ path ∈ GoMap.keys r.pathToServeFuncMap, (spec.ProcedureForPath path).isSome) ∧
      (∀ p ∈ spec.Procedures, GoMap.contains r.pathToServeFuncMap p.Path = true) ∧
      srv = { spec := spec,
              flagPrefix := (options.foldl (fun serverOptions option =>
                option serverOptions) newServerOptions).flagPrefix,
              pathToServeFunc := r.pathToServeFuncMap } := by
  unfold NewServer
  rw [newServer_fst]
  by_cases herr : r.errs = []
  · simp only [herr, if_true, true_and]
    cases h1 : (GoMap.keys r.pathToServeFuncMap).find?
        (fun path => (spec.ProcedureForPath path).isNone) with
    | some path =>
      have hp := List.find?_some h1
      have hmem := List.mem_of_find?_eq_some h1
      constructor
      · intro h; cases h
      · rintro ⟨h, -⟩
        have := h path hmem
        simp only [Option.isNone_iff_eq_none] at hp
        simp [hp] at this
    | none =>
      rw [List.find?_eq_none] at h1
      have h1' : ∀ path ∈ GoMap.keys r.pathToServeFuncMap,
          (spec.ProcedureForPath path).isSome := by
        intro path hpath
        have := h1 path hpath
        cases hh : spec.ProcedureForPath path with
        | none => simp [hh] at this
        | some _ => rfl
      simp only
      cases h2 : spec.Procedures.find?
          (fun procedure => !GoMap.contains r.pathToServeFuncMap procedure.Path) with
      | some q =>
        have hq := List.find?_some h2
        have hmem := List.mem_of_find?_eq_some h2
        constructor
        · intro h; cases h
        · rintro ⟨-, h, -⟩
          have := h q hmem
          simp [this] at hq
      | none =>
        rw [List.find?_eq_none] at h2
        have h2' : ∀ p ∈ spec.Procedures,
            GoMap.contains r.pathToServeFuncMap p.Path = true := by
          intro p hp
          have := h2 p hp
          simpa using this
        simp only [Except.ok.injEq]
        constructor
        · intro h; exact ⟨h1', h2', h.symm⟩
        · intro h; exact h.2.2.symm
  · simp only [herr, if_false, false_and, iff_false]
    intro h; cases h

/-- The lookup `Serve` makes for a Procedure of the Spec finds the registrar's entry. -/
theorem NewServer_lookupServeFunc {F : Type} (spec : Spec) (r : serverRegistrar F)
    (options : List ServerOption) (srv : Server F)
    (hsrv : (NewServer spec r options).1 = Except.ok srv) (p : Procedure)
    (hp : p ∈ spec.Procedures) :
    srv.spec = spec ∧
      GoMap.get? r.pathToServeFuncMap p.Path = some (srv.lookupServeFunc p.Path) := by
  obtain ⟨_, _, hreg, rfl⟩ := (NewServer_eq_ok_iff spec r options srv).mp hsrv
  refine ⟨rfl, ?_⟩
  have := hreg p hp
  unfold GoMap.contains at this
  unfold server.lookupServeFunc
  cases h : GoMap.get? r.pathToServeFuncMap p.Path with
  | none => simp [h] at this
  | some f => rfl

/-! ### `Serve` -/

/-- The loop of `Serve` dispatches to the first Procedure, in list order, that matches the
args, and builds the `args not recognized` error when none matches. -/
theorem server.Serve.loop_eq {F : Type} (s : server F) (args : List String)
    (procedures : List Procedure) :
    server.Serve.loop s args procedures =
      match procedures.find? (fun p => decide (p.Matches args)) with
      | some p => ServeAction.callServeFunc (s.lookupServeFunc p.Path)
      | none => ServeAction.returnErr (Err.argsNotRecognized args) := by
  induction procedures with
  | nil => rfl
  | cons p rest ih =>
    by_cases h1 : args = [p.Path]
    · simp [server.Serve.loop, List.find?, Procedure.Matches, h1]
    · by_cases h2 : args = p.Args
      · simp [server.Serve.loop, List.find?, Procedure.Matches, h1, h2]
      · simp only [server.Serve.loop, List.find?, Procedure.Matches, h1, h2, if_false, ih,
          or_self, decide_False]

/-- The flag checks of `Serve` fall through to the loop when the args are neither flag. -/
theorem server.Serve_eq_loop {F W X : Type} (x : Externals) (s : server F) (env : Env W X)
    (h1 : env.Args ≠ [fullFlag s.flagPrefix flagProtocolSuffix])
    (h2 : env.Args ≠ [fullFlag s.flagPrefix flagSpecSuffix]) :
    s.Serve x env = server.Serve.loop s env.Args s.spec.Procedures := by
  have key : ∀ flag : String,
      env.Args ≠ [flag] → ¬ (env.Args.length = 1 ∧ env.Args.head? = some flag) := by
    intro flag hne ⟨hlen, hhead⟩
    apply hne
    match hargs : env.Args, hlen, hhead with
    | [a], _, hhead =>
      simp only [List.head?_cons, Option.some.injEq] at hhead
      rw [hhead]
  unfold server.Serve
  rw [if_neg (key _ h1), if_neg (key _ h2)]

/-- On the single protocol-version flag `Serve` writes the protocol version. -/
theorem server.Serve_protocol_flag {F W X : Type} (x : Externals) (s : server F) (env : Env W X)
    (h : env.Args = [fullFlag s.flagPrefix flagProtocolSuffix]) :
    s.Serve x env = ServeAction.writeStdout (strconv.Itoa x.protocolVersion ++ "\n") := by
  unfold server.Serve
  rw [if_pos (by rw [h]; exact ⟨rfl, rfl⟩)]

/-- On the single spec flag `Serve` does not build the `args not recognized` error. -/
theorem server.Serve_spec_flag {F W X : Type} (x : Externals) (s : server F) (env : Env W X)
    (h : env.Args = [fullFlag s.flagPrefix flagSpecSuffix]) :
    s.Serve x env ≠ ServeAction.returnErr (Err.argsNotRecognized env.Args) := by
  unfold server.Serve
  have h2 : env.Args.length = 1 ∧ env.Args.head? = some (fullFlag s.flagPrefix flagSpecSuffix) := by
    rw [h]; exact ⟨rfl, rfl⟩
  rw [if_pos h2]
  split
  · intro h; cases h
  · cases x.marshalFlag (NewProtoSpec s.spec) <;> intro h <;> cases h

/-- The loop of `Serve` on the args `[p.Path]` reaches `p` when no Procedure in front of
`p` has these args. -/
theorem server.Serve.loop_path {F : Type} (s : server F) (p : Procedure) :
    ∀ procedures : List Procedure, p ∈ procedures →
      (∀ q ∈ procedures.takeWhile (fun q => decide (q ≠ p)), q.Args ≠ [p.Path]) →
      server.Serve.loop s [p.Path] procedures =
        ServeAction.callServeFunc (s.lookupServeFunc p.Path) := by
  intro procedures
  induction procedures with
  | nil => intro hp; cases hp
  | cons q rest ih =>
    intro hp hfront
    by_cases hq : q = p
    · subst hq
      simp [server.Serve.loop]
    · have hmem : p ∈ rest := by
        rcases List.mem_cons.mp hp with h | h
        · exact absurd h.symm hq
        · exact h
      have htw : (q :: rest).takeWhile (fun q => decide (q ≠ p)) =
          q :: rest.takeWhile (fun q => decide (q ≠ p)) := by
        simp [List.takeWhile, hq]
      rw [htw] at hfront
      have hqargs : q.Args ≠ [p.Path] := hfront q (List.mem_cons_self _ _)
      unfold server.Serve.loop
      by_cases hpath : [p.Path] = [q.Path]
      · rw [if_pos hpath]
        have : q.Path = p.Path := by
          simp only [List.cons.injEq, and_true] at hpath
          exact hpath.symm
        rw [this]
      · rw [if_neg hpath, if_neg (fun h => hqargs h.symm)]
        exact ih hmem (fun r hr => hfront r (List.mem_cons_of_mem _ hr))

/-- The loop of `Serve` on the non-empty args of `p` reaches `p` when the Procedures are
pairwise distinct for `validateSpecProcedures` and no Procedure in front of `p` has these
args as its `[path]`. -/
theorem server.Serve.loop_args {F : Type} (s : server F) (p : Procedure)
    (hne : p.Args ≠ []) :
    ∀ procedures : List Procedure, p ∈ procedures →
      procedures.Pairwise Procedure.Distinct →
      (∀ q ∈ procedures.takeWhile (fun q => decide (q ≠ p)), p.Args ≠ [q.Path]) →
      server.Serve.loop s p.Args procedures =
        ServeAction.callServeFunc (s.lookupServeFunc p.Path) := by
  intro procedures
  induction procedures with
  | nil => intro hp; cases hp
  | cons q rest ih =>
    intro hp hpw hfront
    rw [List.pairwise_cons] at hpw
    by_cases hq : q = p
    · subst hq
      unfold server.Serve.loop
      by_cases hpath : q.Args = [q.Path]
      · rw [if_pos hpath]
      · rw [if_neg hpath, if_pos rfl]
    · have hmem : p ∈ rest := by
        rcases List.mem_cons.mp hp with h | h
        · exact absurd h.symm hq
        · exact h
      have htw : (q :: rest).takeWhile (fun q => decide (q ≠ p)) =
          q :: rest.takeWhile (fun q => decide (q ≠ p)) := by
        simp [List.takeWhile, hq]
      rw [htw] at hfront
      have hqpath : p.Args ≠ [q.Path] := hfront q (List.mem_cons_self _ _)
      have hqargs : p.Args ≠ q.Args := by
        intro h
        have hd := hpw.1 p hmem
        exact hd.2 (h ▸ hne) hne (by rw [h])
      unfold server.Serve.loop
      rw [if_neg hqpath, if_neg hqargs]
      exact ih hmem hpw.2 (fun r hr => hfront r (List.mem_cons_of_mem _ hr))

/-- Running the call of a serve function gives that function's result, and a panic for
the nil func. -/
theorem ServeAction.run_callServeFunc {C W X : Type} (serveFunc : Option (ServeFunc C W X))
    (ctx : C) (env : Env W X) (w : W) :
    (ServeAction.callServeFunc serveFunc).run ctx env w =
      match serveFunc with
      | some f => f ctx env w
      | none => (Result.panicked, w) := by
  cases serveFunc <;> rfl

/-! ### Spec validation: uniqueness and lookup -/

/-- C1: if two entries of the list share a path, or two entries with non-empty args have
the same args (as sequences, or once joined with spaces), `NewSpec` returns an error and
no Spec; and the Procedures of every Spec that `NewSpec` returns have pairwise different
paths and, among those with non-empty args, pairwise different space-joined args. -/
theorem NewSpec_rejects_duplicates (procedures : List Procedure) :
    ((∃ (i j : Nat) (p q : Procedure), i < j ∧ procedures[i]? = some p ∧
        procedures[j]? = some q ∧
        (p.Path = q.Path ∨
          (p.Args ≠ [] ∧ q.Args ≠ [] ∧
            (p.Args = q.Args ∨ strings.Join p.Args " " = strings.Join q.Args " ")))) →
      ∃ err, NewSpec procedures = Except.error err) ∧
    (∀ s : Spec, NewSpec procedures = Except.ok s →
      ∀ (i j : Nat) (p q : Procedure), i < j → s.Procedures[i]? = some p →
        s.Procedures[j]? = some q →
        p.Path ≠ q.Path ∧
          (p.Args ≠ [] → q.Args ≠ [] →
            strings.Join p.Args " " ≠ strings.Join q.Args " ")) := by
  have key : ∀ s : Spec, NewSpec procedures = Except.ok s →
      ∀ (i j : Nat) (p q : Procedure), i < j → s.Procedures[i]? = some p →
        s.Procedures[j]? = some q → Procedure.Distinct p q := by
    intro s hs
    obtain ⟨hpw, rfl⟩ := (NewSpec_ok_iff procedures s).mp hs
    exact (pairwise_iff_index _ _).mp hpw
  refine ⟨?_, key⟩
  rintro ⟨i, j, p, q, hij, hp, hq, hdup⟩
  cases hres : NewSpec procedures with
  | error err => exact ⟨err, rfl⟩
  | ok s =>
    exfalso
    obtain ⟨hpw, rfl⟩ := (NewSpec_ok_iff procedures s).mp hres
    have hd := key _ hres i j p q hij hp hq
    rcases hdup with h | ⟨hp', hq', h | h⟩
    · exact hd.1 h
    · exact hd.2 hp' hq' (strings.Join_congr h)
    · exact hd.2 hp' hq' h

/-- C1, witness: a list whose first and third entries share the path `/a` is rejected, and
the Spec returned for a valid two-entry list has different paths at indices 0 and 1. -/
theorem NewSpec_rejects_duplicates_witness :
    (∃ err, NewSpec [⟨"/a", []⟩, ⟨"/b", ["x"]⟩, ⟨"/a", ["y"]⟩] = Except.error err) ∧
    ((⟨"/a", ["x"]⟩ : Procedure).Path ≠ (⟨"/b", ["y"]⟩ : Procedure).Path ∧
      ((⟨"/a", ["x"]⟩ : Procedure).Args ≠ [] → (⟨"/b", ["y"]⟩ : Procedure).Args ≠ [] →
        strings.Join (⟨"/a", ["x"]⟩ : Procedure).Args " " ≠
          strings.Join (⟨"/b", ["y"]⟩ : Procedure).Args " ")) :=
  ⟨(NewSpec_rejects_duplicates [⟨"/a", []⟩, ⟨"/b", ["x"]⟩, ⟨"/a", ["y"]⟩]).1
      ⟨0, 2, ⟨"/a", []⟩, ⟨"/a", ["y"]⟩, by decide, rfl, rfl, Or.inl rfl⟩,
    (NewSpec_rejects_duplicates [⟨"/a", ["x"]⟩, ⟨"/b", ["y"]⟩]).2
      ⟨[⟨"/a", ["x"]⟩, ⟨"/b", ["y"]⟩], [("/a", ⟨"/a", ["x"]⟩), ("/b", ⟨"/b", ["y"]⟩)]⟩ rfl
      0 1 ⟨"/a", ["x"]⟩ ⟨"/b", ["y"]⟩ (by decide) rfl rfl⟩

/-- When the paths are pairwise different and the space-joined args of the entries with
non-empty args are pairwise different, `NewSpec` returns a Spec holding the list;
`ProcedureForPath` on it returns each Procedure for its own path and nil for every path of
no Procedure. -/
theorem NewSpec_ok_of_distinct_joined (procedures : List Procedure)
    (hpath : ∀ (i j : Nat) (p q : Procedure), i < j → procedures[i]? = some p →
      procedures[j]? = some q → p.Path ≠ q.Path)
    (hargs : ∀ (i j : Nat) (p q : Procedure), i < j → procedures[i]? = some p →
      procedures[j]? = some q → p.Args ≠ [] → q.Args ≠ [] →
      strings.Join p.Args " " ≠ strings.Join q.Args " ") :
    ∃ s : Spec, NewSpec procedures = Except.ok s ∧ s.Procedures = procedures ∧
      (∀ p ∈ procedures, s.ProcedureForPath p.Path = some p) ∧
      (∀ path : String, (∀ p ∈ procedures, p.Path ≠ path) →
        s.ProcedureForPath path = none) := by
  have hpw : procedures.Pairwise Procedure.Distinct :=
    (pairwise_iff_index _ _).mpr fun i j p q hij hp hq =>
      ⟨hpath i j p q hij hp hq, hargs i j p q hij hp hq⟩
  refine ⟨_, (NewSpec_ok_iff procedures _).mpr ⟨hpw, rfl⟩, rfl, ?_, ?_⟩
  · intro p hp
    exact pathToProcedure_get?_of_mem procedures (hpw.imp fun h => h.1) p hp _
  · intro path hnone
    exact pathToProcedure_get?_of_not_mem procedures path hnone _

/-! ### Dispatch -/

/-- C3, at the failing input: `NewSpec` accepts two Procedures with empty args, both match
the empty argument vector, and `Serve` on it calls the function of whichever comes first
in the Spec: `/a` for the order `/a`, `/b` and `/b` for the order `/b`, `/a`. -/
theorem Serve_empty_args_two_matches :
    NewSpec [⟨"/a", []⟩, ⟨"/b", []⟩] =
      Except.ok ⟨[⟨"/a", []⟩, ⟨"/b", []⟩], [("/a", ⟨"/a", []⟩), ("/b", ⟨"/b", []⟩)]⟩ ∧
    (⟨"/a", []⟩ : Procedure).Matches [] ∧ (⟨"/b", []⟩ : Procedure).Matches [] ∧
    serveLog [⟨"/a", []⟩, ⟨"/b", []⟩] [] = some [("/a", [])] ∧
    serveLog [⟨"/b", []⟩, ⟨"/a", []⟩] [] = some [("/b", [])] :=
  ⟨rfl, by decide, by decide, rfl, rfl⟩

/-- For a Server returned by `NewServer` and a Procedure `p` of its Spec, when `p.Path` is
neither the protocol-version flag nor the spec flag and no Procedure in front of `p` in
Spec order has args equal to `[p.Path]`, `Serve` with `env.Args` equal to `[p.Path]`
performs the one call `serveFunc(ctx, env)` of the function registered for `p.Path` and
returns its result. -/
theorem server.Serve_path_of_front {C W X : Type} (x : Externals) (spec : Spec)
    (r : serverRegistrar (ServeFunc C W X)) (options : List ServerOption)
    (srv : Server (ServeFunc C W X))
    (hsrv : (NewServer spec r options).1 = Except.ok srv)
    (p : Procedure) (hp : p ∈ spec.Procedures)
    (env : Env W X) (hargs : env.Args = [p.Path])
    (hprotocol : p.Path ≠ fullFlag srv.flagPrefix flagProtocolSuffix)
    (hspecflag : p.Path ≠ fullFlag srv.flagPrefix flagSpecSuffix)
    (hfront : ∀ q ∈ spec.Procedures.takeWhile (fun q => decide (q ≠ p)),
      q.Args ≠ [p.Path]) :
    ∃ serveFunc : Option (ServeFunc C W X),
      GoMap.get? r.pathToServeFuncMap p.Path = some serveFunc ∧
      srv.Serve x env = ServeAction.callServeFunc serveFunc ∧
      ∀ (ctx : C) (w : W), srv.ServeRun x ctx env w =
        match serveFunc with
        | some f => f ctx env w
        | none => (Result.panicked, w) := by
  obtain ⟨hs, hget⟩ := NewServer_lookupServeFunc spec r options srv hsrv p hp
  have hserve : srv.Serve x env =
      ServeAction.callServeFunc (srv.lookupServeFunc p.Path) := by
    rw [server.Serve_eq_loop x srv env (by rw [hargs]; simpa using hprotocol)
      (by rw [hargs]; simpa using hspecflag), hargs, hs]
    exact server.Serve.loop_path srv p spec.Procedures hp hfront
  refine ⟨_, hget, hserve, fun ctx w => ?_⟩
  unfold server.ServeRun
  rw [hserve, ServeAction.run_callServeFunc]

/-- For a Server returned by `NewServer` for a Spec returned by `NewSpec` and a Procedure
`p` of the Spec with non-empty args, when `p.Args` is neither the single protocol-version
flag nor the single spec flag and no Procedure in front of `p` in Spec order has `[path]`
equal to `p.Args`, `Serve` with `env.Args` equal to `p.Args` performs the one call
`serveFunc(ctx, env)` of the function registered for `p.Path` and returns its result. -/
theorem server.Serve_args_of_front {C W X : Type} (x : Externals) (procedures : List Procedure)
    (spec : Spec) (r : serverRegistrar (ServeFunc C W X)) (options : List ServerOption)
    (srv : Server (ServeFunc C W X))
    (hspec : NewSpec procedures = Except.ok spec)
    (hsrv : (NewServer spec r options).1 = Except.ok srv)
    (p : Procedure) (hp : p ∈ spec.Procedures) (hne : p.Args ≠ [])
    (env : Env W X) (hargs : env.Args = p.Args)
    (hprotocol : p.Args ≠ [fullFlag srv.flagPrefix flagProtocolSuffix])
    (hspecflag : p.Args ≠ [fullFlag srv.flagPrefix flagSpecSuffix])
    (hfront : ∀ q ∈ spec.Procedures.takeWhile (fun q => decide (q ≠ p)),
      p.Args ≠ [q.Path]) :
    ∃ serveFunc : Option (ServeFunc C W X),
      GoMap.get? r.pathToServeFuncMap p.Path = some serveFunc ∧
      srv.Serve x env = ServeAction.callServeFunc serveFunc ∧
      ∀ (ctx : C) (w : W), srv.ServeRun x ctx env w =
        match serveFunc with
        | some f => f ctx env w
        | none => (Result.panicked, w) := by
  obtain ⟨hs, hget⟩ := NewServer_lookupServeFunc spec r options srv hsrv p hp
  obtain ⟨hpw, hspeceq⟩ := (NewSpec_ok_iff procedures spec).mp hspec
  have hprocs : spec.Procedures = procedures := by rw [hspeceq]; rfl
  have hserve : srv.Serve x env =
      ServeAction.callServeFunc (srv.lookupServeFunc p.Path) := by
    rw [server.Serve_eq_loop x srv env (by rw [hargs]; exact hprotocol)
      (by rw [hargs]; exact hspecflag), hargs, hs]
    exact server.Serve.loop_args srv p hne spec.Procedures hp (hprocs ▸ hpw) hfront
  refine ⟨_, hget, hserve, fun ctx w => ?_⟩
  unfold server.ServeRun
  rw [hserve, ServeAction.run_callServeFunc]

/-- C6, at the failing input: `EchoList` of the test server has empty args, the empty
argument vector is not `[path]`, and `Serve` on it calls the function registered for the
path of `EchoList`. -/
theorem Serve_empty_args_dispatches :
    (⟨"/EchoService/EchoList", []⟩ : Procedure) ∈ echoServer.spec.Procedures ∧
    ([] : List String) ≠ ["/EchoService/EchoList"] ∧
    echoServer.ServeRun exampleExternals () (logEnv []) [] =
      (Result.returned none, [("/EchoService/EchoList", [])]) :=
  ⟨by decide, by decide, rfl⟩

/-- C7: `Serve` returns the `args not recognized` error, carrying `env.Args`, exactly when
`env.Args` is neither the single protocol-version flag nor the single spec flag and no
Procedure of the Spec has `env.Args` equal to `[path]` or to its args as a sequence; in
that case the call returns that error and leaves the world as it was: no serve function
is invoked and nothing is written. -/
theorem Serve_args_not_recognized_iff {C W X : Type} (x : Externals)
    (s : server (ServeFunc C W X)) (env : Env W X) :
    (s.Serve x env = ServeAction.returnErr (Err.argsNotRecognized env.Args) ↔
      (env.Args ≠ [fullFlag s.flagPrefix flagProtocolSuffix] ∧
        env.Args ≠ [fullFlag s.flagPrefix flagSpecSuffix] ∧
        ∀ p ∈ s.spec.Procedures, env.Args ≠ [p.Path] ∧ env.Args ≠ p.Args)) ∧
    ((env.Args ≠ [fullFlag s.flagPrefix flagProtocolSuffix] ∧
        env.Args ≠ [fullFlag s.flagPrefix flagSpecSuffix] ∧
        ∀ p ∈ s.spec.Procedures, env.Args ≠ [p.Path] ∧ env.Args ≠ p.Args) →
      ∀ (ctx : C) (w : W), s.ServeRun x ctx env w =
        (Result.returned (some (GoError.built (Err.argsNotRecognized env.Args))), w)) := by
  have hiff : s.Serve x env = ServeAction.returnErr (Err.argsNotRecognized env.Args) ↔
      (env.Args ≠ [fullFlag s.flagPrefix flagProtocolSuffix] ∧
        env.Args ≠ [fullFlag s.flagPrefix flagSpecSuffix] ∧
        ∀ p ∈ s.spec.Procedures, env.Args ≠ [p.Path] ∧ env.Args ≠ p.Args) := by
    by_cases h1 : env.Args = [fullFlag s.flagPrefix flagProtocolSuffix]
    · rw [server.Serve_protocol_flag x s env h1]
      constructor
      · intro h; cases h
      · intro h; exact absurd h1 h.1
    · by_cases h2 : env.Args = [fullFlag s.flagPrefix flagSpecSuffix]
      · constructor
        · intro h; exact absurd h (server.Serve_spec_flag x s env h2)
        · intro h; exact absurd h2 h.2.1
      · rw [server.Serve_eq_loop x s env h1 h2, server.Serve.loop_eq]
        cases hfind : s.spec.Procedures.find? (fun p => decide (p.Matches env.Args)) with
        | none =>
          rw [List.find?_eq_none] at hfind
          simp only [true_iff]
          refine ⟨h1, h2, fun p hp => ?_⟩
          have := hfind p hp
          simp only [Procedure.Matches, decide_eq_true_eq, not_or] at this
          exact this
        | some q =>
          have hq := List.find?_some hfind
          have hmem := List.mem_of_find?_eq_some hfind
          simp only [Procedure.Matches, decide_eq_true_eq] at hq
          constructor
          · intro h; cases h
          · intro h
            rcases hq with hq | hq
            · exact absurd hq (h.2.2 q hmem).1
            · exact absurd hq (h.2.2 q hmem).2
  refine ⟨hiff, fun hcond ctx w => ?_⟩
  unfold server.ServeRun
  rw [hiff.mpr hcond]
  rfl

/-- C7, witness: on the test server a strict prefix, an extension and a reordering of the
signature `echo request` are each answered with `args not recognized`, and the call log
stays empty. -/
theorem Serve_args_not_recognized_iff_witness :
    echoServer.ServeRun exampleExternals () (logEnv ["echo"]) [] =
      (Result.returned (some (GoError.built (Err.argsNotRecognized ["echo"]))), []) ∧
    echoServer.ServeRun exampleExternals () (logEnv ["echo", "request", "now"]) [] =
      (Result.returned (some (GoError.built
        (Err.argsNotRecognized ["echo", "request", "now"]))), []) ∧
    echoServer.ServeRun exampleExternals () (logEnv ["request", "echo"]) [] =
      (Result.returned (some (GoError.built
        (Err.argsNotRecognized ["request", "echo"]))), []) :=
  ⟨(Serve_args_not_recognized_iff exampleExternals echoServer (logEnv ["echo"])).2
      ⟨by decide, by decide, by decide⟩ () [],
    (Serve_args_not_recognized_iff exampleExternals echoServer
      (logEnv ["echo", "request", "now"])).2 ⟨by decide, by decide, by decide⟩ () [],
    (Serve_args_not_recognized_iff exampleExternals echoServer
      (logEnv ["request", "echo"])).2 ⟨by decide, by decide, by decide⟩ () []⟩

/-! ### Server construction and the registrar -/

/-- C8: for a Spec returned by `NewSpec`, `NewServer` returns a Server exactly when the
registrar holds no registration error and the set of registered paths equals the set of
paths of `spec.Procedures()`; in every other case it returns an error and no Server. -/
theorem NewServer_ok_iff_paths_agree {F : Type} (procedures : List Procedure) (spec : Spec)
    (r : serverRegistrar F) (options : List ServerOption)
    (hspec : NewSpec procedures = Except.ok spec) :
    ((∃ srv : Server F, (NewServer spec r options).1 = Except.ok srv) ↔
      (r.errs = [] ∧
        ∀ path : String, path ∈ GoMap.keys r.pathToServeFuncMap ↔
          path ∈ spec.Procedures.map Procedure.Path)) ∧
    (¬ (r.errs = [] ∧
        ∀ path : String, path ∈ GoMap.keys r.pathToServeFuncMap ↔
          path ∈ spec.Procedures.map Procedure.Path) →
      ∃ err : Err, (NewServer spec r options).1 = Except.error err) := by
  have hiff : (∃ srv : Server F, (NewServer spec r options).1 = Except.ok srv) ↔
      (r.errs = [] ∧
        ∀ path : String, path ∈ GoMap.keys r.pathToServeFuncMap ↔
          path ∈ spec.Procedures.map Procedure.Path) := by
    constructor
    · rintro ⟨srv, hsrv⟩
      obtain ⟨herr, hkeys, hprocs, -⟩ := (NewServer_eq_ok_iff spec r options srv).mp hsrv
      refine ⟨herr, fun path => ⟨fun h => ?_, fun h => ?_⟩⟩
      · exact (NewSpec_ProcedureForPath_isSome procedures spec hspec path).mp (hkeys path h)
      · obtain ⟨p, hp, rfl⟩ := List.mem_map.mp h
        exact (GoMap.contains_iff _ _).mp (hprocs p hp)
    · rintro ⟨herr, hset⟩
      refine ⟨_, (NewServer_eq_ok_iff spec r options _).mpr ⟨herr, ?_, ?_, rfl⟩⟩
      · intro path h
        exact (NewSpec_ProcedureForPath_isSome procedures spec hspec path).mpr
          ((hset path).mp h)
      · intro p hp
        exact (GoMap.contains_iff _ _).mpr ((hset p.Path).mpr (List.mem_map.mpr ⟨p, hp, rfl⟩))
  refine ⟨hiff, fun hnot => ?_⟩
  cases hres : (NewServer spec r options).1 with
  | error err => exact ⟨err, rfl⟩
  | ok srv => exact absurd (hiff.mp ⟨srv, hres⟩) hnot

/-- C8, witness: the test registrar and the test Spec agree on their paths, and a fresh
registrar with nothing registered is refused for the test Spec. -/
theorem NewServer_ok_iff_paths_agree_witness :
    (echoRegistrar.errs = [] ∧
      ∀ path : String, path ∈ GoMap.keys echoRegistrar.pathToServeFuncMap ↔
        path ∈ echoSpec.Procedures.map Procedure.Path) ∧
    ∃ err : Err, (NewServer echoSpec
      (NewServerRegistrar : serverRegistrar (ServeFunc Unit CallLog Empty)) []).1 =
        Except.error err :=
  ⟨(NewServer_ok_iff_paths_agree echoProcedures echoSpec echoRegistrar [] rfl).1.mp
      ⟨echoServer, rfl⟩,
    (NewServer_ok_iff_paths_agree echoProcedures echoSpec NewServerRegistrar [] rfl).2
      (fun h => absurd ((h.2 "/EchoService/EchoList").mpr (by decide)) (by decide))⟩

/-- C9: once the mapping has been read, by `pathToServeFunc` or by `NewServer` (whether it
returns a Server or an error), any run of later `Register` calls leaves the registrar's
map, which is the map object handed to the Server, as it was at the read, appends one
`server registrar already used` error per call and keeps the registrar read; after at least
one such call every later read returns an error. -/
theorem Register_after_read_is_discarded {F : Type} (r : serverRegistrar F) (spec : Spec)
    (options : List ServerOption) (calls : List (String × Option F)) :
    (NewServer spec r options).2 = r.pathToServeFunc.2 ∧
    (∀ srv : Server F, (NewServer spec r options).1 = Except.ok srv →
      srv.pathToServeFunc = r.pathToServeFuncMap) ∧
    (r.pathToServeFunc.2.RegisterAll calls).pathToServeFuncMap = r.pathToServeFuncMap ∧
    (r.pathToServeFunc.2.RegisterAll calls).errs =
      r.errs ++ List.replicate calls.length RegisterErr.serverRegistrarAlreadyUsed ∧
    (r.pathToServeFunc.2.RegisterAll calls).read = true ∧
    (calls ≠ [] →
      (r.pathToServeFunc.2.RegisterAll calls).pathToServeFunc =
        (Except.error (Err.join (r.errs ++
          List.replicate calls.length RegisterErr.serverRegistrarAlreadyUsed)),
         r.pathToServeFunc.2.RegisterAll calls)) := by
  have hall := serverRegistrar.RegisterAll_of_read calls r.pathToServeFunc.2
    (by rw [serverRegistrar.pathToServeFunc_snd])
  rw [serverRegistrar.pathToServeFunc_snd] at hall ⊢
  refine ⟨newServer_snd spec r options, ?_, ?_, ?_, ?_, ?_⟩
  · intro srv hsrv
    obtain ⟨-, -, -, rfl⟩ := (NewServer_eq_ok_iff spec r options srv).mp hsrv
    rfl
  · rw [hall]
  · rw [hall]
  · rw [hall]
  · intro hne
    rw [hall]
    have hpos : (r.errs ++
        List.replicate calls.length RegisterErr.serverRegistrarAlreadyUsed).length > 0 := by
      cases calls with
      | nil => exact absurd rfl hne
      | cons c rest => simp [List.replicate_succ]
    unfold serverRegistrar.pathToServeFunc
    simp only
    rw [if_pos hpos]

/-- C9, witness: two `Register` calls on the test registrar after `NewServer` has read it
leave its three entries in place, and the next read returns the join of two
`server registrar already used` errors. -/
theorem Register_after_read_is_discarded_witness :
    (((NewServer echoSpec echoRegistrar []).2.RegisterAll
        [("/EchoService/EchoList", none), ("/new", some (logServeFunc "/new"))]
      ).pathToServeFuncMap = echoServer.pathToServeFunc) ∧
    (((NewServer echoSpec echoRegistrar []).2.RegisterAll
        [("/EchoService/EchoList", none), ("/new", some (logServeFunc "/new"))]
      ).pathToServeFunc.1 =
      Except.error (Err.join [RegisterErr.serverRegistrarAlreadyUsed,
        RegisterErr.serverRegistrarAlreadyUsed])) := by
  obtain ⟨hstate, -, hmap, -, -, hread⟩ :=
    Register_after_read_is_discarded echoRegistrar echoSpec []
      [("/EchoService/EchoList", none), ("/new", some (logServeFunc "/new"))]
  rw [hstate]
  exact ⟨hmap, by rw [hread (List.cons_ne_nil _ _)]; rfl⟩

/-- C10: for a run of `Register` calls on a fresh registrar followed by its first read,
the read returns the mapping and no error exactly when the registered paths are pairwise
distinct, and the mapping then sends each registered path to the function of its call and
has no other key; otherwise the read returns the join of one `path already registered`
error per call whose path an earlier call had, in call order. In both cases the
registrar's map keeps for each path the function of the first call with that path. -/
theorem first_read_after_registers {F : Type} (calls : List (String × Option F)) :
    ((calls.map Prod.fst).Nodup ↔
      ∃ m : GoMap (Option F),
        (NewServerRegistrar.RegisterAll calls).pathToServeFunc.1 = Except.ok m) ∧
    (∀ m : GoMap (Option F),
      (NewServerRegistrar.RegisterAll calls).pathToServeFunc.1 = Except.ok m →
        (∀ c ∈ calls, GoMap.get? m c.1 = some c.2) ∧
        (∀ path : String, path ∉ calls.map Prod.fst → GoMap.get? m path = none)) ∧
    (¬ (calls.map Prod.fst).Nodup →
      (NewServerRegistrar.RegisterAll calls).pathToServeFunc.1 =
        Except.error (Err.join
          ((discardedPaths [] (calls.map Prod.fst)).map RegisterErr.pathAlreadyRegistered))) ∧
    (∀ path : String,
      GoMap.get? (NewServerRegistrar.RegisterAll calls).pathToServeFuncMap path =
        (calls.find? (fun c => decide (c.1 = path))).map Prod.snd) := by
  obtain ⟨-, herrs, hget⟩ := serverRegistrar.RegisterAll_of_unread calls
    (NewServerRegistrar : serverRegistrar F) [] rfl (fun x => by
      simp [NewServerRegistrar, newServerRegistrar, GoMap.empty, GoMap.keys])
  have hget' : ∀ path : String,
      GoMap.get? (NewServerRegistrar.RegisterAll calls).pathToServeFuncMap path =
        (calls.find? (fun c => decide (c.1 = path))).map Prod.snd := by
    intro path
    rw [hget path]
    rfl
  have herrs' : (NewServerRegistrar.RegisterAll calls).errs =
      (discardedPaths [] (calls.map Prod.fst)).map RegisterErr.pathAlreadyRegistered := by
    rw [herrs]
    rfl
  have hnil : (NewServerRegistrar.RegisterAll calls).errs = [] ↔
      (calls.map Prod.fst).Nodup := by
    rw [herrs', List.map_eq_nil_iff, discardedPaths_eq_nil_iff]
    simp
  have hres := serverRegistrar.pathToServeFunc_fst (NewServerRegistrar.RegisterAll calls)
  refine ⟨?_, ?_, ?_, hget'⟩
  · constructor
    · intro hnd
      rw [hres, if_pos (hnil.mpr hnd)]
      exact ⟨_, rfl⟩
    · rintro ⟨m, hm⟩
      by_contra hnd
      rw [hres, if_neg (fun h => hnd (hnil.mp h))] at hm
      cases hm
  · intro m hm
    by_cases hnd : (calls.map Prod.fst).Nodup
    · rw [hres, if_pos (hnil.mpr hnd)] at hm
      cases hm
      refine ⟨fun c hc => ?_, fun path hpath => ?_⟩
      · rw [hget', find?_of_nodup_fst calls hnd c hc]
        rfl
      · rw [hget']
        have : calls.find? (fun c => decide (c.1 = path)) = none := by
          rw [List.find?_eq_none]
          intro c hc
          simp only [decide_eq_true_eq]
          intro heq
          exact hpath (heq ▸ List.mem_map_of_mem Prod.fst hc)
        rw [this]
        rfl
    · rw [hres, if_neg (fun h => hnd (hnil.mp h))] at hm
      cases hm
  · intro hnd
    rw [hres, if_neg (fun h => hnd (hnil.mp h)), herrs']

/-- C10, witness: registering `/a`, `/b` and `/a` again makes the first read return the
join of the one error for the second `/a`, and the map keeps the first function for
`/a`. -/
theorem first_read_after_registers_witness :
    ((NewServerRegistrar.RegisterAll
        [("/a", some (logServeFunc "first")), ("/b", some (logServeFunc "other")),
         ("/a", some (logServeFunc "second"))]).pathToServeFunc.1 =
      Except.error (Err.join [RegisterErr.pathAlreadyRegistered "/a"])) ∧
    (GoMap.get? (NewServerRegistrar.RegisterAll
        [("/a", some (logServeFunc "first")), ("/b", some (logServeFunc "other")),
         ("/a", some (logServeFunc "second"))]).pathToServeFuncMap "/a" =
      some (some (logServeFunc "first"))) :=
  ⟨(first_read_after_registers
      [("/a", some (logServeFunc "first")), ("/b", some (logServeFunc "other")),
       ("/a", some (logServeFunc "second"))]).2.2.1 (by decide),
    (first_read_after_registers
      [("/a", some (logServeFunc "first")), ("/b", some (logServeFunc "other")),
       ("/a", some (logServeFunc "second"))]).2.2.2 "/a"⟩

/-! ### `validateSpecProcedures`: the first conflict, and `CombineSpecs` -/

/-- The loop of `validateSpecProcedures` passes over a front part that holds no conflict
and reaches the rest with sets that hold what they held, the paths of the front part and
its non-empty joined args. -/
theorem validateSpecProcedures.loop_append (front rest : List Procedure) :
    ∀ usedPathMap usedArgsMap : List String,
      front.Pairwise Procedure.Distinct →
      (∀ p ∈ front, p.Path ∉ usedPathMap ∧
        (p.Args ≠ [] → strings.Join p.Args " " ∉ usedArgsMap)) →
      ∃ usedPathMap' usedArgsMap' : List String,
        validateSpecProcedures.loop usedPathMap usedArgsMap (front ++ rest) =
          validateSpecProcedures.loop usedPathMap' usedArgsMap' rest ∧
        (∀ path, path ∈ usedPathMap' ↔ path ∈ usedPathMap ∨ ∃ q ∈ front, q.Path = path) ∧
        (∀ joined, joined ∈ usedArgsMap' ↔
          joined ∈ usedArgsMap ∨ ∃ q ∈ front, q.Args ≠ [] ∧ strings.Join q.Args " " = joined) := by
  induction front with
  | nil =>
    intro usedPathMap usedArgsMap _ _
    exact ⟨usedPathMap, usedArgsMap, rfl, by simp, by simp⟩
  | cons p front ih =>
    intro usedPathMap usedArgsMap hpw hfresh
    rw [List.pairwise_cons] at hpw
    have hp := hfresh p (List.mem_cons_self _ _)
    by_cases ha : p.Args = []
    · have hnpos : ¬ p.Args.length > 0 := by simp [ha]
      obtain ⟨uP, uA, hloop, hP, hA⟩ := ih (p.Path :: usedPathMap) usedArgsMap hpw.2
        (fun q hq => ⟨by
            simp only [List.mem_cons, not_or]
            exact ⟨fun h => (hpw.1 q hq).1 h.symm, (hfresh q (List.mem_cons_of_mem _ hq)).1⟩,
          (hfresh q (List.mem_cons_of_mem _ hq)).2⟩)
      refine ⟨uP, uA, ?_, ?_, ?_⟩
      · rw [List.cons_append, validateSpecProcedures.loop]
        simp only
        rw [if_neg hp.1, if_neg hnpos, hloop]
      · intro path
        rw [hP path]
        simp only [List.mem_cons, exists_eq_or_imp]
        tauto
      · intro joined
        rw [hA joined]
        simp only [List.mem_cons, exists_eq_or_imp, ha, ne_eq, not_true_eq_false, false_and,
          false_or]
    · have hpos : p.Args.length > 0 := List.length_pos.mpr ha
      obtain ⟨uP, uA, hloop, hP, hA⟩ := ih (p.Path :: usedPathMap)
        (strings.Join p.Args " " :: usedArgsMap) hpw.2
        (fun q hq => ⟨by
            simp only [List.mem_cons, not_or]
            exact ⟨fun h => (hpw.1 q hq).1 h.symm, (hfresh q (List.mem_cons_of_mem _ hq)).1⟩,
          fun hqa => by
            simp only [List.mem_cons, not_or]
            exact ⟨fun h => (hpw.1 q hq).2 ha hqa h.symm,
              (hfresh q (List.mem_cons_of_mem _ hq)).2 hqa⟩⟩)
      refine ⟨uP, uA, ?_, ?_, ?_⟩
      · rw [List.cons_append, validateSpecProcedures.loop]
        simp only
        rw [if_neg hp.1, if_pos hpos, if_neg (hp.2 ha), hloop]
      · intro path
        rw [hP path]
        simp only [List.mem_cons, exists_eq_or_imp]
        tauto
      · intro joined
        rw [hA joined]
        simp only [List.mem_cons, exists_eq_or_imp, ha, ne_eq, not_false_eq_true, true_and]
        tauto

/-- The loop of `CombineSpecs` appends the Procedures of the Specs in order. -/
theorem CombineSpecs.loop_appends (specs : List Spec) :
    ∀ procedures : List Procedure,
      specs.foldl (fun procedures spec => procedures ++ spec.Procedures) procedures =
        procedures ++ (specs.map spec.Procedures).flatten := by
  induction specs with
  | nil => intro procedures; simp
  | cons s rest ih =>
    intro procedures
    rw [List.foldl_cons, ih, List.map_cons, List.flatten_cons, List.append_assoc]

/-- `CombineSpecs` is `NewSpec` on the concatenation of the Procedures. -/
theorem CombineSpecs_eq (specs : List Spec) :
    CombineSpecs specs = NewSpec (specs.map spec.Procedures).flatten := by
  unfold CombineSpecs
  simp only
  rw [CombineSpecs.loop_appends, List.nil_append]

/-- `NewSpec` fails exactly when two Procedures collide. -/
theorem NewSpec_error_iff (procedures : List Procedure) :
    (∃ err, NewSpec procedures = Except.error err) ↔
      ¬ procedures.Pairwise Procedure.Distinct := by
  constructor
  · rintro ⟨err, herr⟩ hpw
    have := (NewSpec_ok_iff procedures _).mpr ⟨hpw, rfl⟩
    rw [herr] at this
    cases this
  · intro hnot
    cases hres : NewSpec procedures with
    | error err => exact ⟨err, rfl⟩
    | ok s => exact absurd ((NewSpec_ok_iff procedures s).mp hres).1 hnot

/-- Two Procedures collide when they share a path or a non-empty joined signature. -/
theorem Procedure.not_distinct_iff (p q : Procedure) :
    ¬ Procedure.Distinct p q ↔
      (p.Path = q.Path ∨
        (p.Args ≠ [] ∧ q.Args ≠ [] ∧ strings.Join p.Args " " = strings.Join q.Args " ")) := by
  unfold Procedure.Distinct
  constructor
  · intro h
    by_cases hpath : p.Path = q.Path
    · exact Or.inl hpath
    · right
      by_contra hno
      apply h
      refine ⟨hpath, fun hp hq hj => hno ⟨hp, hq, hj⟩⟩
  · rintro (h | ⟨hp, hq, hj⟩) ⟨h1, h2⟩
    · exact h1 h
    · exact h2 hp hq hj

/-- Not colliding is symmetric. -/
theorem Procedure.Distinct.symm {p q : Procedure} (h : Procedure.Distinct p q) :
    Procedure.Distinct q p :=
  ⟨fun heq => h.1 heq.symm, fun hq hp hj => h.2 hp hq hj.symm⟩

/-- `CombineSpecs` returns a Spec exactly when the concatenated Procedures do not
collide, and that Spec is the one `newSpec` builds from the concatenation. -/
theorem CombineSpecs_ok_iff (specs : List Spec) (s : Spec) :
    CombineSpecs specs = Except.ok s ↔
      (specs.map spec.Procedures).flatten.Pairwise Procedure.Distinct ∧
        s = spec.ofProcedures (specs.map spec.Procedures).flatten := by
  rw [CombineSpecs_eq, NewSpec_ok_iff]
  rfl

/-- On the Spec built from Procedures with pairwise different paths, two lists with the
same members give the same `ProcedureForPath`. -/
theorem ProcedureForPath_congr (l₁ l₂ : List Procedure)
    (h₁ : l₁.Pairwise Procedure.Distinct) (h₂ : l₂.Pairwise Procedure.Distinct)
    (hmem : ∀ p, p ∈ l₁ ↔ p ∈ l₂) (path : String) :
    (spec.ofProcedures l₁).ProcedureForPath path =
      (spec.ofProcedures l₂).ProcedureForPath path := by
  unfold spec.ProcedureForPath spec.ofProcedures
  simp only
  by_cases h : ∃ p ∈ l₁, p.Path = path
  · obtain ⟨p, hp, rfl⟩ := h
    rw [pathToProcedure_get?_of_mem l₁ (h₁.imp fun h => h.1) p hp,
      pathToProcedure_get?_of_mem l₂ (h₂.imp fun h => h.1) p ((hmem p).mp hp)]
  · have hno₁ : ∀ p ∈ l₁, p.Path ≠ path := fun p hp heq => h ⟨p, hp, heq⟩
    have hno₂ : ∀ p ∈ l₂, p.Path ≠ path := fun p hp heq => h ⟨p, (hmem p).mpr hp, heq⟩
    rw [pathToProcedure_get?_of_not_mem l₁ path hno₁,
      pathToProcedure_get?_of_not_mem l₂ path hno₂]

/-! ### Flag names -/

/-- The length of a flag with a non-empty prefix. -/
theorem fullFlag_length (flagPrefix flagSuffix : String) (h : flagPrefix ≠ "") :
    (fullFlag flagPrefix flagSuffix).length = flagPrefix.length + flagSuffix.length + 3 := by
  unfold fullFlag
  rw [if_neg h]
  simp only [String.length_append]
  have h2 : "--".length = 2 := by decide
  have h1 : "-".length = 1 := by decide
  omega

/-- A spec flag, with or without prefix, is not the unprefixed protocol-version flag: it
ends in another character. -/
theorem fullFlag_spec_ne_protocol (flagPrefix : String) :
    fullFlag flagPrefix flagSpecSuffix ≠ "--plugin-protocol" := by
  intro h
  have := congrArg (fun s : String => s.data.reverse.head?) h
  unfold fullFlag at this
  by_cases hp : flagPrefix = ""
  · rw [if_pos hp] at this
    revert this
    decide
  · rw [if_neg hp] at this
    simp [flagSpecSuffix] at this

/-- A protocol-version flag, with or without prefix, is not the unprefixed spec flag. -/
theorem fullFlag_protocol_ne_spec (flagPrefix : String) :
    fullFlag flagPrefix flagProtocolSuffix ≠ "--plugin-spec" := by
  intro h
  have := congrArg (fun s : String => s.data.reverse.head?) h
  unfold fullFlag at this
  by_cases hp : flagPrefix = ""
  · rw [if_pos hp] at this
    revert this
    decide
  · rw [if_neg hp] at this
    simp [flagProtocolSuffix] at this

/-- With a non-empty prefix the protocol-version flag is longer than the unprefixed
one. -/
theorem fullFlag_protocol_ne_unprefixed (flagPrefix : String) (h : flagPrefix ≠ "") :
    fullFlag flagPrefix flagProtocolSuffix ≠ "--plugin-protocol" := by
  intro heq
  have hlen := congrArg String.length heq
  rw [fullFlag_length flagPrefix flagProtocolSuffix h] at hlen
  have h1 : flagProtocolSuffix.length = 15 := by decide
  have h2 : "--plugin-protocol".length = 17 := by decide
  omega

/-- With a non-empty prefix the spec flag is longer than the unprefixed one. -/
theorem fullFlag_spec_ne_unprefixed (flagPrefix : String) (h : flagPrefix ≠ "") :
    fullFlag flagPrefix flagSpecSuffix ≠ "--plugin-spec" := by
  intro heq
  have hlen := congrArg String.length heq
  rw [fullFlag_length flagPrefix flagSpecSuffix h] at hlen
  have h1 : flagSpecSuffix.length = 11 := by decide
  have h2 : "--plugin-spec".length = 13 := by decide
  omega

/-- The spec flag and the protocol-version flag of a Server differ. -/
theorem fullFlag_spec_ne_fullFlag_protocol (flagPrefix : String) :
    fullFlag flagPrefix flagSpecSuffix ≠ fullFlag flagPrefix flagProtocolSuffix := by
  intro h
  have := congrArg (fun s : String => s.data.reverse.head?) h
  unfold fullFlag at this
  by_cases hp : flagPrefix = ""
  · rw [if_pos hp, if_pos hp] at this
    revert this
    decide
  · rw [if_neg hp, if_neg hp] at this
    simp [flagSpecSuffix, flagProtocolSuffix] at this

/-- On the single spec flag `Serve` marshals the Spec and writes it with a newline, or
returns the error of `marshalFlag`. -/
theorem server.Serve_spec_flag_eq {F W X : Type} (x : Externals) (s : server F)
    (env : Env W X) (h : env.Args = [fullFlag s.flagPrefix flagSpecSuffix]) :
    s.Serve x env =
      match x.marshalFlag (NewProtoSpec s.spec) with
      | Except.error message => ServeAction.returnErr (Err.marshalFlag message)
      | Except.ok data => ServeAction.writeStdout (data ++ "\n") := by
  unfold server.Serve
  have h1 : ¬ (env.Args.length = 1 ∧
      env.Args.head? = some (fullFlag s.flagPrefix flagProtocolSuffix)) := by
    rw [h]
    rintro ⟨-, hhead⟩
    simp only [List.head?_cons, Option.some.injEq] at hhead
    exact fullFlag_spec_ne_fullFlag_protocol s.flagPrefix hhead
  have h2 : env.Args.length = 1 ∧
      env.Args.head? = some (fullFlag s.flagPrefix flagSpecSuffix) := by
    rw [h]
    exact ⟨rfl, rfl⟩
  rw [if_neg h1, if_pos h2]

/-- The writing of data to the output as the one effect of `Serve`. -/
theorem ServeAction.run_writeStdout {C W X : Type} (data : String) (ctx : C)
    (env : Env W X) (w : W) :
    (ServeAction.writeStdout data : ServeAction (ServeFunc C W X)).run ctx env w =
      (Result.returned (env.Stdout data w).1, (env.Stdout data w).2) := by
  rfl

/-! ### `Handle` and the toy codec -/

/-- The body of `Handle`, once the input has been read and the request decoded without
error: the callback is called once, with the decoded request, on the world left by the
read, and its results go to the statements after the call. -/
theorem handler.Handle.body_of_decoded {C M A W X : Type} (x : Codec M A X) (ctx : C)
    (env : Env W X) (request decoded : M) (handle : HandleFunc C M W X) (w w₁ : W)
    (data : String)
    (hread : readStdin env.Stdin w = ((data, none), w₁))
    (hdecode : unmarshalRequest x data request = (none, decoded)) :
    handler.Handle.body x ctx env request handle w =
      handler.Handle.respond x env (handle ctx decoded w₁).1.1 (handle ctx decoded w₁).1.2
        (handle ctx decoded w₁).2 := by
  unfold handler.Handle.body
  rw [hread]
  simp only
  rw [hdecode]

/-- When the callback returns a non-nil error, the body of `Handle` returns that error
and `Handle` returns what `writeError` returns for it. -/
theorem handler.Handle_of_callback_error {C M A W X : Type} (x : Codec M A X) (ctx : C)
    (env : Env W X) (request decoded : M) (handle : HandleFunc C M W X) (w w₁ w₂ : W)
    (data : String) (response : Option M) (e : GoError X)
    (hread : readStdin env.Stdin w = ((data, none), w₁))
    (hdecode : unmarshalRequest x data request = (none, decoded))
    (hcall : handle ctx decoded w₁ = ((response, some e), w₂)) :
    handler.Handle x ctx env request handle w = handler.writeError x env (some e) w₂ := by
  unfold handler.Handle
  rw [handler.Handle.body_of_decoded x ctx env request decoded handle w w₁ data hread hdecode,
    hcall]
  rfl

/-- What `writeError` does for a non-nil error whose envelope marshals: one write of the
envelope, with no newline added, and nil unless the write fails. -/
theorem handler.writeError_of_marshaled {M A W X : Type} (x : Codec M A X) (env : Env W X)
    (e : GoError X) (w : W) (out : String)
    (hmarshal : marshalResponse x none (some e) = Except.ok out) :
    handler.writeError x env (some e) w =
      ((env.Stdout out w).1.map (GoError.wrapped "failed to write error to stdout"),
        (env.Stdout out w).2) := by
  unfold handler.writeError
  simp only [hmarshal]
  rcases env.Stdout out w with ⟨_ | err, w'⟩ <;> rfl

/-- In the toy encoding the code of the character of a code is that code. -/
theorem toyCharCode_toyCodeChar (code : Int) (c : Char) (h : toyCodeChar code = some c) :
    toyCharCode c = code := by
  unfold toyCodeChar at h
  by_cases hc : 0 ≤ code ∧ code < 17
  · rw [if_pos hc] at h
    obtain ⟨h0, h17⟩ := hc
    cases h
    interval_cases code <;> rfl
  · rw [if_neg hc] at h
    cases h

/-- A string that starts with a character is not empty. -/
theorem ne_empty_of_data {s : String} {c : Char} {l : List Char}
    (h : s.data = c :: l) : s ≠ "" := by
  intro hempty
  rw [hempty] at h
  cases h

/-- The toy decoding inverts the toy encoding of a response envelope. -/
theorem toyDecodeResponse_toyEncodeResponse (r : ProtoResponse String) (data : String)
    (h : toyEncodeResponse r = Except.ok data) :
    data ≠ "" ∧ toyDecodeResponse data.data = Except.ok r := by
  obtain ⟨body, err⟩ := r
  cases body with
  | none =>
    cases err with
    | none =>
      cases h
      exact ⟨by decide, rfl⟩
    | some e =>
      obtain ⟨code, message⟩ := e
      simp only [toyEncodeResponse] at h
      cases hc : toyCodeChar code with
      | none => rw [hc] at h; cases h
      | some c =>
        rw [hc] at h
        have hd : data = "E" ++ String.singleton c ++ message := by
          cases h
          rfl
        have hdata : data.data = 'E' :: c :: message.data := by
          rw [hd]
          simp [String.singleton]
        refine ⟨ne_empty_of_data hdata, ?_⟩
        rw [hdata]
        simp only [toyDecodeResponse]
        rw [toyCharCode_toyCodeChar code c hc]
  | some b =>
    cases err with
    | some e =>
      simp only [toyEncodeResponse] at h
      cases h
    | none =>
      have hd : data = "B" ++ b := by
        simp only [toyEncodeResponse] at h
        cases h
        rfl
      have hdata : data.data = 'B' :: b.data := by
        rw [hd]
        simp
      refine ⟨ne_empty_of_data hdata, ?_⟩
      rw [hdata]
      rfl

/-- The toy codec satisfies the laws of the protobuf libraries. -/
theorem toyCodec_lawful : LawfulCodec toyCodec where
  toProtoMessage_eq := fun _ => rfl
  anypbNew_ok := fun m => ⟨m, rfl⟩
  request_marshal_ok := by
    intro r
    obtain ⟨body⟩ := r
    cases body with
    | none => exact ⟨_, rfl⟩
    | some b => exact ⟨_, rfl⟩
  response_marshal_ok := by
    intro body
    cases body with
    | none => exact ⟨_, rfl⟩
    | some b => exact ⟨_, rfl⟩
  anypb_round_trip := by
    intro m a dst h _
    cases h
    rfl
  request_round_trip := by
    intro r data h
    obtain ⟨body⟩ := r
    cases body with
    | none =>
      cases h
      exact ⟨by decide, rfl⟩
    | some b =>
      have hd : data = "B" ++ b := by
        simp only [toyCodec] at h
        cases h
        rfl
      have hdata : data.data = 'B' :: b.data := by
        rw [hd]
        simp
      refine ⟨ne_empty_of_data hdata, ?_⟩
      show toyDecodeRequest data.data = Except.ok { Body := some b }
      rw [hdata]
      rfl
  response_round_trip := fun r data h => toyDecodeResponse_toyEncodeResponse r data h
  wrapErrorToProto_nil := rfl

/-! ### The handler: errors, responses and empty requests -/

/-- C11, as stated, fails: the callback returns the non-nil error with code 4 and message
`hello`; `Handle` writes the error envelope and returns nil, not that error. -/
theorem Handle_returns_nil_after_error_envelope :
    echoErrorHandle 4 "hello" () "" [("stdin", [])] =
      ((none, some (GoError.other { Code := 4, Message := "hello" })),
        [("stdin", []), ("handle", [""])]) ∧
    handler.Handle toyCodec () (handlerEnv "") "" (echoErrorHandle 4 "hello") [] =
      (none, [("stdin", []), ("handle", [""]), ("stdout", ["E4hello"])]) :=
  ⟨rfl, rfl⟩

/-- C11, amended: when the callback returns a non-nil error `e`, `Handle` returns what
`writeError` returns for `e`: nil when the error envelope is marshaled and written
without error, the marshaling error when marshaling fails, and the write error wrapped as
`failed to write error to stdout` when the write fails. -/
theorem Handle_callback_error_result {C M A W X : Type} (x : Codec M A X) (ctx : C)
    (env : Env W X) (request decoded : M) (handle : HandleFunc C M W X) (w w₁ w₂ : W)
    (data : String) (response : Option M) (e : GoError X)
    (hread : readStdin env.Stdin w = ((data, none), w₁))
    (hdecode : unmarshalRequest x data request = (none, decoded))
    (hcall : handle ctx decoded w₁ = ((response, some e), w₂)) :
    handler.Handle x ctx env request handle w = handler.writeError x env (some e) w₂ ∧
    (∀ (out : String) (w₃ : W), marshalResponse x none (some e) = Except.ok out →
      env.Stdout out w₂ = (none, w₃) →
      handler.Handle x ctx env request handle w = (none, w₃)) ∧
    (∀ err : GoError X, marshalResponse x none (some e) = Except.error err →
      handler.Handle x ctx env request handle w = (some err, w₂)) ∧
    (∀ (out : String) (err : GoError X) (w₃ : W),
      marshalResponse x none (some e) = Except.ok out →
      env.Stdout out w₂ = (some err, w₃) →
      handler.Handle x ctx env request handle w =
        (some (GoError.wrapped "failed to write error to stdout" err), w₃)) := by
  have h := handler.Handle_of_callback_error x ctx env request decoded handle w w₁ w₂ data
    response e hread hdecode hcall
  refine ⟨h, ?_, ?_, ?_⟩
  · intro out w₃ hm hw
    rw [h, handler.writeError_of_marshaled x env e w₂ out hm, hw]
    rfl
  · intro err hm
    rw [h]
    unfold handler.writeError
    simp only [hm]
  · intro out err w₃ hm hw
    rw [h, handler.writeError_of_marshaled x env e w₂ out hm, hw]
    rfl

/-- C11, witness: with the toy codec and the `EchoError` callback for code 4 and message
`hello`, `Handle` returns nil after the one write of the error envelope. -/
theorem Handle_callback_error_result_witness :
    handler.Handle toyCodec () (handlerEnv "") "" (echoErrorHandle 4 "hello") [] =
      (none, [("stdin", []), ("handle", [""]), ("stdout", ["E4hello"])]) :=
  (Handle_callback_error_result toyCodec () (handlerEnv "") "" ""
    (echoErrorHandle 4 "hello") [] [("stdin", [])] [("stdin", []), ("handle", [""])] ""
    none (GoError.other { Code := 4, Message := "hello" }) rfl rfl rfl).2.1
    "E4hello" [("stdin", []), ("handle", [""]), ("stdout", ["E4hello"])] rfl rfl

/-- C12: when the callback returns a non-nil error `e`, whatever response it returns with
it, the output after `Handle` is the output after the one write of the bytes of
`marshalResponse(nil, e)`, with no newline added; when `marshalResponse(nil, e)` fails
nothing is written. The response does not enter. -/
theorem Handle_callback_error_writes_error_envelope {C M A W X : Type} (x : Codec M A X)
    (ctx : C) (env : Env W X) (request decoded : M) (handle : HandleFunc C M W X)
    (w w₁ w₂ : W) (data : String) (response : Option M) (e : GoError X)
    (hread : readStdin env.Stdin w = ((data, none), w₁))
    (hdecode : unmarshalRequest x data request = (none, decoded))
    (hcall : handle ctx decoded w₁ = ((response, some e), w₂)) :
    (∀ out : String, marshalResponse x none (some e) = Except.ok out →
      (handler.Handle x ctx env request handle w).2 = (env.Stdout out w₂).2) ∧
    (∀ err : GoError X, marshalResponse x none (some e) = Except.error err →
      (handler.Handle x ctx env request handle w).2 = w₂) := by
  have h := handler.Handle_of_callback_error x ctx env request decoded handle w w₁ w₂ data
    response e hread hdecode hcall
  refine ⟨?_, ?_⟩
  · intro out hm
    rw [h, handler.writeError_of_marshaled x env e w₂ out hm]
  · intro err hm
    rw [h]
    unfold handler.writeError
    simp only [hm]

/-- C12, witness: for a callback that returns both a response and an error with code 4
and message `hello`, the only write is the error envelope, with no newline. -/
theorem Handle_callback_error_writes_error_envelope_witness :
    (handler.Handle toyCodec () (handlerEnv "")  ""
      (fun _ request w => ((some "partial",
        some (GoError.other { Code := 4, Message := "hello" })),
        w ++ [("handle", [request])])) []).2 =
      [("stdin", []), ("handle", [""]), ("stdout", ["E4hello"])] :=
  (Handle_callback_error_writes_error_envelope toyCodec () (handlerEnv "") "" ""
    (fun _ request w => ((some "partial",
      some (GoError.other { Code := 4, Message := "hello" })),
      w ++ [("handle", [request])])) [] [("stdin", [])] [("stdin", []), ("handle", [""])] ""
    (some "partial") (GoError.other { Code := 4, Message := "hello" }) rfl rfl rfl).1
    "E4hello" rfl

/-- C13: when the request was read and decoded without error and the callback returns
`(response, nil)`, with `out` the bytes of `marshalResponse(response, nil)`, `Handle`
makes the one write of `out` followed by a newline and returns nil when that write
succeeds (when it fails, `Handle` goes on to `writeError` with the wrapped write error).
The bytes `out` encode the envelope that carries the body of the response and, as
`WrapError(nil).ToProto()` is nil, no error. -/
theorem Handle_success_writes_response {C M A W X : Type} (x : Codec M A X) (ctx : C)
    (env : Env W X) (request decoded : M) (handle : HandleFunc C M W X) (w w₁ w₂ : W)
    (data out : String) (response : Option M)
    (hread : readStdin env.Stdin w = ((data, none), w₁))
    (hdecode : unmarshalRequest x data request = (none, decoded))
    (hcall : handle ctx decoded w₁ = ((response, none), w₂))
    (hmarshal : marshalResponse x response none = Except.ok out) :
    handler.Handle x ctx env request handle w =
      (match env.Stdout (out ++ "\n") w₂ with
       | (none, w₃) => (none, w₃)
       | (some err, w₃) =>
         handler.writeError x env
           (some (GoError.wrapped "failed to write response to stdout" err)) w₃) ∧
    (∀ w₃ : W, env.Stdout (out ++ "\n") w₂ = (none, w₃) →
      handler.Handle x ctx env request handle w = (none, w₃)) ∧
    (x.wrapErrorToProto none = none →
      ∃ body : Option A, marshalResponse.body x response = Except.ok body ∧
        (body.isSome = response.isSome) ∧
        x.protojsonMarshalResponse { Body := body, Error := none } = Except.ok out) := by
  have hbody : handler.Handle.body x ctx env request handle w =
      (match env.Stdout (out ++ "\n") w₂ with
       | (none, w₃) => (none, w₃)
       | (some err, w₃) =>
         (some (GoError.wrapped "failed to write response to stdout" err), w₃)) := by
    rw [handler.Handle.body_of_decoded x ctx env request decoded handle w w₁ data hread
      hdecode, hcall]
    unfold handler.Handle.respond
    simp only [hmarshal]
    rcases env.Stdout (out ++ "\n") w₂ with ⟨_ | err, w₃⟩ <;> rfl
  have hmain : handler.Handle x ctx env request handle w =
      (match env.Stdout (out ++ "\n") w₂ with
       | (none, w₃) => (none, w₃)
       | (some err, w₃) =>
         handler.writeError x env
           (some (GoError.wrapped "failed to write response to stdout" err)) w₃) := by
    unfold handler.Handle
    rw [hbody]
    rcases env.Stdout (out ++ "\n") w₂ with ⟨_ | err, w₃⟩ <;> rfl
  refine ⟨hmain, ?_, ?_⟩
  · intro w₃ hw
    rw [hmain, hw]
  · intro hnil
    unfold marshalResponse at hmarshal
    cases hb : marshalResponse.body x response with
    | error err => rw [hb] at hmarshal; cases hmarshal
    | ok body =>
      rw [hb] at hmarshal
      simp only [hnil] at hmarshal
      refine ⟨body, rfl, ?_, hmarshal⟩
      unfold marshalResponse.body at hb
      cases response with
      | none => cases hb; rfl
      | some r =>
        simp only at hb
        cases h1 : x.toProtoMessage r with
        | error err => rw [h1] at hb; cases hb
        | ok rm =>
          rw [h1] at hb
          simp only at hb
          cases h2 : x.anypbNew rm with
          | error err => rw [h2] at hb; cases hb
          | ok a => rw [h2] at hb; cases hb; rfl

/-- C13, witness: with the toy codec, the request `hello` on the input and the
`EchoRequest` callback, `Handle` makes the one write of the encoded response followed by a
newline and returns nil. -/
theorem Handle_success_writes_response_witness :
    handler.Handle toyCodec () (handlerEnv "Bhello") "" echoRequestHandle [] =
      (none, [("stdin", []), ("handle", ["hello"]), ("stdout", ["Bhello\n"])]) :=
  (Handle_success_writes_response toyCodec () (handlerEnv "Bhello") "" "hello"
    echoRequestHandle [] [("stdin", [])] [("stdin", []), ("handle", ["hello"])] "Bhello"
    "Bhello" (some "hello") rfl rfl rfl rfl).2.1
    [("stdin", []), ("handle", ["hello"]), ("stdout", ["Bhello\n"])] rfl

/-- C14: on empty data `unmarshalRequest` returns nil and leaves the request as it was;
and when the data read from the input is empty, `Handle` calls the callback once, with the
request as it was passed in, on the world left by the read, and goes on with what the
callback returned. -/
theorem Handle_empty_request_keeps_default {C M A W X : Type} (x : Codec M A X) (ctx : C)
    (env : Env W X) (request : M) (handle : HandleFunc C M W X) (w w₁ : W)
    (hread : readStdin env.Stdin w = (("", none), w₁)) :
    unmarshalRequest x "" request = (none, request) ∧
    handler.Handle x ctx env request handle w =
      handler.Handle.deferred x env
        (handler.Handle.respond x env (handle ctx request w₁).1.1
          (handle ctx request w₁).1.2 (handle ctx request w₁).2).1
        (handler.Handle.respond x env (handle ctx request w₁).1.1
          (handle ctx request w₁).1.2 (handle ctx request w₁).2).2 := by
  have hdecode : unmarshalRequest x "" request = (none, request) := by
    unfold unmarshalRequest
    rw [if_pos rfl]
  refine ⟨hdecode, ?_⟩
  unfold handler.Handle
  rw [handler.Handle.body_of_decoded x ctx env request request handle w w₁ "" hread hdecode]

/-- C14, witness: with the toy codec, an empty input and the default request, whose
message is empty, the `EchoRequest` callback is called once with the empty message and
the response written carries the empty message. -/
theorem Handle_empty_request_keeps_default_witness :
    handler.Handle toyCodec () (handlerEnv "") "" echoRequestHandle [] =
      (none, [("stdin", []), ("handle", [""]), ("stdout", ["B\n"])]) :=
  ((Handle_empty_request_keeps_default toyCodec () (handlerEnv "") "" echoRequestHandle []
    [("stdin", [])] rfl).2).trans rfl

/-! ### Spec validation: the error reported, and combination -/

/-- C15: let `p` be the entry at index `j`, let the entries in front of it hold no
conflict among themselves (so that no smaller index conflicts with an earlier one), and
let `p` share its path, or its non-empty joined args, with an entry in front of it. Then
`NewSpec` returns the duplicate-path error with the path of `p` when the path collides,
and otherwise the duplicate-args error with the space-joined args of `p`. -/
theorem NewSpec_reports_first_conflict (procedures : List Procedure) (j : Nat)
    (p : Procedure) (hj : procedures[j]? = some p)
    (hfirst : ∀ (i k : Nat) (q r : Procedure), i < k → k < j →
      procedures[i]? = some q → procedures[k]? = some r →
      q.Path ≠ r.Path ∧
        (q.Args ≠ [] → r.Args ≠ [] → strings.Join q.Args " " ≠ strings.Join r.Args " "))
    (hconflict : ∃ (i : Nat) (q : Procedure), i < j ∧ procedures[i]? = some q ∧
      (q.Path = p.Path ∨
        (q.Args ≠ [] ∧ p.Args ≠ [] ∧ strings.Join q.Args " " = strings.Join p.Args " "))) :
    ((∃ (i : Nat) (q : Procedure), i < j ∧ procedures[i]? = some q ∧ q.Path = p.Path) →
      NewSpec procedures = Except.error (Err.duplicateProcedurePath p.Path)) ∧
    ((∀ (i : Nat) (q : Procedure), i < j → procedures[i]? = some q → q.Path ≠ p.Path) →
      NewSpec procedures =
        Except.error (Err.duplicateProcedureArgs (strings.Join p.Args " "))) := by
  obtain ⟨hjlt, hjp⟩ := List.getElem?_eq_some.mp hj
  have hsplit : procedures = procedures.take j ++ p :: procedures.drop (j + 1) := by
    rw [← hjp, List.getElem_cons_drop procedures j hjlt, List.take_append_drop]
  have hmem : ∀ q : Procedure, q ∈ procedures.take j ↔
      ∃ i : Nat, i < j ∧ procedures[i]? = some q := by
    intro q
    rw [List.mem_iff_getElem?]
    constructor
    · rintro ⟨i, hi⟩
      rw [List.getElem?_take] at hi
      by_cases hij : i < j
      · rw [if_pos hij] at hi
        exact ⟨i, hij, hi⟩
      · rw [if_neg hij] at hi
        cases hi
    · rintro ⟨i, hij, hi⟩
      exact ⟨i, by rw [List.getElem?_take, if_pos hij]; exact hi⟩
  have hpw : (procedures.take j).Pairwise Procedure.Distinct := by
    rw [pairwise_iff_index]
    intro i k q r hik hq hr
    rw [List.getElem?_take] at hq hr
    by_cases hkj : k < j
    · rw [if_pos hkj] at hr
      rw [if_pos (lt_trans hik hkj)] at hq
      exact hfirst i k q r hik hkj hq hr
    · rw [if_neg hkj] at hr
      cases hr
  obtain ⟨uP, uA, hloop, hP, hA⟩ := validateSpecProcedures.loop_append (procedures.take j)
    (p :: procedures.drop (j + 1)) [] [] hpw (fun _ _ => ⟨by simp, fun _ => by simp⟩)
  have hres : NewSpec procedures =
      match validateSpecProcedures.loop uP uA (p :: procedures.drop (j + 1)) with
      | some err => Except.error err
      | none => Except.ok { procedures := procedures,
                            pathToProcedure := procedures.foldl
                              (fun m procedure => GoMap.set m procedure.Path procedure)
                              GoMap.empty } := by
    rw [← hloop, ← hsplit]
    rfl
  constructor
  · rintro ⟨i, q, hij, hq, hpath⟩
    have hin : p.Path ∈ uP := (hP p.Path).mpr (Or.inr ⟨q, (hmem q).mpr ⟨i, hij, hq⟩, hpath⟩)
    rw [hres, validateSpecProcedures.loop]
    simp only
    rw [if_pos hin]
  · intro hnopath
    have hnin : p.Path ∉ uP := by
      intro hin
      rcases (hP p.Path).mp hin with h | ⟨q, hq, hpath⟩
      · simp at h
      · obtain ⟨i, hij, hi⟩ := (hmem q).mp hq
        exact hnopath i q hij hi hpath
    obtain ⟨i, q, hij, hq, hc⟩ := hconflict
    rcases hc with hpath | ⟨hqa, hpa, hjoin⟩
    · exact absurd hpath (hnopath i q hij hq)
    · have hpos : p.Args.length > 0 := List.length_pos.mpr hpa
      have hin : strings.Join p.Args " " ∈ uA :=
        (hA _).mpr (Or.inr ⟨q, (hmem q).mpr ⟨i, hij, hq⟩, hqa, hjoin⟩)
      rw [hres, validateSpecProcedures.loop]
      simp only
      rw [if_neg hnin, if_pos hpos, if_pos hin]

/-- C15, witness: in the list below index 2 is the first to conflict, through its args
`echo request`, and index 3 repeats the path of index 0; `NewSpec` reports the args of
index 2. -/
theorem NewSpec_reports_first_conflict_witness :
    NewSpec [⟨"/a", ["echo", "request"]⟩, ⟨"/b", []⟩, ⟨"/c", ["echo", "request"]⟩,
        ⟨"/a", []⟩] =
      Except.error (Err.duplicateProcedureArgs "echo request") :=
  (NewSpec_reports_first_conflict
    [⟨"/a", ["echo", "request"]⟩, ⟨"/b", []⟩, ⟨"/c", ["echo", "request"]⟩, ⟨"/a", []⟩]
    2 ⟨"/c", ["echo", "request"]⟩ rfl
    (by
      intro i k q r hik hkj hq hr
      have hk : k = 1 := by omega
      have hi : i = 0 := by omega
      subst hk hi
      cases hq
      cases hr
      exact ⟨by decide, by decide⟩)
    ⟨0, ⟨"/a", ["echo", "request"]⟩, by decide, rfl, Or.inr ⟨by decide, by decide, rfl⟩⟩).2
    (by
      intro i q hij hq
      have hi : i = 0 ∨ i = 1 := by omega
      rcases hi with rfl | rfl <;> cases hq <;> decide)

/-- C16: `CombineSpecs` returns what `NewSpec` returns on the concatenation, in input
order, of the Procedures of its arguments; when every argument was returned by `NewSpec`,
it fails exactly when Procedures of two arguments at different positions share a path or
a non-empty joined signature; and the Procedures of a Spec it returns are that
concatenation. -/
theorem CombineSpecs_is_NewSpec_of_concatenation (specs : List Spec) :
    CombineSpecs specs = NewSpec (specs.map spec.Procedures).flatten ∧
    ((∀ s ∈ specs, ∃ procedures, NewSpec procedures = Except.ok s) →
      ((∃ err, CombineSpecs specs = Except.error err) ↔
        ∃ (i j : Nat) (a b : Spec) (p q : Procedure), i < j ∧ specs[i]? = some a ∧
          specs[j]? = some b ∧ p ∈ a.Procedures ∧ q ∈ b.Procedures ∧
          (p.Path = q.Path ∨
            (p.Args ≠ [] ∧ q.Args ≠ [] ∧
              strings.Join p.Args " " = strings.Join q.Args " ")))) ∧
    (∀ s : Spec, CombineSpecs specs = Except.ok s →
      s.Procedures = (specs.map spec.Procedures).flatten) := by
  refine ⟨CombineSpecs_eq specs, ?_, ?_⟩
  · intro hvalid
    rw [CombineSpecs_eq, NewSpec_error_iff, List.pairwise_flatten]
    have heach : ∀ l ∈ specs.map spec.Procedures, l.Pairwise Procedure.Distinct := by
      intro l hl
      obtain ⟨s, hs, rfl⟩ := List.mem_map.mp hl
      obtain ⟨procedures, hps⟩ := hvalid s hs
      obtain ⟨hpw, rfl⟩ := (NewSpec_ok_iff procedures s).mp hps
      exact hpw
    rw [List.pairwise_map, pairwise_iff_index]
    constructor
    · intro hnot
      by_contra hno
      apply hnot
      refine ⟨heach, fun i j a b hij ha hb p hp q hq => ?_⟩
      by_contra hd
      exact hno ⟨i, j, a, b, p, q, hij, ha, hb, hp, hq,
        (Procedure.not_distinct_iff p q).mp hd⟩
    · rintro ⟨i, j, a, b, p, q, hij, ha, hb, hp, hq, hc⟩ ⟨-, hcross⟩
      exact (Procedure.not_distinct_iff p q).mpr hc (hcross i j a b hij ha hb p hp q hq)
  · intro s hs
    rw [CombineSpecs_eq] at hs
    obtain ⟨-, rfl⟩ := (NewSpec_ok_iff _ s).mp hs
    rfl

/-- C16, witness: the test Spec combined with a Spec that repeats the path of `EchoList`
is refused. -/
theorem CombineSpecs_is_NewSpec_of_concatenation_witness :
    (∃ err, CombineSpecs [echoSpec,
        { procedures := [⟨"/EchoService/EchoList", ["list"]⟩],
          pathToProcedure := [("/EchoService/EchoList",
            ⟨"/EchoService/EchoList", ["list"]⟩)] }] = Except.error err) :=
  ((CombineSpecs_is_NewSpec_of_concatenation [echoSpec,
        { procedures := [⟨"/EchoService/EchoList", ["list"]⟩],
          pathToProcedure := [("/EchoService/EchoList",
            ⟨"/EchoService/EchoList", ["list"]⟩)] }]).2.1
    (by
      intro s hs
      simp only [List.mem_cons, List.mem_singleton, List.not_mem_nil, or_false] at hs
      rcases hs with rfl | rfl
      · exact ⟨echoProcedures, rfl⟩
      · exact ⟨[⟨"/EchoService/EchoList", ["list"]⟩], rfl⟩)).mpr
    ⟨0, 1, _, _, ⟨"/EchoService/EchoList", []⟩, ⟨"/EchoService/EchoList", ["list"]⟩,
      by decide, rfl, rfl, by decide, by decide, Or.inl rfl⟩

/-- C17: `CombineSpecs(a, b)` succeeds exactly when `CombineSpecs(b, a)` does, and the
two results then hold the same Procedures, up to order, and agree on `ProcedureForPath`
for every path; `CombineSpecs(a, b, c)` succeeds exactly when `CombineSpecs(a, b)`
succeeds with some `ab` and `CombineSpecs(ab, c)` succeeds, and exactly when
`CombineSpecs(b, c)` succeeds with some `bc` and `CombineSpecs(a, bc)` succeeds, the
results then having the same list of Procedures. -/
theorem CombineSpecs_comm_assoc (a b c : Spec) :
    ((∃ s, CombineSpecs [a, b] = Except.ok s) ↔ (∃ t, CombineSpecs [b, a] = Except.ok t)) ∧
    (∀ s t : Spec, CombineSpecs [a, b] = Except.ok s → CombineSpecs [b, a] = Except.ok t →
      s.Procedures.Perm t.Procedures ∧
        ∀ path : String, s.ProcedureForPath path = t.ProcedureForPath path) ∧
    ((∃ s, CombineSpecs [a, b, c] = Except.ok s) ↔
      ∃ ab, CombineSpecs [a, b] = Except.ok ab ∧ ∃ t, CombineSpecs [ab, c] = Except.ok t) ∧
    (∀ s ab t : Spec, CombineSpecs [a, b, c] = Except.ok s →
      CombineSpecs [a, b] = Except.ok ab → CombineSpecs [ab, c] = Except.ok t →
      s.Procedures = t.Procedures) ∧
    ((∃ s, CombineSpecs [a, b, c] = Except.ok s) ↔
      ∃ bc, CombineSpecs [b, c] = Except.ok bc ∧ ∃ t, CombineSpecs [a, bc] = Except.ok t) ∧
    (∀ s bc t : Spec, CombineSpecs [a, b, c] = Except.ok s →
      CombineSpecs [b, c] = Except.ok bc → CombineSpecs [a, bc] = Except.ok t →
      s.Procedures = t.Procedures) := by
  have h2 : ∀ (u v s : Spec), CombineSpecs [u, v] = Except.ok s ↔
      (u.Procedures ++ v.Procedures).Pairwise Procedure.Distinct ∧
        s = spec.ofProcedures (u.Procedures ++ v.Procedures) := by
    intro u v s
    rw [CombineSpecs_ok_iff]
    simp
  have h3 : ∀ s : Spec, CombineSpecs [a, b, c] = Except.ok s ↔
      (a.Procedures ++ (b.Procedures ++ c.Procedures)).Pairwise Procedure.Distinct ∧
        s = spec.ofProcedures (a.Procedures ++ (b.Procedures ++ c.Procedures)) := by
    intro s
    rw [CombineSpecs_ok_iff]
    simp
  have hof : ∀ l : List Procedure, (spec.ofProcedures l).Procedures = l := fun _ => rfl
  have hperm : (a.Procedures ++ b.Procedures).Perm (b.Procedures ++ a.Procedures) :=
    List.perm_append_comm
  have hsymm : ∀ {x y : Procedure}, Procedure.Distinct x y → Procedure.Distinct y x :=
    fun h => h.symm
  refine ⟨?_, ?_, ?_, ?_, ?_, ?_⟩
  · constructor
    · rintro ⟨s, hs⟩
      exact ⟨_, (h2 b a _).mpr ⟨(hperm.pairwise_iff hsymm).mp ((h2 a b s).mp hs).1, rfl⟩⟩
    · rintro ⟨t, ht⟩
      exact ⟨_, (h2 a b _).mpr ⟨(hperm.pairwise_iff hsymm).mpr ((h2 b a t).mp ht).1, rfl⟩⟩
  · intro s t hs ht
    obtain ⟨hpws, rfl⟩ := (h2 a b s).mp hs
    obtain ⟨hpwt, rfl⟩ := (h2 b a t).mp ht
    rw [hof, hof]
    exact ⟨hperm, ProcedureForPath_congr _ _ hpws hpwt (fun p => hperm.mem_iff)⟩
  · constructor
    · rintro ⟨s, hs⟩
      have hpw := ((h3 s).mp hs).1
      have hab : (a.Procedures ++ b.Procedures).Pairwise Procedure.Distinct := by
        rw [← List.append_assoc] at hpw
        exact (List.pairwise_append.mp hpw).1
      refine ⟨_, (h2 a b _).mpr ⟨hab, rfl⟩, _, (h2 _ c _).mpr ⟨?_, rfl⟩⟩
      rw [hof, List.append_assoc]
      exact hpw
    · rintro ⟨ab, hab, t, ht⟩
      obtain ⟨-, rfl⟩ := (h2 a b ab).mp hab
      have hpw := ((h2 _ c t).mp ht).1
      rw [hof, List.append_assoc] at hpw
      exact ⟨_, (h3 _).mpr ⟨hpw, rfl⟩⟩
  · intro s ab t hs hab ht
    obtain ⟨-, rfl⟩ := (h2 a b ab).mp hab
    obtain ⟨-, rfl⟩ := (h2 _ c t).mp ht
    obtain ⟨-, rfl⟩ := (h3 s).mp hs
    rw [hof, hof, hof, List.append_assoc]
  · constructor
    · rintro ⟨s, hs⟩
      have hpw := ((h3 s).mp hs).1
      have hbc : (b.Procedures ++ c.Procedures).Pairwise Procedure.Distinct :=
        (List.pairwise_append.mp hpw).2.1
      refine ⟨_, (h2 b c _).mpr ⟨hbc, rfl⟩, _, (h2 a _ _).mpr ⟨?_, rfl⟩⟩
      rw [hof]
      exact hpw
    · rintro ⟨bc, hbc, t, ht⟩
      obtain ⟨-, rfl⟩ := (h2 b c bc).mp hbc
      have hpw := ((h2 a _ t).mp ht).1
      rw [hof] at hpw
      exact ⟨_, (h3 _).mpr ⟨hpw, rfl⟩⟩
  · intro s bc t hs hbc ht
    obtain ⟨-, rfl⟩ := (h2 b c bc).mp hbc
    obtain ⟨-, rfl⟩ := (h2 a _ t).mp ht
    obtain ⟨-, rfl⟩ := (h3 s).mp hs
    rw [hof, hof, hof]

/-- C17, witness: the Spec of `EchoList` and the Spec of `EchoRequest` combine, so they
combine in the other order too. -/
theorem CombineSpecs_comm_assoc_witness :
    (∃ t, CombineSpecs [spec.ofProcedures [⟨"/EchoService/EchoRequest", ["echo", "request"]⟩],
      spec.ofProcedures [⟨"/EchoService/EchoList", []⟩]] = Except.ok t) :=
  (CombineSpecs_comm_assoc (spec.ofProcedures [⟨"/EchoService/EchoList", []⟩])
    (spec.ofProcedures [⟨"/EchoService/EchoRequest", ["echo", "request"]⟩])
    (spec.ofProcedures [])).1.mp ⟨_, rfl⟩

/-! ### Introspection flags -/

/-- C18: for every Server, whatever its flag prefix and its Spec, `Serve` with the single
arg that is its protocol-version flag makes the one write of the decimal protocol version
followed by a newline, calls no serve function and returns what the write returns, nil
when the write succeeds. -/
theorem Serve_protocol_flag_writes_version {C W X : Type} (x : Externals)
    (s : server (ServeFunc C W X)) (env : Env W X)
    (hargs : env.Args = [fullFlag s.flagPrefix flagProtocolSuffix]) :
    s.Serve x env = ServeAction.writeStdout (strconv.Itoa x.protocolVersion ++ "\n") ∧
    (∀ (ctx : C) (w : W), s.ServeRun x ctx env w =
      (Result.returned (env.Stdout (strconv.Itoa x.protocolVersion ++ "\n") w).1,
        (env.Stdout (strconv.Itoa x.protocolVersion ++ "\n") w).2)) ∧
    (∀ (ctx : C) (w w' : W),
      env.Stdout (strconv.Itoa x.protocolVersion ++ "\n") w = (none, w') →
      s.ServeRun x ctx env w = (Result.returned none, w')) := by
  have h := server.Serve_protocol_flag x s env hargs
  have hrun : ∀ (ctx : C) (w : W), s.ServeRun x ctx env w =
      (Result.returned (env.Stdout (strconv.Itoa x.protocolVersion ++ "\n") w).1,
        (env.Stdout (strconv.Itoa x.protocolVersion ++ "\n") w).2) := by
    intro ctx w
    unfold server.ServeRun
    rw [h, ServeAction.run_writeStdout]
  refine ⟨h, hrun, fun ctx w w' hw => ?_⟩
  rw [hrun, hw]

/-- C18, witness: on a Server whose Procedures claim the protocol-version flag as args and
as path, `Serve` with that flag writes the version 1 and a newline and calls no serve
function. -/
theorem Serve_protocol_flag_writes_version_witness :
    flagSpecServer.ServeRun exampleExternals () (logEnv ["--plugin-protocol"]) [] =
      (Result.returned none, [("stdout", ["1\n"])]) :=
  (Serve_protocol_flag_writes_version exampleExternals flagSpecServer
    (logEnv ["--plugin-protocol"]) rfl).2.2 () [] [("stdout", ["1\n"])] rfl

/-- A Server built with `ServerWithFlagPrefix(flagPrefix)` for a non-empty prefix has the
flags `--<prefix>-plugin-protocol` and `--<prefix>-plugin-spec`, and takes their actions
on them. On the single arg `--plugin-protocol` or `--plugin-spec` it takes no flag action:
it goes to the loop over the Procedures, and returns `args not recognized` when no
Procedure has that vector as its `[path]` or its args. A Server built with no option
takes the flag actions on `--plugin-protocol` and `--plugin-spec`. -/
theorem server.Serve_flags_of_options {F W X : Type} (x : Externals) (spec : Spec)
    (r : serverRegistrar F) (flagPrefix : String) (srv srv₀ : Server F) (env : Env W X)
    (hne : flagPrefix ≠ "")
    (hsrv : (NewServer spec r [ServerWithFlagPrefix flagPrefix]).1 = Except.ok srv)
    (hsrv₀ : (NewServer spec r []).1 = Except.ok srv₀) :
    (fullFlag srv.flagPrefix flagProtocolSuffix = "--" ++ flagPrefix ++ "-plugin-protocol" ∧
      fullFlag srv.flagPrefix flagSpecSuffix = "--" ++ flagPrefix ++ "-plugin-spec") ∧
    (env.Args = ["--" ++ flagPrefix ++ "-plugin-protocol"] →
      srv.Serve x env = ServeAction.writeStdout (strconv.Itoa x.protocolVersion ++ "\n")) ∧
    (env.Args = ["--" ++ flagPrefix ++ "-plugin-spec"] →
      srv.Serve x env =
        match x.marshalFlag (NewProtoSpec srv.spec) with
        | Except.error message => ServeAction.returnErr (Err.marshalFlag message)
        | Except.ok data => ServeAction.writeStdout (data ++ "\n")) ∧
    ((env.Args = ["--plugin-protocol"] ∨ env.Args = ["--plugin-spec"]) →
      srv.Serve x env = server.Serve.loop srv env.Args srv.spec.Procedures ∧
      ((∀ p ∈ srv.spec.Procedures, env.Args ≠ [p.Path] ∧ env.Args ≠ p.Args) →
        srv.Serve x env = ServeAction.returnErr (Err.argsNotRecognized env.Args))) ∧
    (env.Args = ["--plugin-protocol"] →
      srv₀.Serve x env = ServeAction.writeStdout (strconv.Itoa x.protocolVersion ++ "\n")) ∧
    (env.Args = ["--plugin-spec"] →
      srv₀.Serve x env =
        match x.marshalFlag (NewProtoSpec srv₀.spec) with
        | Except.error message => ServeAction.returnErr (Err.marshalFlag message)
        | Except.ok data => ServeAction.writeStdout (data ++ "\n")) := by
  obtain ⟨-, -, -, hs⟩ := (NewServer_eq_ok_iff spec r _ srv).mp hsrv
  obtain ⟨-, -, -, hs₀⟩ := (NewServer_eq_ok_iff spec r _ srv₀).mp hsrv₀
  have hpre : srv.flagPrefix = flagPrefix := by rw [hs]; rfl
  have hpre₀ : srv₀.flagPrefix = "" := by rw [hs₀]; rfl
  have hprotocol : fullFlag srv.flagPrefix flagProtocolSuffix =
      "--" ++ flagPrefix ++ "-plugin-protocol" := by
    rw [hpre]
    unfold fullFlag
    rw [if_neg hne, String.append_assoc]
    have : "-" ++ flagProtocolSuffix = "-plugin-protocol" := by decide
    rw [this]
  have hspec : fullFlag srv.flagPrefix flagSpecSuffix =
      "--" ++ flagPrefix ++ "-plugin-spec" := by
    rw [hpre]
    unfold fullFlag
    rw [if_neg hne, String.append_assoc]
    have : "-" ++ flagSpecSuffix = "-plugin-spec" := by decide
    rw [this]
  refine ⟨⟨hprotocol, hspec⟩, ?_, ?_, ?_, ?_, ?_⟩
  · intro hargs
    exact server.Serve_protocol_flag x srv env (by rw [hargs, hprotocol])
  · intro hargs
    exact server.Serve_spec_flag_eq x srv env (by rw [hargs, hspec])
  · intro hargs
    have h1 : env.Args ≠ [fullFlag srv.flagPrefix flagProtocolSuffix] := by
      rw [hpre]
      rcases hargs with h | h <;> rw [h] <;> intro heq <;>
        simp only [List.cons.injEq, and_true] at heq
      · exact fullFlag_protocol_ne_unprefixed flagPrefix hne heq.symm
      · exact fullFlag_protocol_ne_spec flagPrefix heq.symm
    have h2 : env.Args ≠ [fullFlag srv.flagPrefix flagSpecSuffix] := by
      rw [hpre]
      rcases hargs with h | h <;> rw [h] <;> intro heq <;>
        simp only [List.cons.injEq, and_true] at heq
      · exact fullFlag_spec_ne_protocol flagPrefix heq.symm
      · exact fullFlag_spec_ne_unprefixed flagPrefix hne heq.symm
    have hloop := server.Serve_eq_loop x srv env h1 h2
    refine ⟨hloop, fun hnone => ?_⟩
    rw [hloop, server.Serve.loop_eq]
    have hfind : srv.spec.Procedures.find? (fun p => decide (p.Matches env.Args)) = none := by
      rw [List.find?_eq_none]
      intro p hp
      have := hnone p hp
      simp only [Procedure.Matches, decide_eq_true_eq, not_or]
      exact this
    rw [hfind]
  · intro hargs
    exact server.Serve_protocol_flag x srv₀ env (by rw [hargs, hpre₀]; rfl)
  · intro hargs
    exact server.Serve_spec_flag_eq x srv₀ env (by rw [hargs, hpre₀]; rfl)

/-! ### Envelope round trip -/

/-- C20: under the laws of the protobuf libraries, for every request payload `m` and every
value `fresh` of the type of `m`, `marshalRequest(m)` returns data, and `unmarshalRequest`
on that data and `fresh` returns nil and leaves `fresh` equal to `m`; for every response
payload `r` and every value `fresh` of the type of `r`, `marshalResponse(r, nil)` returns
data, and `unmarshalResponse` on that data and `fresh` returns nil and leaves `fresh` equal
to `r`; and `marshalResponse(nil, nil)` returns data on which `unmarshalResponse` returns
nil and leaves the value as it was. -/
theorem envelope_round_trip {M A X : Type} (x : Codec M A X) (hx : LawfulCodec x) :
    (∀ m fresh : M, x.messageName fresh = x.messageName m →
      ∃ data : String, marshalRequest x m = Except.ok data ∧
        unmarshalRequest x data fresh = (none, m)) ∧
    (∀ r fresh : M, x.messageName fresh = x.messageName r →
      ∃ data : String, marshalResponse x (some r) none = Except.ok data ∧
        unmarshalResponse x data fresh = (none, r)) ∧
    (∀ fresh : M, ∃ data : String, marshalResponse x none none = Except.ok data ∧
      unmarshalResponse x data fresh = (none, fresh)) := by
  refine ⟨?_, ?_, ?_⟩
  · intro m fresh hname
    obtain ⟨a, ha⟩ := hx.anypbNew_ok m
    obtain ⟨data, hdata⟩ := hx.request_marshal_ok { Body := some a }
    have hm : marshalRequest x m = Except.ok data := by
      unfold marshalRequest
      rw [hx.toProtoMessage_eq m]
      simp only [ha, hdata]
    refine ⟨data, hm, ?_⟩
    obtain ⟨hne, hjson⟩ := hx.request_round_trip _ data hdata
    unfold unmarshalRequest
    rw [if_neg hne, hjson]
    simp only
    rw [hx.toProtoMessage_eq fresh]
    exact hx.anypb_round_trip m a fresh ha hname
  · intro r fresh hname
    obtain ⟨a, ha⟩ := hx.anypbNew_ok r
    obtain ⟨data, hdata⟩ := hx.response_marshal_ok (some a)
    have hm : marshalResponse x (some r) none = Except.ok data := by
      unfold marshalResponse marshalResponse.body
      simp only [hx.toProtoMessage_eq, hx.wrapErrorToProto_nil, ha, hdata]
    refine ⟨data, hm, ?_⟩
    obtain ⟨hne, hjson⟩ := hx.response_round_trip _ data hdata
    unfold unmarshalResponse
    rw [if_neg hne, hjson]
    simp only
    rw [hx.toProtoMessage_eq fresh]
    simp only [hx.anypb_round_trip r a fresh ha hname]
  · intro fresh
    obtain ⟨data, hdata⟩ := hx.response_marshal_ok none
    have hm : marshalResponse x none none = Except.ok data := by
      unfold marshalResponse marshalResponse.body
      simp only [hx.wrapErrorToProto_nil, hdata]
    refine ⟨data, hm, ?_⟩
    obtain ⟨hne, hjson⟩ := hx.response_round_trip _ data hdata
    unfold unmarshalResponse
    rw [if_neg hne, hjson]

/-- C20, witness: with the toy codec, the request `hello` is marshalled to `Bhello` and the
response `hello` to `Bhello`, and each comes back from its envelope into the default
message; no response is marshalled to `-`, which leaves the default message as it was. -/
theorem envelope_round_trip_witness :
    (marshalRequest toyCodec "hello" = Except.ok "Bhello" ∧
      unmarshalRequest toyCodec "Bhello" "" = (none, "hello")) ∧
    (marshalResponse toyCodec (some "hello") none = Except.ok "Bhello" ∧
      unmarshalResponse toyCodec "Bhello" "" = (none, "hello")) ∧
    (marshalResponse toyCodec none none = Except.ok "-" ∧
      unmarshalResponse toyCodec "-" "" = (none, "")) := by
  obtain ⟨hrequest, hresponse, hnone⟩ := envelope_round_trip toyCodec toyCodec_lawful
  refine ⟨?_, ?_, ?_⟩
  · obtain ⟨data, hm, hu⟩ := hrequest "hello" "" rfl
    have hdata : data = "Bhello" := (Except.ok.inj (hm.symm.trans rfl)).symm ▸ rfl
    rw [hdata] at hm hu
    exact ⟨hm, hu⟩
  · obtain ⟨data, hm, hu⟩ := hresponse "hello" "" rfl
    have hdata : data = "Bhello" := (Except.ok.inj (hm.symm.trans rfl)).symm ▸ rfl
    rw [hdata] at hm hu
    exact ⟨hm, hu⟩
  · obtain ⟨data, hm, hu⟩ := hnone ""
    have hdata : data = "-" := (Except.ok.inj (hm.symm.trans rfl)).symm ▸ rfl
    rw [hdata] at hm hu
    exact ⟨hm, hu⟩

/-! ### Dispatch on the empty argument vector -/

/-- With an empty argument vector a Procedure matches exactly when its args are empty. -/
theorem Procedure.Matches_nil (p : Procedure) : p.Matches [] ↔ p.Args = [] := by
  unfold Procedure.Matches
  constructor
  · rintro (h | h)
    · cases h
    · exact h.symm
  · intro h
    exact Or.inr h.symm

/-- `Serve` with an empty argument vector goes to the loop over the Procedures, which
stops at the first Procedure with empty args. -/
theorem server.Serve_nil_args {F W X : Type} (x : Externals) (s : server F) (env : Env W X)
    (hargs : env.Args = []) :
    s.Serve x env =
      match s.spec.Procedures.find? (fun p => decide (p.Args = [])) with
      | some p => ServeAction.callServeFunc (s.lookupServeFunc p.Path)
      | none => ServeAction.returnErr (Err.argsNotRecognized []) := by
  rw [server.Serve_eq_loop x s env (by rw [hargs]; exact List.noConfusion)
    (by rw [hargs]; exact List.noConfusion), server.Serve.loop_eq, hargs]
  have hfun : (fun p : Procedure => decide (p.Matches [])) =
      (fun p : Procedure => decide (p.Args = [])) := by
    funext p
    exact decide_eq_decide.mpr (Procedure.Matches_nil p)
  rw [hfun]

/-- A list with a Procedure of empty args splits at the first such Procedure. -/
theorem first_empty_args_split (procedures : List Procedure) :
    (∃ p ∈ procedures, p.Args = []) →
      ∃ (front : List Procedure) (p : Procedure) (back : List Procedure),
        procedures = front ++ p :: back ∧ (∀ q ∈ front, q.Args ≠ []) ∧ p.Args = [] := by
  induction procedures with
  | nil => rintro ⟨p, hmem, _⟩; cases hmem
  | cons q rest ih =>
    rintro ⟨p, hmem, hp⟩
    by_cases hq : q.Args = []
    · exact ⟨[], q, rest, rfl, by simp, hq⟩
    · rcases List.mem_cons.mp hmem with rfl | hrest
      · exact absurd hp hq
      · obtain ⟨front, p', back, hsplit, hfront, hp'⟩ := ih ⟨p, hrest, hp⟩
        refine ⟨q :: front, p', back, by rw [hsplit]; rfl, ?_, hp'⟩
        intro r hr
        rcases List.mem_cons.mp hr with rfl | hr
        · exact hq
        · exact hfront r hr

/-- C23: on an empty argument vector, when the Spec has a Procedure with empty args,
`Serve` calls the function that the map of the Server holds for the path of the first
such Procedure in the order of the Spec (every Procedure in front of it has non-empty
args), with the context and `env` it was given; and `Serve` returns the
`args not recognized` error exactly when every Procedure of the Spec has non-empty
args, then leaving the world as it was. -/
theorem Serve_empty_vector {C W X : Type} (x : Externals) (s : server (ServeFunc C W X))
    (env : Env W X) (hargs : env.Args = []) :
    (∀ (front : List Procedure) (p : Procedure) (back : List Procedure),
      s.spec.Procedures = front ++ p :: back → (∀ q ∈ front, q.Args ≠ []) → p.Args = [] →
      s.Serve x env = ServeAction.callServeFunc (s.lookupServeFunc p.Path) ∧
      ∀ serveFunc : ServeFunc C W X, s.lookupServeFunc p.Path = some serveFunc →
        ∀ (ctx : C) (w : W), s.ServeRun x ctx env w = serveFunc ctx env w) ∧
    ((∃ p ∈ s.spec.Procedures, p.Args = []) →
      ∃ (front : List Procedure) (p : Procedure) (back : List Procedure),
        s.spec.Procedures = front ++ p :: back ∧ (∀ q ∈ front, q.Args ≠ []) ∧ p.Args = []) ∧
    (s.Serve x env = ServeAction.returnErr (Err.argsNotRecognized env.Args) ↔
      ∀ p ∈ s.spec.Procedures, p.Args ≠ []) ∧
    ((∀ p ∈ s.spec.Procedures, p.Args ≠ []) → ∀ (ctx : C) (w : W),
      s.ServeRun x ctx env w =
        (Result.returned (some (GoError.built (Err.argsNotRecognized env.Args))), w)) := by
  have hserve := server.Serve_nil_args x s env hargs
  have hfirst : ∀ (front : List Procedure) (p : Procedure) (back : List Procedure),
      s.spec.Procedures = front ++ p :: back → (∀ q ∈ front, q.Args ≠ []) → p.Args = [] →
      s.Serve x env = ServeAction.callServeFunc (s.lookupServeFunc p.Path) := by
    intro front p back hsplit hfront hp
    rw [hserve, hsplit]
    have hfind : (front ++ p :: back).find? (fun p => decide (p.Args = [])) = some p := by
      rw [List.find?_append, List.find?_eq_none.mpr (fun q hq => by simpa using hfront q hq)]
      simp [hp]
    rw [hfind]
  have hnone : s.Serve x env = ServeAction.returnErr (Err.argsNotRecognized env.Args) ↔
      ∀ p ∈ s.spec.Procedures, p.Args ≠ [] := by
    rw [hserve, hargs]
    cases hfind : s.spec.Procedures.find? (fun p => decide (p.Args = [])) with
    | none =>
      rw [List.find?_eq_none] at hfind
      simp only [true_iff]
      intro p hp
      simpa using hfind p hp
    | some p =>
      have hmem := List.mem_of_find?_eq_some hfind
      have hp := List.find?_some hfind
      simp only [decide_eq_true_eq] at hp
      constructor
      · intro h; cases h
      · intro h; exact absurd hp (h p hmem)
  refine ⟨?_, ?_, hnone, ?_⟩
  · intro front p back hsplit hfront hp
    refine ⟨hfirst front p back hsplit hfront hp, ?_⟩
    intro serveFunc hlookup ctx w
    unfold server.ServeRun
    rw [hfirst front p back hsplit hfront hp, hlookup]
    rfl
  · exact first_empty_args_split s.spec.Procedures
  · intro hall ctx w
    unfold server.ServeRun
    rw [hnone.mpr hall]
    rfl

/-- C23, on the test server: `EchoList` is the first Procedure with empty args, behind
`EchoRequest`, and `Serve` with an empty argument vector calls its function. -/
theorem Serve_empty_vector_witness :
    (logEnv []).Args = [] ∧
    echoServer.spec.Procedures =
      [⟨"/EchoService/EchoRequest", ["echo", "request"]⟩] ++
        ⟨"/EchoService/EchoList", []⟩ :: [⟨"/EchoService/EchoError", ["echo", "error"]⟩] ∧
    echoServer.ServeRun exampleExternals () (logEnv []) [] =
      (Result.returned none, [("/EchoService/EchoList", [])]) :=
  ⟨rfl, rfl,
    ((Serve_empty_vector exampleExternals echoServer (logEnv []) rfl).1
      [⟨"/EchoService/EchoRequest", ["echo", "request"]⟩] ⟨"/EchoService/EchoList", []⟩
      [⟨"/EchoService/EchoError", ["echo", "error"]⟩] rfl (by decide) rfl).2
      (logServeFunc "/EchoService/EchoList") rfl () []⟩

/-! ### The functions a Server looks up -/

/-- The map of a fresh registrar holds no function at all. -/
theorem serverRegistrar.FuncsNonNil_new {F : Type} :
    (NewServerRegistrar : serverRegistrar F).FuncsNonNil := by
  intro path h
  cases h

/-- Method `Register` with a non-nil function keeps the functions of the map non-nil. -/
theorem serverRegistrar.FuncsNonNil_Register {F : Type} (r : serverRegistrar F)
    (h : r.FuncsNonNil) (path : String) (serveFunc : F) :
    (r.Register path (some serveFunc)).FuncsNonNil := by
  unfold serverRegistrar.Register
  by_cases hread : r.read = true
  · rw [if_pos hread]; exact h
  · rw [if_neg hread]
    by_cases hcontains : GoMap.contains r.pathToServeFuncMap path = true
    · rw [if_pos hcontains]; exact h
    · rw [if_neg hcontains]
      intro q
      show GoMap.get? (GoMap.set r.pathToServeFuncMap path (some serveFunc)) q ≠ some none
      rw [GoMap.get?_set]
      by_cases hq : path = q
      · rw [if_pos hq]
        intro hsome
        cases hsome
      · rw [if_neg hq]
        exact h q

/-- A run of `Register` calls with non-nil functions keeps the functions of the map
non-nil. -/
theorem serverRegistrar.FuncsNonNil_RegisterAll {F : Type} (calls : List (String × Option F))
    (hcalls : ∀ c ∈ calls, c.2 ≠ none) :
    ∀ r : serverRegistrar F, r.FuncsNonNil → (r.RegisterAll calls).FuncsNonNil := by
  induction calls with
  | nil => intro r h; exact h
  | cons c rest ih =>
    intro r h
    obtain ⟨path, serveFunc⟩ := c
    have hc : serveFunc ≠ none := hcalls (path, serveFunc) (List.mem_cons_self _ _)
    cases serveFunc with
    | none => exact absurd rfl hc
    | some f =>
      show ((r.Register path (some f)).RegisterAll rest).FuncsNonNil
      exact ih (fun c hmem => hcalls c (List.mem_cons_of_mem _ hmem)) _
        (serverRegistrar.FuncsNonNil_Register r h path f)

/-- The loop of `Serve` calls only what the map holds for the path of a Procedure of the
list. -/
theorem server.Serve.loop_lookup {F : Type} (s : server F) (args : List String)
    (procedures : List Procedure) (serveFunc : Option F)
    (h : server.Serve.loop s args procedures = ServeAction.callServeFunc serveFunc) :
    ∃ p ∈ procedures, p.Matches args ∧ serveFunc = s.lookupServeFunc p.Path := by
  rw [server.Serve.loop_eq] at h
  cases hfind : procedures.find? (fun p => decide (p.Matches args)) with
  | none => rw [hfind] at h; cases h
  | some p =>
    rw [hfind] at h
    have hp := List.find?_some hfind
    simp only [decide_eq_true_eq] at hp
    refine ⟨p, List.mem_of_find?_eq_some hfind, hp, ?_⟩
    cases h
    rfl

/-- Method `Serve` calls only what the map holds for the path of a Procedure of the Spec
that matches `env.Args`. -/
theorem server.Serve_lookup {F W X : Type} (x : Externals) (s : server F) (env : Env W X)
    (serveFunc : Option F) (h : s.Serve x env = ServeAction.callServeFunc serveFunc) :
    ∃ p ∈ s.spec.Procedures, p.Matches env.Args ∧ serveFunc = s.lookupServeFunc p.Path := by
  by_cases h1 : env.Args = [fullFlag s.flagPrefix flagProtocolSuffix]
  · rw [server.Serve_protocol_flag x s env h1] at h
    cases h
  · by_cases h2 : env.Args = [fullFlag s.flagPrefix flagSpecSuffix]
    · rw [server.Serve_spec_flag_eq x s env h2] at h
      cases hm : x.marshalFlag (NewProtoSpec s.spec) <;> rw [hm] at h <;> cases h
    · rw [server.Serve_eq_loop x s env h1 h2] at h
      exact server.Serve.loop_lookup s env.Args s.spec.Procedures serveFunc h

/-- C24: the map of a fresh registrar holds no nil function, and `Register` with a non-nil
function and the read of the map keep it so. When `NewServer` returns a Server for a
registrar whose map holds no nil function, the map of the Server has, for the path of
every Procedure of its Spec, an entry with a non-nil function, which is what the lookup
of `Serve` yields; `Serve` never calls the nil func, whatever `env` is; and after any
further `Register` calls on the registrar, with any function, the map of the registrar,
which is the map of the Server, is what it was. -/
theorem NewServer_lookup_never_nil {F W X : Type} :
    (NewServerRegistrar : serverRegistrar F).FuncsNonNil ∧
    (∀ (r : serverRegistrar F) (path : String) (serveFunc : F),
      r.FuncsNonNil → (r.Register path (some serveFunc)).FuncsNonNil) ∧
    (∀ r : serverRegistrar F, r.FuncsNonNil → r.pathToServeFunc.2.FuncsNonNil) ∧
    ∀ (spec : Spec) (r : serverRegistrar F) (options : List ServerOption) (srv : Server F),
      r.FuncsNonNil → (NewServer spec r options).1 = Except.ok srv →
      (∀ p ∈ srv.spec.Procedures, ∃ serveFunc : F,
        GoMap.get? srv.pathToServeFunc p.Path = some (some serveFunc) ∧
        srv.lookupServeFunc p.Path = some serveFunc) ∧
      (∀ (x : Externals) (env : Env W X), srv.Serve x env ≠ ServeAction.callServeFunc none) ∧
      ∀ later : List (String × Option F),
        ((NewServer spec r options).2.RegisterAll later).pathToServeFuncMap =
          srv.pathToServeFunc := by
  refine ⟨serverRegistrar.FuncsNonNil_new,
    fun r path serveFunc h => serverRegistrar.FuncsNonNil_Register r h path serveFunc, ?_, ?_⟩
  · intro r h
    rw [serverRegistrar.pathToServeFunc_snd]
    exact h
  · intro spec r options srv hnonnil hsrv
    have hentry : ∀ p ∈ srv.spec.Procedures, ∃ serveFunc : F,
        GoMap.get? srv.pathToServeFunc p.Path = some (some serveFunc) ∧
        srv.lookupServeFunc p.Path = some serveFunc := by
      obtain ⟨_, _, hreg, rfl⟩ := (NewServer_eq_ok_iff spec r options srv).mp hsrv
      intro p hp
      have hcontains := hreg p hp
      unfold GoMap.contains at hcontains
      obtain ⟨f, hget⟩ := Option.isSome_iff_exists.mp hcontains
      cases f with
      | none => exact absurd hget (hnonnil p.Path)
      | some serveFunc =>
        refine ⟨serveFunc, hget, ?_⟩
        unfold server.lookupServeFunc
        show (GoMap.get? r.pathToServeFuncMap p.Path).getD none = some serveFunc
        rw [hget]
        rfl
    refine ⟨hentry, ?_, ?_⟩
    · intro x env hcall
      obtain ⟨p, hp, _, hlookup⟩ := server.Serve_lookup x srv env none hcall
      obtain ⟨serveFunc, _, hsome⟩ := hentry p hp
      rw [hsome] at hlookup
      cases hlookup
    · intro later
      obtain ⟨_, _, _, rfl⟩ := (NewServer_eq_ok_iff spec r options srv).mp hsrv
      unfold NewServer
      rw [newServer_snd, serverRegistrar.RegisterAll_of_read later _ rfl]

/-- C24, on the test server: the Server of `echoSpec` and `echoRegistrar` holds the
function registered for `EchoList`, `Serve` with the vector `["echo", "list"]`, which no
Procedure matches, does not call the nil func, and a later `Register` of a nil function
for the path of `EchoList` leaves the map as it is. -/
theorem NewServer_lookup_never_nil_witness :
    echoRegistrar.FuncsNonNil ∧
    (NewServer echoSpec echoRegistrar []).1 = Except.ok echoServer ∧
    (∃ serveFunc : ServeFunc Unit CallLog Empty,
      GoMap.get? echoServer.pathToServeFunc "/EchoService/EchoList" = some (some serveFunc) ∧
      echoServer.lookupServeFunc "/EchoService/EchoList" = some serveFunc) ∧
    echoServer.Serve exampleExternals (logEnv ["echo", "list"]) ≠
      ServeAction.callServeFunc none ∧
    ((NewServer echoSpec echoRegistrar []).2.RegisterAll
      [("/EchoService/EchoList", none)]).pathToServeFuncMap = echoServer.pathToServeFunc :=
  have hnonnil : echoRegistrar.FuncsNonNil :=
    serverRegistrar.FuncsNonNil_RegisterAll _
      (fun c hc => by obtain ⟨p, _, rfl⟩ := List.mem_map.mp hc; exact Option.some_ne_none _)
      _ serverRegistrar.FuncsNonNil_new
  have h := (NewServer_lookup_never_nil (F := ServeFunc Unit CallLog Empty) (W := CallLog)
    (X := Empty)).2.2.2 echoSpec echoRegistrar [] echoServer hnonnil rfl
  ⟨hnonnil, rfl, h.1 ⟨"/EchoService/EchoList", []⟩ (by decide),
    h.2.1 exampleExternals (logEnv ["echo", "list"]),
    h.2.2 [("/EchoService/EchoList", none)]⟩

/-! ### `Handle` when the request cannot be read or decoded -/

/-- When reading the input fails, the body of `Handle` returns the failure right after the
read. -/
theorem handler.Handle.body_of_read_failure {C M A W X : Type} (x : Codec M A X) (ctx : C)
    (env : Env W X) (request : M) (handle : HandleFunc C M W X) (w w₁ : W) (data : String)
    (failure : GoError X) (hread : readStdin env.Stdin w = ((data, some failure), w₁)) :
    handler.Handle.body x ctx env request handle w = (some failure, w₁) := by
  unfold handler.Handle.body
  rw [hread]

/-- When decoding the request envelope fails, the body of `Handle` returns the failure
right after the read. -/
theorem handler.Handle.body_of_decode_failure {C M A W X : Type} (x : Codec M A X) (ctx : C)
    (env : Env W X) (request : M) (handle : HandleFunc C M W X) (w w₁ : W) (data : String)
    (failure : GoError X) (hread : readStdin env.Stdin w = ((data, none), w₁))
    (hdecode : (unmarshalRequest x data request).1 = some failure) :
    handler.Handle.body x ctx env request handle w = (some failure, w₁) := by
  unfold handler.Handle.body
  rw [hread]
  rcases hu : unmarshalRequest x data request with ⟨err, request'⟩
  rw [hu] at hdecode
  simp only at hdecode
  subst hdecode
  simp only [hu]

/-- C25: when reading the input fails with `failure`, or the input is read and decoding
the request envelope from it fails with `failure`, `w₁` being the world after the read,
`Handle` is `writeError` for `failure` on `w₁`, whatever the callback is, so the callback
is not invoked; and when `marshalResponse(nil, failure)` gives `out`, the one write of
`Handle` is that of `out` itself, with no newline added, and `Handle` returns nil unless
that write fails. -/
theorem Handle_failure_before_callback {C M A W X : Type} (x : Codec M A X) (ctx : C)
    (env : Env W X) (request : M) (handle : HandleFunc C M W X) (w w₁ : W) (data : String)
    (failure : GoError X)
    (hfail : readStdin env.Stdin w = ((data, some failure), w₁) ∨
      (readStdin env.Stdin w = ((data, none), w₁) ∧
        (unmarshalRequest x data request).1 = some failure)) :
    handler.Handle x ctx env request handle w = handler.writeError x env (some failure) w₁ ∧
    (∀ other : HandleFunc C M W X,
      handler.Handle x ctx env request other w = handler.Handle x ctx env request handle w) ∧
    ∀ out : String, marshalResponse x none (some failure) = Except.ok out →
      handler.Handle x ctx env request handle w =
        ((env.Stdout out w₁).1.map (GoError.wrapped "failed to write error to stdout"),
          (env.Stdout out w₁).2) := by
  have hbody : ∀ callback : HandleFunc C M W X,
      handler.Handle.body x ctx env request callback w = (some failure, w₁) := by
    intro callback
    rcases hfail with hread | ⟨hread, hdecode⟩
    · exact handler.Handle.body_of_read_failure x ctx env request callback w w₁ data failure
        hread
    · exact handler.Handle.body_of_decode_failure x ctx env request callback w w₁ data
        failure hread hdecode
  have hhandle : ∀ callback : HandleFunc C M W X,
      handler.Handle x ctx env request callback w =
        handler.writeError x env (some failure) w₁ := by
    intro callback
    unfold handler.Handle
    rw [hbody callback]
    rfl
  refine ⟨hhandle handle, fun other => (hhandle other).trans (hhandle handle).symm, ?_⟩
  intro out hmarshal
  rw [hhandle handle]
  exact handler.writeError_of_marshaled x env failure w₁ out hmarshal

/-- C25, with the toy codec: on input that is no request envelope, `Handle` with the
callback of `EchoRequest` reads the input and writes the error envelope of the decoding
failure, with no newline; the callback, which would record its call, is not invoked. -/
theorem Handle_failure_before_callback_witness :
    (readStdin (handlerEnv "garbage").Stdin [] = (("garbage", none), [("stdin", [])]) ∧
      (unmarshalRequest toyCodec "garbage" "").1 =
        some (GoError.other { Code := 3, Message := "invalid request" })) ∧
    marshalResponse toyCodec none
      (some (GoError.other { Code := 3, Message := "invalid request" })) =
        Except.ok "E3invalid request" ∧
    handler.Handle toyCodec () (handlerEnv "garbage") "" echoRequestHandle [] =
      (none, [("stdin", []), ("stdout", ["E3invalid request"])]) :=
  ⟨⟨rfl, rfl⟩, rfl,
    (Handle_failure_before_callback toyCodec () (handlerEnv "garbage") "" echoRequestHandle
      [] [("stdin", [])] "garbage" (GoError.other { Code := 3, Message := "invalid request" })
      (Or.inr ⟨rfl, rfl⟩)).2.2 "E3invalid request" rfl⟩

/-! ### `unmarshalResponse` -/

/-- Function `unmarshalResponse` on non-empty data that `protojson.Unmarshal` decodes: the
statement for the body, then the test of the error field. -/
theorem unmarshalResponse_of_decoded {M A X : Type} (x : Codec M A X) (data : String)
    (response : M) (protoResponse : ProtoResponse A) (hdata : data ≠ "")
    (hjson : x.protojsonUnmarshalResponse data = Except.ok protoResponse) :
    unmarshalResponse x data response =
      match unmarshalResponse.body x protoResponse.Body response with
      | (some err, response) => (some err, response)
      | (none, response) =>
        match protoResponse.Error with
        | some protoError => (x.newErrorForProto protoError, response)
        | none => (none, response) := by
  unfold unmarshalResponse unmarshalResponse.body
  rw [if_neg hdata]
  simp only [hjson]

/-- C22: for empty data `unmarshalResponse` returns nil and leaves the response value as
it was. For non-empty data that `protojson.Unmarshal` decodes to an envelope, with
`NewErrorForProto` giving a non-nil error for every wire error: when the body is absent,
or is decoded into the response value without an error, `unmarshalResponse` returns a
non-nil error exactly when the envelope carries an error field, namely the error
`NewErrorForProto` gives for that field, and returns nil otherwise; the response value
afterwards is the decoded body when a body is present, and is as it was when none is. When
decoding the body fails, `unmarshalResponse` returns that failure. -/
theorem unmarshalResponse_result {M A X : Type} (x : Codec M A X)
    (hnew : ∀ protoError : ProtoError, x.newErrorForProto protoError ≠ none)
    (data : String) (response : M) :
    (data = "" → unmarshalResponse x data response = (none, response)) ∧
    (∀ (protoResponse : ProtoResponse A) (response' : M), data ≠ "" →
      x.protojsonUnmarshalResponse data = Except.ok protoResponse →
      unmarshalResponse.body x protoResponse.Body response = (none, response') →
      ((unmarshalResponse x data response).1 ≠ none ↔ protoResponse.Error ≠ none) ∧
      (∀ protoError : ProtoError, protoResponse.Error = some protoError →
        unmarshalResponse x data response = (x.newErrorForProto protoError, response')) ∧
      (protoResponse.Error = none → unmarshalResponse x data response = (none, response')) ∧
      (protoResponse.Body = none → response' = response)) ∧
    (∀ (protoResponse : ProtoResponse A) (err : GoError X) (response' : M), data ≠ "" →
      x.protojsonUnmarshalResponse data = Except.ok protoResponse →
      unmarshalResponse.body x protoResponse.Body response = (some err, response') →
      unmarshalResponse x data response = (some err, response')) := by
  refine ⟨?_, ?_, ?_⟩
  · intro hdata
    unfold unmarshalResponse
    rw [if_pos hdata]
  · intro protoResponse response' hdata hjson hbody
    rw [unmarshalResponse_of_decoded x data response protoResponse hdata hjson, hbody]
    refine ⟨?_, ?_, ?_, ?_⟩
    · cases herr : protoResponse.Error with
      | none => simp
      | some protoError =>
        simp only [ne_eq, reduceCtorEq, not_false_eq_true, iff_true]
        exact hnew protoError
    · intro protoError herr
      rw [herr]
    · intro herr
      rw [herr]
    · intro hnone
      rw [hnone] at hbody
      exact (congrArg Prod.snd hbody).symm
  · intro protoResponse err response' hdata hjson hbody
    rw [unmarshalResponse_of_decoded x data response protoResponse hdata hjson, hbody]

/-- C22, with the toy codec: the envelope `E4hello` carries an error field and no body,
and `unmarshalResponse` returns the error of code 4 and message `hello`, leaving the
response value as it was. -/
theorem unmarshalResponse_result_witness :
    "E4hello" ≠ "" ∧
    toyCodec.protojsonUnmarshalResponse "E4hello" =
      Except.ok { Body := none, Error := some { Code := 4, Message := "hello" } } ∧
    unmarshalResponse toyCodec "E4hello" "" =
      (some (GoError.other { Code := 4, Message := "hello" }), "") :=
  ⟨by decide, rfl,
    ((unmarshalResponse_result toyCodec (fun _ h => Option.noConfusion h) "E4hello" "").2.1
      { Body := none, Error := some { Code := 4, Message := "hello" } } "" (by decide) rfl
      rfl).2.1 { Code := 4, Message := "hello" } rfl⟩

/-! ### Error round trip -/

/-- The code for the number of a code is that code. -/
theorem Code.ofProto_toProto (code : Code) : Code.ofProto code.toProto = code := by
  cases code <;> rfl

/-- The toy decoding of `toyErrorCodec` inverts its encoding of a response envelope. -/
theorem toyErrorCodec_response_round_trip (r : ProtoResponse String) (data : String)
    (h : toyErrorCodec.protojsonMarshalResponse r = Except.ok data) :
    data ≠ "" ∧ toyErrorCodec.protojsonUnmarshalResponse data = Except.ok r := by
  have henc : toyEncodeResponse r = Except.ok data := by
    have h' : (toyEncodeResponse r).mapError toyCodecFailure = Except.ok data := h
    cases hr : toyEncodeResponse r with
    | error err => rw [hr] at h'; cases h'
    | ok d =>
      rw [hr] at h'
      cases h'
      rfl
  obtain ⟨hne, hdec⟩ := toyDecodeResponse_toyEncodeResponse r data henc
  refine ⟨hne, ?_⟩
  show (toyDecodeResponse data.data).mapError toyCodecFailure = Except.ok r
  rw [hdec]
  rfl

/-- The toy encoding of `toyErrorCodec` encodes every envelope that carries only an error
of a code of the taxonomy. -/
theorem toyErrorCodec_marshal_ok (code : Code) (s : String) :
    ∃ data : String, toyErrorCodec.protojsonMarshalResponse
      { Body := none, Error := some { Code := code.toProto, Message := s } } =
        Except.ok data := by
  cases code <;> exact ⟨_, rfl⟩

/-- C21: with the error conversions of the error taxonomy, `protojson.Marshal` encoding
every envelope that carries only an error of a code of the taxonomy, and
`protojson.Unmarshal` giving back the envelope that `protojson.Marshal` encoded to
non-empty data: for every code of the taxonomy and every message `s`,
`marshalResponse(nil, err)` returns data for the Error `err` of that code whose cause has
message `s`, and `unmarshalResponse` on that data returns a non-nil Error of that code
whose cause has message `s`, and leaves the response value as it was. -/
theorem Error_round_trip {M A : Type} (x : Codec M A Error)
    (errorText : GoError Error → String)
    (hwrap : ∀ err : Option (GoError Error),
      x.wrapErrorToProto err = Error.ToProto (WrapError errorText err))
    (hnew : ∀ protoError : ProtoError,
      x.newErrorForProto protoError = some (GoError.other (NewErrorForProto protoError)))
    (hmarshal : ∀ (code : Code) (s : String), ∃ data : String,
      x.protojsonMarshalResponse
        { Body := none, Error := some { Code := code.toProto, Message := s } } =
          Except.ok data)
    (hjson : ∀ (r : ProtoResponse A) (data : String),
      x.protojsonMarshalResponse r = Except.ok data →
        data ≠ "" ∧ x.protojsonUnmarshalResponse data = Except.ok r)
    (code : Code) (s : String) (response : M) :
    ∃ data : String,
      marshalResponse x none (some (GoError.other { code := code, underlying := s })) =
        Except.ok data ∧
      unmarshalResponse x data response =
        (some (GoError.other { code := code, underlying := s }), response) := by
  obtain ⟨data, hdata⟩ := hmarshal code s
  have hm : marshalResponse x none (some (GoError.other { code := code, underlying := s })) =
      Except.ok data := by
    unfold marshalResponse marshalResponse.body
    simp only [hwrap, WrapError, Error.ToProto]
    exact hdata
  refine ⟨data, hm, ?_⟩
  obtain ⟨hne, hdecoded⟩ := hjson _ data hdata
  unfold unmarshalResponse
  rw [if_neg hne, hdecoded]
  simp only [hnew, NewErrorForProto, Code.ofProto_toProto]

/-- C21, with the toy codec over Errors: the Error of code `deadline-exceeded` with a
cause of message `hello` is marshalled to `E4hello` and comes back from it with that code
and that message. -/
theorem Error_round_trip_witness :
    marshalResponse toyErrorCodec none
      (some (GoError.other { code := Code.deadlineExceeded, underlying := "hello" })) =
        Except.ok "E4hello" ∧
    unmarshalResponse toyErrorCodec "E4hello" "" =
      (some (GoError.other { code := Code.deadlineExceeded, underlying := "hello" }),
        "") := by
  obtain ⟨data, hm, hu⟩ :=
    Error_round_trip toyErrorCodec (fun _ => "error") (fun _ => rfl) (fun _ => rfl)
      toyErrorCodec_marshal_ok toyErrorCodec_response_round_trip Code.deadlineExceeded
      "hello" ""
  have hdata : data = "E4hello" := (Except.ok.inj (hm.symm.trans rfl)).symm ▸ rfl
  rw [hdata] at hm hu
  exact ⟨hm, hu⟩

/-! ### Valid Procedures: lookup, dispatch and flags -/

/-- A flag starts with `-`. -/
theorem fullFlag_head (flagPrefix flagSuffix : String) :
    (fullFlag flagPrefix flagSuffix).data.head? = some '-' := by
  unfold fullFlag
  by_cases h : flagPrefix = ""
  · rw [if_pos h, String.data_append]
    rfl
  · rw [if_neg h, String.append_assoc, String.append_assoc, String.data_append]
    rfl

/-- The path of a valid Procedure is no flag. -/
theorem Procedure.Valid.path_ne_flag {p : Procedure} (hp : p.Valid)
    (flagPrefix flagSuffix : String) : p.Path ≠ fullFlag flagPrefix flagSuffix := by
  intro h
  have hhead := hp.1
  rw [h, fullFlag_head] at hhead
  revert hhead
  decide

/-- The args of a valid Procedure are no single string that starts with `-`. -/
theorem Procedure.Valid.args_ne_dashed {p : Procedure} (hp : p.Valid) (flag : String)
    (hflag : flag.data.head? = some '-') : p.Args ≠ [flag] := by
  intro h
  exact (hp.2 flag (by rw [h]; exact List.mem_cons_self _ _)).2.2 hflag

/-- The args of a valid Procedure are no single path of a valid Procedure. -/
theorem Procedure.Valid.args_ne_path {p q : Procedure} (hp : p.Valid) (hq : q.Valid) :
    p.Args ≠ [q.Path] := by
  intro h
  exact (hp.2 q.Path (by rw [h]; exact List.mem_cons_self _ _)).2.1 hq.1

/-- C2: for every list of valid Procedures whose paths are pairwise different and whose
non-empty args are pairwise different as sequences of strings, `NewSpec` returns a Spec,
which holds the list; `ProcedureForPath` on it returns each Procedure of the list for its
own path and nil for every path of no Procedure of the list. -/
theorem NewSpec_succeeds_on_distinct (procedures : List Procedure)
    (hvalid : ∀ p ∈ procedures, p.Valid)
    (hpath : ∀ (i j : Nat) (p q : Procedure), i < j → procedures[i]? = some p →
      procedures[j]? = some q → p.Path ≠ q.Path)
    (hargs : ∀ (i j : Nat) (p q : Procedure), i < j → procedures[i]? = some p →
      procedures[j]? = some q → p.Args ≠ [] → q.Args ≠ [] → p.Args ≠ q.Args) :
    ∃ s : Spec, NewSpec procedures = Except.ok s ∧ s.Procedures = procedures ∧
      (∀ p ∈ procedures, s.ProcedureForPath p.Path = some p) ∧
      (∀ path : String, (∀ p ∈ procedures, p.Path ≠ path) →
        s.ProcedureForPath path = none) := by
  refine NewSpec_ok_of_distinct_joined procedures hpath ?_
  intro i j p q hij hp hq hpne hqne hjoin
  refine hargs i j p q hij hp hq hpne hqne ?_
  exact Join_injective_of_no_space p.Args q.Args hpne hqne
    (fun a ha => (((hvalid p (List.getElem?_mem hp)).2 a ha).1))
    (fun a ha => (((hvalid q (List.getElem?_mem hq)).2 a ha).1)) hjoin

/-- C2, witness: the three Procedures of the test server are valid, and differ in their
paths and in their non-empty args; `NewSpec` accepts them and `ProcedureForPath` finds
each of them by its path. -/
theorem NewSpec_succeeds_on_distinct_witness :
    (∀ p ∈ echoProcedures, p.Valid) ∧
    ∃ s : Spec, NewSpec echoProcedures = Except.ok s ∧ s.Procedures = echoProcedures ∧
      (∀ p ∈ echoProcedures, s.ProcedureForPath p.Path = some p) ∧
      (∀ path : String, (∀ p ∈ echoProcedures, p.Path ≠ path) →
        s.ProcedureForPath path = none) :=
  ⟨by decide,
    NewSpec_succeeds_on_distinct echoProcedures (by decide)
      ((pairwise_iff_index (fun p q : Procedure => p.Path ≠ q.Path) echoProcedures).mp
        (by decide))
      ((pairwise_iff_index (fun p q : Procedure => p.Args ≠ [] → q.Args ≠ [] →
        p.Args ≠ q.Args) echoProcedures).mp (by decide))⟩

/-- C4: for a Server returned by `NewServer` for a Spec of valid Procedures and a
Procedure `p` of the Spec, `Serve` with `env.Args` equal to `[p.Path]` performs the one
call `serveFunc(ctx, env)` of the function registered for `p.Path` and returns its
result. -/
theorem Serve_path_dispatches {C W X : Type} (x : Externals) (spec : Spec)
    (r : serverRegistrar (ServeFunc C W X)) (options : List ServerOption)
    (srv : Server (ServeFunc C W X))
    (hvalid : ∀ q ∈ spec.Procedures, q.Valid)
    (hsrv : (NewServer spec r options).1 = Except.ok srv)
    (p : Procedure) (hp : p ∈ spec.Procedures)
    (env : Env W X) (hargs : env.Args = [p.Path]) :
    ∃ serveFunc : Option (ServeFunc C W X),
      GoMap.get? r.pathToServeFuncMap p.Path = some serveFunc ∧
      srv.Serve x env = ServeAction.callServeFunc serveFunc ∧
      ∀ (ctx : C) (w : W), srv.ServeRun x ctx env w =
        match serveFunc with
        | some f => f ctx env w
        | none => (Result.panicked, w) :=
  server.Serve_path_of_front x spec r options srv hsrv p hp env hargs
    ((hvalid p hp).path_ne_flag _ _) ((hvalid p hp).path_ne_flag _ _)
    (fun q hq => (hvalid q ((List.takeWhile_sublist _).subset hq)).args_ne_path (hvalid p hp))

/-- C4, witness: the Procedures of the test server are valid, and `Serve` with the path
of `EchoList` as its only arg calls the function registered for that path once, with
these args, and returns its nil. -/
theorem Serve_path_dispatches_witness :
    (∀ q ∈ echoSpec.Procedures, q.Valid) ∧
    echoServer.ServeRun exampleExternals () (logEnv ["/EchoService/EchoList"]) [] =
      (Result.returned none, [("/EchoService/EchoList", ["/EchoService/EchoList"])]) := by
  refine ⟨by decide, ?_⟩
  obtain ⟨serveFunc, hget, -, hrun⟩ :=
    Serve_path_dispatches exampleExternals echoSpec echoRegistrar [] echoServer (by decide)
      rfl ⟨"/EchoService/EchoList", []⟩ (by decide) (logEnv ["/EchoService/EchoList"]) rfl
  rw [hrun () []]
  have hf : serveFunc = some (logServeFunc "/EchoService/EchoList") :=
    Option.some.inj (hget.symm.trans rfl)
  rw [hf]
  rfl

/-- C5: for a Server returned by `NewServer` for a Spec that `NewSpec` returned for valid
Procedures, and a Procedure `p` of the Spec with non-empty args, `Serve` with `env.Args`
equal to `p.Args` performs the one call `serveFunc(ctx, env)` of the function registered
for `p.Path` and returns its result. -/
theorem Serve_args_dispatches {C W X : Type} (x : Externals) (procedures : List Procedure)
    (spec : Spec) (r : serverRegistrar (ServeFunc C W X)) (options : List ServerOption)
    (srv : Server (ServeFunc C W X))
    (hvalid : ∀ q ∈ procedures, q.Valid)
    (hspec : NewSpec procedures = Except.ok spec)
    (hsrv : (NewServer spec r options).1 = Except.ok srv)
    (p : Procedure) (hp : p ∈ spec.Procedures) (hne : p.Args ≠ [])
    (env : Env W X) (hargs : env.Args = p.Args) :
    ∃ serveFunc : Option (ServeFunc C W X),
      GoMap.get? r.pathToServeFuncMap p.Path = some serveFunc ∧
      srv.Serve x env = ServeAction.callServeFunc serveFunc ∧
      ∀ (ctx : C) (w : W), srv.ServeRun x ctx env w =
        match serveFunc with
        | some f => f ctx env w
        | none => (Result.panicked, w) := by
  have hprocs : spec.Procedures = procedures := by
    rw [((NewSpec_ok_iff procedures spec).mp hspec).2]
    rfl
  have hv : ∀ q ∈ spec.Procedures, q.Valid := fun q hq => hvalid q (hprocs ▸ hq)
  exact server.Serve_args_of_front x procedures spec r options srv hspec hsrv p hp hne env
    hargs ((hv p hp).args_ne_dashed _ (fullFlag_head _ _))
    ((hv p hp).args_ne_dashed _ (fullFlag_head _ _))
    (fun q hq => (hv p hp).args_ne_path (hv q ((List.takeWhile_sublist _).subset hq)))

/-- C5, witness: the Procedures of the test server are valid, and `Serve` with the args
`echo request` calls the function registered for the path of `EchoRequest` once and
returns its nil. -/
theorem Serve_args_dispatches_witness :
    (∀ q ∈ echoProcedures, q.Valid) ∧
    echoServer.ServeRun exampleExternals () (logEnv ["echo", "request"]) [] =
      (Result.returned none, [("/EchoService/EchoRequest", ["echo", "request"])]) := by
  refine ⟨by decide, ?_⟩
  obtain ⟨serveFunc, hget, -, hrun⟩ :=
    Serve_args_dispatches exampleExternals echoProcedures echoSpec echoRegistrar []
      echoServer (by decide) rfl rfl ⟨"/EchoService/EchoRequest", ["echo", "request"]⟩
      (by decide) (by decide) (logEnv ["echo", "request"]) rfl
  rw [hrun () []]
  have hf : serveFunc = some (logServeFunc "/EchoService/EchoRequest") :=
    Option.some.inj (hget.symm.trans rfl)
  rw [hf]
  rfl

/-- C19: a Server built with `ServerWithFlagPrefix(flagPrefix)`, for a non-empty prefix
and a Spec of valid Procedures, has the flags `--<prefix>-plugin-protocol` and
`--<prefix>-plugin-spec`, and takes their actions on them; on the single arg
`--plugin-protocol` or `--plugin-spec` it takes no flag action, calls no serve function
and returns `args not recognized`. A Server built with no option takes the flag actions
on `--plugin-protocol` and `--plugin-spec`. -/
theorem Serve_prefixed_flags {F W X : Type} (x : Externals) (spec : Spec)
    (r : serverRegistrar F) (flagPrefix : String) (srv srv₀ : Server F) (env : Env W X)
    (hvalid : ∀ q ∈ spec.Procedures, q.Valid)
    (hne : flagPrefix ≠ "")
    (hsrv : (NewServer spec r [ServerWithFlagPrefix flagPrefix]).1 = Except.ok srv)
    (hsrv₀ : (NewServer spec r []).1 = Except.ok srv₀) :
    (fullFlag srv.flagPrefix flagProtocolSuffix = "--" ++ flagPrefix ++ "-plugin-protocol" ∧
      fullFlag srv.flagPrefix flagSpecSuffix = "--" ++ flagPrefix ++ "-plugin-spec") ∧
    (env.Args = ["--" ++ flagPrefix ++ "-plugin-protocol"] →
      srv.Serve x env = ServeAction.writeStdout (strconv.Itoa x.protocolVersion ++ "\n")) ∧
    (env.Args = ["--" ++ flagPrefix ++ "-plugin-spec"] →
      srv.Serve x env =
        match x.marshalFlag (NewProtoSpec srv.spec) with
        | Except.error message => ServeAction.returnErr (Err.marshalFlag message)
        | Except.ok data => ServeAction.writeStdout (data ++ "\n")) ∧
    ((env.Args = ["--plugin-protocol"] ∨ env.Args = ["--plugin-spec"]) →
      srv.Serve x env = ServeAction.returnErr (Err.argsNotRecognized env.Args)) ∧
    (env.Args = ["--plugin-protocol"] →
      srv₀.Serve x env = ServeAction.writeStdout (strconv.Itoa x.protocolVersion ++ "\n")) ∧
    (env.Args = ["--plugin-spec"] →
      srv₀.Serve x env =
        match x.marshalFlag (NewProtoSpec srv₀.spec) with
        | Except.error message => ServeAction.returnErr (Err.marshalFlag message)
        | Except.ok data => ServeAction.writeStdout (data ++ "\n")) := by
  obtain ⟨hflags, hprotocol, hspecflag, hloop, hprotocol₀, hspecflag₀⟩ :=
    server.Serve_flags_of_options x spec r flagPrefix srv srv₀ env hne hsrv hsrv₀
  refine ⟨hflags, hprotocol, hspecflag, ?_, hprotocol₀, hspecflag₀⟩
  intro hargs
  refine (hloop hargs).2 ?_
  obtain ⟨-, -, -, hs⟩ := (NewServer_eq_ok_iff spec r _ srv).mp hsrv
  have hsp : srv.spec = spec := by rw [hs]
  rw [hsp]
  have hdash : ∃ flag : String, env.Args = [flag] ∧ flag.data.head? = some '-' := by
    rcases hargs with h | h
    · exact ⟨_, h, by decide⟩
    · exact ⟨_, h, by decide⟩
  obtain ⟨flag, hflag, hhead⟩ := hdash
  intro p hp
  rw [hflag]
  constructor
  · intro heq
    have hpath : flag = p.Path := by simpa using heq
    have hslash := (hvalid p hp).1
    rw [← hpath, hhead] at hslash
    revert hslash
    decide
  · intro heq
    exact (hvalid p hp).args_ne_dashed flag hhead heq.symm

/-- C19, witness: the Procedures of the test server are valid, and the test Server built
with the prefix `foo` answers `--plugin-protocol` with `args not recognized`. -/
theorem Serve_prefixed_flags_witness :
    (∀ q ∈ echoSpec.Procedures, q.Valid) ∧
    (NewServer echoSpec echoRegistrar [ServerWithFlagPrefix "foo"]).1 =
      Except.ok { spec := echoSpec, flagPrefix := "foo",
                  pathToServeFunc := echoServer.pathToServeFunc } ∧
    ({ spec := echoSpec, flagPrefix := "foo",
       pathToServeFunc := echoServer.pathToServeFunc } :
        Server (ServeFunc Unit CallLog Empty)).Serve exampleExternals
      (logEnv ["--plugin-protocol"]) =
      ServeAction.returnErr (Err.argsNotRecognized ["--plugin-protocol"]) :=
  ⟨by decide, rfl,
    (Serve_prefixed_flags exampleExternals echoSpec echoRegistrar "foo"
      { spec := echoSpec, flagPrefix := "foo", pathToServeFunc := echoServer.pathToServeFunc }
      echoServer (logEnv ["--plugin-protocol"]) (by decide) (by decide) rfl rfl).2.2.2.1
      (Or.inl rfl)⟩

end pluginrpc
